import Mathlib

/-!
Sparrow Event Library: verification development.

A shallow embedding of the concurrency kernel of the Sparrow Event Library
(`ring_list`, `Semaphore`, `Loop`, the signal dispatch of `connector.h`, the
scheduler of `Coroutine`, the coroutine pool and the timer service) and
theorems about it.

Conventions of the embedding.

* A pointer is a natural number.  A pointer to the cell `m_allocated[c][i]` of
  a `ring_list` is the flat index `64 * c + i`.
* A `std::function<void ()>` is `Option Nat`: `none` is the empty function
  (`nullptr`), `some k` is the closure with identity `k`.
* Counters declared `int` are natural numbers; every path that decrements one
  is guarded by a positivity test in the source.
* A time of the timer service, declared `double`, is exact, counted in ticks
  of the clock.  A score of the coroutine pool, declared `float`, is exact and
  counted in millionths where the members of the pool and the order of their
  scores are in question (`CoroutinePool`), and is the `float` of the source,
  with its rounding, where 1 is added to a score and subtracted from it
  (`FloatPool`).
* Code that several threads run is taken one critical section at a time: the
  scan of the timer thread is one step, and so is each body of its emission
  loop.
* An object is named by the id that its constructor took, and an alive handle
  by the id that was taken when the handle was made.
-/

namespace SpaE

/-! ## ring_list.h -/

/-- Cell of the ring, `ring_list::Item`: the payload and the successor. -/
structure Item (T : Type) where
  t : T
  next : Nat
deriving DecidableEq, Repr, Inhabited

/-- State of a `ring_list<T>`.  `m_allocated` is the concatenation of the
64-cell chunks in allocation order, so `m_allocated[c][i]` lives at
index `64 * c + i`. -/
structure ring_list (T : Type) where
  m_available : Nat
  m_size : Nat
  m_itemWrite : Nat
  m_itemRead : Nat
  m_allocated : List (Item T)
deriving DecidableEq, Repr

namespace ring_list

variable {T : Type} [Inhabited T]

/-- Value of `items.size()` on line 95 of `ring_list.h`.  The vector `items`
has been moved into `m_allocated` two lines earlier (`emplace_back(std::move(items))`),
and a vector that has been move-constructed from is empty. -/
def movedFromSize : Nat := 0

/-- Overwrite the `next` field of the cell at index `i`. -/
def setNext (cells : List (Item T)) (i : Nat) (n : Nat) : List (Item T) :=
  cells.set i { t := (cells.getD i default).t, next := n }

/-- Overwrite the payload of the cell at index `i`. -/
def setT (cells : List (Item T)) (i : Nat) (v : T) : List (Item T) :=
  cells.set i { t := v, next := (cells.getD i default).next }

/-- Body of `ring_list::newItems`: a chunk of 64 cells, chained in order, is
linked behind the last allocated cell and closes the ring at the very first
cell.  The `next` of the last new cell is null until one of the two branches
writes it. -/
def newItems (r : ring_list T) : ring_list T :=
  let base := r.m_allocated.length
  let items : List (Item T) :=
    (List.range 64).map (fun i => { t := default, next := if i < 63 then base + i + 1 else 0 })
  if r.m_allocated.length = 0 then
    { r with
      m_itemWrite := base
      m_itemRead := base
      m_allocated := r.m_allocated ++ setNext items 63 base
      m_size := r.m_size + movedFromSize }
  else
    { r with
      m_allocated := setNext r.m_allocated (base - 1) base ++ setNext items 63 0
      m_size := r.m_size + movedFromSize }

/-- Constructor `ring_list()`. -/
def new : ring_list T :=
  newItems { m_available := 0, m_size := 0, m_itemWrite := 0, m_itemRead := 0, m_allocated := [] }

/-- Both overloads of `ring_list::push`. -/
def push (r : ring_list T) (v : T) : ring_list T :=
  let r1 := if r.m_available = r.m_size then newItems r else r
  { r1 with
    m_allocated := setT r1.m_allocated r1.m_itemWrite v
    m_itemWrite := (r1.m_allocated.getD r1.m_itemWrite default).next
    m_available := r1.m_available + 1 }

/-- Accessor `ring_list::available`. -/
def available (r : ring_list T) : Nat := r.m_available

/-- Method `ring_list::pop`: `none` is the return value 0 (nothing delivered),
`some (v, r)` is the return value 1 with `v` stored through the reference.
The payload left behind in the cell is the moved-from value, which the
language leaves unspecified; the model keeps the old payload there. -/
def pop (r : ring_list T) : Option (T × ring_list T) :=
  if r.m_available = 0 then none
  else
    some ((r.m_allocated.getD r.m_itemRead default).t,
      { r with
        m_itemRead := (r.m_allocated.getD r.m_itemRead default).next
        m_available := r.m_available - 1 })

/-- Push the values of a list, first to last. -/
def pushAll (r : ring_list T) (vs : List T) : ring_list T :=
  vs.foldl push r

/-- Successor of the cell at index `i`. -/
def nextOf (cells : List (Item T)) (i : Nat) : Nat := (cells.getD i default).next

/-- The cell reached from cell `i` by following `next` `n` times. -/
def walk (cells : List (Item T)) : Nat → Nat → Nat
  | 0, i => i
  | n + 1, i => walk cells n (nextOf cells i)

/-- Invariant of the ring in every state reached from the constructor by
`push` and `pop`: `m_size` is 0, both pointers and every `next` point into
the allocated cells, and the write pointer is `m_available` steps ahead of the
read pointer. -/
def Inv (r : ring_list T) : Prop :=
  r.m_size = 0 ∧
  r.m_itemRead < r.m_allocated.length ∧
  r.m_itemWrite < r.m_allocated.length ∧
  (∀ i, i < r.m_allocated.length → nextOf r.m_allocated i < r.m_allocated.length) ∧
  walk r.m_allocated r.m_available r.m_itemRead = r.m_itemWrite

end ring_list

/-- Call made on a `ring_list` by its user. -/
inductive RingOp (T : Type) where
  | push (v : T)
  | pop
deriving DecidableEq, Repr

/-- Run a sequence of calls on the ring; the result lists what every `pop`
delivered (`none` for a `pop` returning 0) and the final ring. -/
def runRing {T : Type} [Inhabited T] : List (RingOp T) → ring_list T → List (Option T) × ring_list T
  | [], r => ([], r)
  | RingOp.push v :: ops, r => runRing ops (r.push v)
  | RingOp.pop :: ops, r =>
    match r.pop with
    | none => let out := runRing ops r; (none :: out.1, out.2)
    | some (v, r1) => let out := runRing ops r1; (some v :: out.1, out.2)

/-- The unbounded FIFO queue the ring is meant to implement, run on the same
sequence of calls: the queue content is a list, `push` appends, `pop` removes
the head. -/
def runFifo {T : Type} : List (RingOp T) → List T → List (Option T) × List T
  | [], q => ([], q)
  | RingOp.push v :: ops, q => runFifo ops (q ++ [v])
  | RingOp.pop :: ops, [] => let out := runFifo ops []; (none :: out.1, out.2)
  | RingOp.pop :: ops, v :: q => let out := runFifo ops q; (some v :: out.1, out.2)

/-- The failing call sequence: 129 pushes of the values 1, 2, ..., 129 with no
pop in between, then one pop. -/
def overflowOps : List (RingOp Nat) :=
  (List.range' 1 129).map RingOp.push ++ [RingOp.pop]

/-! ## semaphore.h -/

/-- Counting semaphore `SpaE::Semaphore`; only the counter is state. -/
structure Semaphore where
  m_value : Nat
deriving DecidableEq, Repr

namespace Semaphore

/-- Method `Semaphore::post`. -/
def post (s : Semaphore) : Semaphore := { m_value := s.m_value + 1 }

/-- Method `Semaphore::tryWait`: the returned flag and the semaphore afterwards. -/
def tryWait (s : Semaphore) : Bool × Semaphore :=
  if s.m_value > 0 then (true, { m_value := s.m_value - 1 }) else (false, s)

/-- Method `Semaphore::wait`: `none` when the caller stays blocked because the
counter is 0, otherwise the semaphore after the decrement. -/
def wait (s : Semaphore) : Option Semaphore :=
  if s.m_value > 0 then some { m_value := s.m_value - 1 } else none

end Semaphore

/-! ## loop.h, loop.cc: the work queue -/

/-- Type `Loop::WorkFun`, a `std::function<void ()>`: `none` is the empty
function, `some k` the closure with identity `k`. -/
abbrev WorkFun := Option Nat

/-- Type `Loop::Priority`, an `unsigned int`. -/
abbrev Priority := Nat

/-- Enumerator `Loop::HighPriority`. -/
def HighPriority : Priority := 0

/-- Insertion `std::multimap::emplace`: the map is kept as the list of its
entries in iteration order, and a new entry goes behind the entries whose key
is not larger (the upper bound of the equal range). -/
def multimapEmplace : List (Priority × WorkFun) → Priority → WorkFun → List (Priority × WorkFun)
  | [], k, w => [(k, w)]
  | (k1, w1) :: m, k, w =>
    if k < k1 then (k, w) :: (k1, w1) :: m else (k1, w1) :: multimapEmplace m k w

/-- The queue state of a `Loop`: the members read and written by `work`,
`workSync`, `process` and `processData`. -/
structure Loop where
  m_runSem : Semaphore
  m_highPriWorkTable : ring_list WorkFun
  m_eventsMap : List (Priority × WorkFun)
  m_workFun : WorkFun
deriving DecidableEq, Repr

namespace Loop

/-- Queue state of a freshly constructed `Loop`. -/
def new : Loop :=
  { m_runSem := { m_value := 0 }
    m_highPriWorkTable := ring_list.new
    m_eventsMap := []
    m_workFun := none }

/-- Both overloads of `Loop::workHelper`. -/
def workHelper (l : Loop) (w : WorkFun) (pri : Priority) : Loop :=
  let l1 : Loop :=
    if pri = HighPriority then
      { l with m_highPriWorkTable := l.m_highPriWorkTable.push w }
    else
      { l with m_eventsMap := multimapEmplace l.m_eventsMap pri w }
  { l1 with m_runSem := l1.m_runSem.post }

/-- Both overloads of `Loop::work` (the body runs under `m_operateMutex`). -/
def work (l : Loop) (w : WorkFun) (pri : Priority) : Loop :=
  workHelper l w pri

/-- Enqueue a list of closures with `work`, first to last. -/
def workAll (l : Loop) (ws : List (WorkFun × Priority)) : Loop :=
  ws.foldl (fun l1 wp => work l1 wp.1 wp.2) l

/-- The pop step of `Loop::processData` (lines 316 to 331): `none` is the
`break`; otherwise the Loop with the taken closure in `m_workFun`, together
with the priority the taken item was enqueued with.  An item of the ring was
enqueued with `HighPriority`, since `workHelper` pushes no other. -/
def takeWork (l : Loop) : Option (Priority × Loop) :=
  match l.m_highPriWorkTable.pop with
  | some (w, r) => some (HighPriority, { l with m_workFun := w, m_highPriWorkTable := r })
  | none =>
    match l.m_eventsMap with
    | [] => none
    | (k, w) :: rest => some (k, { l with m_workFun := w, m_eventsMap := rest })

/-- Method `Loop::processData`.  `exec k` is what running closure `k` to
completion does to the queue state of this Loop (items enqueued meanwhile).
The result is the list of closures invoked, in order, and the final state, or
`none` for the state when the fuel ran out before the do-while loop ended. -/
def processData (exec : Nat → Loop → Loop) : Nat → Loop → List Nat × Option Loop
  | 0, _ => ([], none)
  | fuel + 1, l =>
    match takeWork l with
    | none => ([], some l)
    | some (_, l1) =>
      let ran : List Nat × Loop :=
        match l1.m_workFun with
        | some k => ([k], exec k l1)
        | none => ([], l1)
      match ran.2.m_runSem.tryWait with
      | (true, s) =>
        let out := processData exec fuel { ran.2 with m_runSem := s }
        (ran.1 ++ out.1, out.2)
      | (false, _) => (ran.1, some ran.2)

/-- One iteration of the `while` loop of `Loop::run`: `m_runSem.wait()` (the
thread stays blocked when nothing is posted, `none`), then `processData()`. -/
def runPass (exec : Nat → Loop → Loop) (fuel : Nat) (l : Loop) : Option (List Nat × Option Loop) :=
  match l.m_runSem.wait with
  | none => none
  | some s => some (processData exec fuel { l with m_runSem := s })

/-- Priorities of the pending items: one `HighPriority` per item the ring
reports available, then the keys of the multimap. -/
def pendingPriorities (l : Loop) : List Priority :=
  List.replicate l.m_highPriWorkTable.available HighPriority ++ l.m_eventsMap.map Prod.fst

/-- Closures that run without touching the queue of the Loop. -/
def inert : Nat → Loop → Loop := fun _ l => l

end Loop

/-! ## loop.cc: thread affinity -/

/-- The process-wide registry of `loop.cc`: `g_loopPoolMap`, an
`unordered_map` from thread id to `Loop *` kept as the list of its entries
(the constructor of the Loop that runs on thread `t` emplaces `(t, this)`), and
the default Loop held by the static `instance` of `Loop::getInstance`. -/
structure LoopPool where
  g_loopPoolMap : List (Nat × Nat)
  defaultLoop : Nat
deriving DecidableEq, Repr

namespace LoopPool

/-- Function `Loop::getInstance`. -/
def getInstance (p : LoopPool) : Nat := p.defaultLoop

/-- Function `Loop::getCurrentLoop`, called on thread `tid`. -/
def getCurrentLoop (p : LoopPool) (tid : Nat) : Nat :=
  match p.g_loopPoolMap.lookup tid with
  | some l => l
  | none => p.getInstance

/-- Thread `tid` is the thread started by the constructor of Loop `loop`. -/
def ownThread (p : LoopPool) (loop tid : Nat) : Prop := (tid, loop) ∈ p.g_loopPoolMap

instance (p : LoopPool) (loop tid : Nat) : Decidable (p.ownThread loop tid) := by
  unfold ownThread; infer_instance

/-- Thread `tid` is the thread of no Loop. -/
def ownsNoLoop (p : LoopPool) (tid : Nat) : Prop := p.g_loopPoolMap.lookup tid = none

instance (p : LoopPool) (tid : Nat) : Decidable (p.ownsNoLoop tid) := by
  unfold ownsNoLoop; infer_instance

/-- An `unordered_map` holds one entry per key. -/
def uniqueKeys (p : LoopPool) : Prop := (p.g_loopPoolMap.map Prod.fst).Nodup

instance (p : LoopPool) : Decidable p.uniqueKeys := by
  unfold uniqueKeys; infer_instance

end LoopPool

namespace Loop

/-- Method `Loop::waitEvent` of the Loop at address `this`, called on thread
`tid`.  An error is the `std::runtime_error`; `none` is a caller left blocked
in `m_runSem.wait()`. -/
def waitEvent (p : LoopPool) (this tid : Nat) (l : Loop) : Except String (Option Loop) :=
  if this ≠ p.getCurrentLoop tid then
    .error "Loop::process() incorrect call in another thread \r\n"
  else
    .ok (l.m_runSem.wait.map fun s => { l with m_runSem := s })

/-- Method `Loop::process`. -/
def process (p : LoopPool) (this tid : Nat) (exec : Nat → Loop → Loop) (fuel : Nat) (l : Loop) :
    Except String (List Nat × Option Loop) :=
  if this ≠ p.getCurrentLoop tid then
    .error "Loop::process() incorrect call in another thread \r\n"
  else
    match l.m_runSem.tryWait with
    | (false, _) => .ok ([], some l)
    | (true, s) => .ok (processData exec fuel { l with m_runSem := s })

/-- Method `Loop::waitProcess`. -/
def waitProcess (p : LoopPool) (this tid : Nat) (exec : Nat → Loop → Loop) (fuel : Nat) (l : Loop) :
    Except String (Option (List Nat × Option Loop)) :=
  if this ≠ p.getCurrentLoop tid then
    .error "Loop::waitProcess() incorrect call in another thread \r\n"
  else
    .ok (l.m_runSem.wait.map fun s => processData exec fuel { l with m_runSem := s })

/-- What a call of `Loop::workSync` has done when it reaches its last
statement. -/
inductive SyncResult where
  /-- The inline path threw out of `process()`. -/
  | threw (msg : String)
  /-- The inline path: `process()` invoked closures, then `w()` ran; the call
  returns. -/
  | returned (invoked : List Nat) (l : Option Loop)
  /-- The enqueue path: both closures are queued and the caller is in
  `sem.wait()`, to be released when the Loop thread invokes `semPost`. -/
  | waiting (l : Loop)
deriving DecidableEq, Repr

/-- Both overloads of `Loop::workSync`, for the closure `w`, called on thread
`tid`; `semPost` is the identity of the closure `[&] { sem.post(); }`. -/
def workSync (p : LoopPool) (this tid : Nat) (exec : Nat → Loop → Loop) (fuel : Nat) (l : Loop)
    (w : Nat) (pri : Priority) (semPost : Nat) : SyncResult :=
  if p.getCurrentLoop tid = this then
    match process p this tid exec fuel l with
    | .error msg => .threw msg
    | .ok (tr, none) => .returned tr none
    | .ok (tr, some l1) => .returned (tr ++ [w]) (some (exec w l1))
  else
    .waiting (workHelper (workHelper l (some w) pri) (some semPost) pri)

/-- The closures the Loop thread has invoked at the moment it releases the
caller of `workSync`: everything up to and including the first invocation of
`semPost`. -/
def invokedAtRelease (semPost : Nat) (tr : List Nat) : List Nat :=
  tr.takeWhile (fun k => k != semPost) ++ [semPost]

end Loop

/-! ## connector.h: the range check of `connect` -/

/-- The test on line 340 of `connect(sender, signal, slot, mode)`: the sender
object is at address `sender`, `sizeofSender` is `sizeof(SenderObject)`, the
signal at address `signal`; addresses are `size_t`, 64 bits wide. -/
def connect (sender sizeofSender signal : Nat) : Except String Unit :=
  if signal < sender ∨ signal > (sender + sizeofSender) % 2 ^ 64 then
    .error "signal not property of sender ?"
  else
    .ok ()

/-- The test on line 605 of `connect(sender, signal, receiver, slot, mode)`. -/
def connectReceiver (sender sizeofSender signal : Nat) : Except String Unit :=
  if signal < sender ∨ signal > (sender + sizeofSender) % 2 ^ 64 then
    .error "signal not property of sender ?"
  else
    .ok ()

/-! ## object.h, object.cc, connector.h: the signal graph -/

/-- Delivery mode `Connect::Mode`. -/
inductive Mode where
  | Auto
  | Sync
deriving DecidableEq, Repr

/-- The fields of a `Connect` record that its constructor writes and nothing
changes afterwards.  An object is named by the id that its constructor took,
and an alive handle by the id that was taken when the handle was made, so the
handle that the constructor of an object makes has the name of the object.
The record is constructed while sender and receiver hold that handle:
`senderAlive` is `sender`, and `receiverAlive` is `receiver`.
`receiver = none` is the null receiver pointer; `signal` and `slot` are the
addresses stored in the record. -/
structure Connect where
  mode : Mode
  sender : Nat
  receiver : Option Nat
  receiverLoop : Nat
  signal : Nat := 0
  slot : Nat := 0
deriving DecidableEq, Repr

/-- Field `Connect::receiverId`: 0 when there is no receiver, else the id of
the receiver. -/
def Connect.receiverId (c : Connect) : Nat :=
  match c.receiver with
  | some r => r
  | none => 0

/-- Field `Connect::receiverAlive`: the alive handle that the receiver held when
the record was constructed, a null pointer (`none`) when there is no receiver.
The record keeps this handle when `Object::operator=` gives the receiver
another one (`Object.assign`). -/
def Connect.receiverAlive (c : Connect) : Option Nat := c.receiver

/-- A closure posted with `Loop::work` by a `disconnectFun` or by one of the
`disconnect` functions. -/
inductive Cleanup where
  /-- The closure that runs `sender->removeAsSenderSharedConnect(scb)` and
  `signal->removeConnect(scb)` if the sender is alive. -/
  | sender (sender conn : Nat)
  /-- The closure that runs `receiver->removeAsReceiverSharedConnect(scb)` if
  the receiver is alive. -/
  | receiver (receiver conn : Nat)
  /-- The closure of `SpaE::disconnect(Object *, Object *)` that runs
  `sender->disconnect(receiverId)` if the sender is alive. -/
  | disconnectReceiver (sender receiverId : Nat)
  /-- The closure of `SpaE::disconnectAsSender` that runs
  `sender->disconnect(signal)` if the sender is alive. -/
  | disconnectSignal (sender signal : Nat)
deriving DecidableEq, Repr

/-- The mutable state of the signal graph around one signal `S`:
`connAlive c` is `ConnectBase::alive` of connection `c`, `objAlive h` is
`AliveMutex::alive` of the alive handle `h`, `objLoop o` is `Object::m_loop` of
object `o`, the two connection sets of every object, the set
`Loop::m_sharedConnectBaseSet` of every Loop, the members of `S` (`m_loop`,
with 0 for the null pointer, the handle `m_containerAlive` that
`bindContainer` took from the container, the map from connection to slot and
the connection set, both in iteration order), and the cleanup closures posted
so far with the Loop each went to. -/
structure World where
  connAlive : Nat → Bool
  objAlive : Nat → Bool
  objLoop : Nat → Nat
  m_asSenderConnectSet : Nat → List Nat
  m_asReceiverConnectSet : Nat → List Nat
  m_sharedConnectBaseSet : Nat → List Nat
  m_loop : Nat
  m_containerAlive : Nat
  m_connectFunMap : List (Nat × Nat)
  m_connectSet : List Nat
  posted : List (Nat × Cleanup)

/-- What an emission does, in order. -/
inductive Event (A : Type) where
  /-- The call `m_func()` on the thread of the emission: slot `slot` of
  connection `conn` runs with `args`. -/
  | invoke (conn slot : Nat) (args : A)
  /-- The call `receiverLoop->work(...)` (`sync = false`) or
  `receiverLoop->workSync(...)` (`sync = true`) of a closure that runs the slot
  with `args`, behind the test of the alive handle of `guard` when there is
  one. -/
  | post (loop : Nat) (sync : Bool) (guard : Option Nat) (conn slot : Nat) (args : A)
  /-- The call `m_loop->work(...)` of `Signal::dispatch` from another thread. -/
  | emitLater (loop : Nat) (args : A)
deriving DecidableEq, Repr

/-- Connection an event delivers to, if any. -/
def Event.conn? {A : Type} : Event A → Option Nat
  | .invoke c _ _ => some c
  | .post _ _ _ c _ _ => some c
  | .emitLater _ _ => none

/-- The three `disconnectFun` closures of `connector.h`, applied to the
connection `c` they belong to. -/
def disconnectFun (conn : Nat → Connect) (c : Nat) (w : World) : World :=
  if !w.connAlive c then w
  else
    let w1 : World := { w with connAlive := Function.update w.connAlive c false }
    let w2 : World :=
      if w1.objAlive (conn c).sender then
        { w1 with posted := w1.posted ++ [(w1.objLoop (conn c).sender, Cleanup.sender (conn c).sender c)] }
      else w1
    match (conn c).receiver with
    | some r =>
      if w2.objAlive r then
        { w2 with posted := w2.posted ++ [(w2.objLoop r, Cleanup.receiver r c)] }
      else w2
    | none =>
      let rl := (conn c).receiverLoop
      let set1 := (w2.m_sharedConnectBaseSet rl).erase c
      { w2 with m_sharedConnectBaseSet := Function.update w2.m_sharedConnectBaseSet rl set1 }

/-- Destructor `Object::~Object` of an object `o` that holds the alive handle
of its constructor; `Object.destructorOf` is the destructor of an object that
holds another handle. -/
def Object.destructor (conn : Nat → Connect) (o : Nat) (w : World) : World :=
  let w1 : World := { w with objAlive := Function.update w.objAlive o false }
  let w2 := (w1.m_asSenderConnectSet o).foldl (fun v c => disconnectFun conn c v) w1
  (w2.m_asReceiverConnectSet o).foldl (fun v c => disconnectFun conn c v) w2

/-- Run of a closure that an emission posted to the receiver Loop: the wrapper
of lines 192 to 198 returns when the handle of `guard` is dead, otherwise the
slot runs.  `eff slot args` is what running the slot does to the graph. -/
def runPosted {A : Type} (eff : Nat → A → World → World) (guard : Option Nat) (conn slot : Nat)
    (args : A) (w : World) : List (Event A) × World :=
  match guard with
  | some r => if !w.objAlive r then ([], w) else ([Event.invoke conn slot args], eff slot args w)
  | none => ([Event.invoke conn slot args], eff slot args w)

/-- Result of one pass through the body of the `for` loop of
`Signal::dispatchHelper`: the events, the graph afterwards, and whether the
pass left through the `return` of line 217. -/
structure Step (A : Type) where
  events : List (Event A)
  world : World
  stop : Bool

/-- Lines 187 to 218 of `Signal::dispatchHelper`, once `receiverLoop` is known. -/
def deliver {A : Type} (conn : Nat → Connect) (eff : Nat → A → World → World) (sharedAlive : Nat)
    (args : A) (item slot receiverLoop : Nat) (w : World) : Step A :=
  if receiverLoop = w.m_loop then
    let w1 := eff slot args w
    { events := [Event.invoke item slot args], world := w1, stop := !w1.objAlive sharedAlive }
  else
    let guard := (conn item).receiver
    match (conn item).mode with
    | Mode.Auto =>
      { events := [Event.post receiverLoop false guard item slot args], world := w,
        stop := !w.objAlive sharedAlive }
    | Mode.Sync =>
      let w1 := (runPosted eff guard item slot args w).2
      { events := [Event.post receiverLoop true guard item slot args], world := w1,
        stop := !w1.objAlive sharedAlive }

/-- The body of the `for` loop of `Signal::dispatchHelper` for the
connection `item` of the snapshot. -/
def dispatchStep {A : Type} (conn : Nat → Connect) (eff : Nat → A → World → World)
    (sharedAlive : Nat) (args : A) (item : Nat) (w : World) : Step A :=
  match w.m_connectFunMap.lookup item with
  | none => { events := [], world := w, stop := false }
  | some slot =>
    if !w.connAlive item then { events := [], world := w, stop := false }
    else
      match (conn item).receiver with
      | some r =>
        if !w.objAlive r then { events := [], world := w, stop := false }
        else deliver conn eff sharedAlive args item slot (w.objLoop r) w
      | none => deliver conn eff sharedAlive args item slot (conn item).receiverLoop w

/-- The `for` loop of `Signal::dispatchHelper` over the snapshot `connectSet`. -/
def dispatchLoop {A : Type} (conn : Nat → Connect) (eff : Nat → A → World → World)
    (sharedAlive : Nat) (args : A) : List Nat → World → Step A
  | [], w => { events := [], world := w, stop := false }
  | item :: rest, w =>
    let s := dispatchStep conn eff sharedAlive args item w
    if s.stop then s
    else
      let t := dispatchLoop conn eff sharedAlive args rest s.world
      { events := s.events ++ t.events, world := t.world, stop := t.stop }

/-- Method `Signal::dispatchHelper`. -/
def dispatchHelper {A : Type} (conn : Nat → Connect) (eff : Nat → A → World → World) (args : A)
    (w : World) : Step A :=
  dispatchLoop conn eff w.m_containerAlive args w.m_connectSet w

/-- Method `Signal::dispatch`, called on a thread whose current Loop is
`currentLoop`. -/
def dispatch {A : Type} (conn : Nat → Connect) (eff : Nat → A → World → World) (currentLoop : Nat)
    (args : A) (w : World) : Step A :=
  if w.m_loop = 0 then { events := [], world := w, stop := false }
  else if w.m_loop = currentLoop then dispatchHelper conn eff args w
  else { events := [Event.emitLater w.m_loop args], world := w, stop := false }

/-! ## Observers and concrete inputs -/

/-- Whether a call ended with the exception. -/
def threw {α : Type} : Except String α → Bool
  | .error _ => true
  | .ok _ => false

/-- Closures invoked by a `workSync` call that returned. -/
def Loop.SyncResult.invoked : Loop.SyncResult → Option (List Nat)
  | .returned tr _ => some tr
  | _ => none

/-- A fresh Loop on which the closures 0, 1, ..., n-1 have been enqueued with
`work` at `HighPriority`, in this order, and none has been taken yet. -/
def burst (n : Nat) : Loop :=
  Loop.workAll Loop.new ((List.range n).map fun k => (some k, HighPriority))

/-- A Loop whose only pending item is closure 1 at priority 5. -/
def onePending : Loop :=
  Loop.work Loop.new (some 1) 5

/-- Closure 1 enqueues closure 9 at priority 2, then the closures 10 and 11 at
priority 5; every other closure leaves the queue alone. -/
def enqueuesDuringRun : Nat → Loop → Loop := fun k s =>
  if k = 1 then Loop.workAll (Loop.work s (some 9) 2) ([10, 11].map fun w => (some w, 5)) else s

/-- The default Loop, at address 10, runs on thread 1; a second Loop, at
address 20, runs on thread 2; thread 0 (the main thread) owns no Loop. -/
def twoLoops : LoopPool :=
  { g_loopPoolMap := [(1, 10), (2, 20)], defaultLoop := 10 }

/-- Two connections made with `connect(sender, &signal, functor)` on the Loop
at address 1. -/
def functorConnect : Nat → Connect := fun _ =>
  { mode := Mode.Auto, sender := 5, receiver := none, receiverLoop := 1 }

/-- Signal of object 5 on the Loop at address 1, with the connections 1 (slot
11) and 2 (slot 12), both alive; every object is alive and lives on Loop 1. -/
def twoSlots : World :=
  { connAlive := fun _ => true
    objAlive := fun _ => true
    objLoop := fun _ => 1
    m_asSenderConnectSet := fun o => if o = 5 then [1, 2] else []
    m_asReceiverConnectSet := fun _ => []
    m_sharedConnectBaseSet := fun l => if l = 1 then [1, 2] else []
    m_loop := 1
    m_containerAlive := 5
    m_connectFunMap := [(1, 11), (2, 12)]
    m_connectSet := [1, 2]
    posted := [] }

/-- Slots that leave the graph alone. -/
def quietSlots : Nat → Nat → World → World := fun _ _ w => w

/-- Connections whose receiver is object 6. -/
def receiverConnect : Nat → Connect := fun _ =>
  { mode := Mode.Auto, sender := 5, receiver := some 6, receiverLoop := 0 }

/-- Slot 11 destroys object 5, the container of the signal. -/
def slotDestroysContainer : Nat → Nat → World → World := fun slot _ w =>
  if slot = 11 then Object.destructor functorConnect 5 w else w

/-! ## object.cc: disconnecting -/

/-- Function `SpaE::disconnect(const SharedConnectBase &)`. -/
def disconnect (conn : Nat → Connect) (sc : Nat) (w : World) : World :=
  disconnectFun conn sc w

/-- Method `Object::disconnect(const ObjectId &receiverId)` of object `o`. -/
def Object.disconnect (conn : Nat → Connect) (o receiverId : Nat) (w : World) : World :=
  (w.m_asSenderConnectSet o).foldl
    (fun v c => if (conn c).receiverId ≠ receiverId then disconnectFun conn c v else v) w

/-- Method `Object::disconnect(SignalBase *signal)` of object `o`; the null
pointer is 0. -/
def Object.disconnectSignal (conn : Nat → Connect) (o signal : Nat) (w : World) : World :=
  if signal ≠ 0 then
    (w.m_asSenderConnectSet o).foldl
      (fun v c => if (conn c).signal ≠ signal then disconnectFun conn c v else v) w
  else
    (w.m_asSenderConnectSet o).foldl (fun v c => disconnectFun conn c v) w

/-- Function `SpaE::disconnect(Object *sender, Object *receiver)`, called on a
thread whose current Loop is `currentLoop`; `receiver` is the id of the
receiver. -/
def disconnectSenderReceiver (conn : Nat → Connect) (currentLoop sender receiver : Nat)
    (w : World) : World :=
  if w.objLoop sender = currentLoop then Object.disconnect conn sender receiver w
  else { w with posted := w.posted ++ [(w.objLoop sender, Cleanup.disconnectReceiver sender receiver)] }

/-- Function `SpaE::disconnectAsSender`, called on a thread whose current Loop
is `currentLoop`. -/
def disconnectAsSender (conn : Nat → Connect) (currentLoop sender signal : Nat) (w : World) :
    World :=
  if w.objLoop sender = currentLoop then Object.disconnectSignal conn sender signal w
  else { w with posted := w.posted ++ [(w.objLoop sender, Cleanup.disconnectSignal sender signal)] }

/-! ## connector.h: dispatchSync -/

/-- Run of the closure that `Signal::dispatchSyncHelper` posts (lines 263 to
269): it tests `conn.receiverAlive->alive` for every connection.  `none` is the
dereference of the null handle of a connection without receiver; otherwise the
wrapper returns when the handle is dead and runs the slot when it is alive. -/
def runPostedSync {A : Type} (eff : Nat → A → World → World) (receiverAlive : Option Nat)
    (conn slot : Nat) (args : A) (w : World) : Option (List (Event A) × World) :=
  match receiverAlive with
  | none => none
  | some r =>
    if !w.objAlive r then some ([], w) else some ([Event.invoke conn slot args], eff slot args w)

/-- Result of a pass through the body of the `for` loop of
`Signal::dispatchSyncHelper`: as for `dispatchHelper`, and whether the closure
handed to `workSync` ended in the dereference of a null handle. -/
structure SyncStep (A : Type) where
  events : List (Event A)
  world : World
  stop : Bool
  nullDeref : Bool

/-- Lines 259 to 277 of `Signal::dispatchSyncHelper`, once `receiverLoop` is
known.  `workSync` returns when the posted closure has run. -/
def deliverSync {A : Type} (conn : Nat → Connect) (eff : Nat → A → World → World)
    (sharedAlive : Nat) (args : A) (item slot receiverLoop : Nat) (w : World) : SyncStep A :=
  if receiverLoop = w.m_loop then
    let w1 := eff slot args w
    { events := [Event.invoke item slot args], world := w1, stop := !w1.objAlive sharedAlive,
      nullDeref := false }
  else
    match runPostedSync eff (conn item).receiverAlive item slot args w with
    | none =>
      { events := [Event.post receiverLoop true (conn item).receiverAlive item slot args],
        world := w, stop := true, nullDeref := true }
    | some r =>
      { events := [Event.post receiverLoop true (conn item).receiverAlive item slot args],
        world := r.2, stop := !r.2.objAlive sharedAlive, nullDeref := false }

/-- The body of the `for` loop of `Signal::dispatchSyncHelper`. -/
def dispatchSyncStep {A : Type} (conn : Nat → Connect) (eff : Nat → A → World → World)
    (sharedAlive : Nat) (args : A) (item : Nat) (w : World) : SyncStep A :=
  match w.m_connectFunMap.lookup item with
  | none => { events := [], world := w, stop := false, nullDeref := false }
  | some slot =>
    if !w.connAlive item then { events := [], world := w, stop := false, nullDeref := false }
    else
      match (conn item).receiver with
      | some r =>
        if !w.objAlive r then { events := [], world := w, stop := false, nullDeref := false }
        else deliverSync conn eff sharedAlive args item slot (w.objLoop r) w
      | none => deliverSync conn eff sharedAlive args item slot (conn item).receiverLoop w

/-- The `for` loop of `Signal::dispatchSyncHelper` over the snapshot. -/
def dispatchSyncLoop {A : Type} (conn : Nat → Connect) (eff : Nat → A → World → World)
    (sharedAlive : Nat) (args : A) : List Nat → World → SyncStep A
  | [], w => { events := [], world := w, stop := false, nullDeref := false }
  | item :: rest, w =>
    let s := dispatchSyncStep conn eff sharedAlive args item w
    if s.stop then s
    else
      let t := dispatchSyncLoop conn eff sharedAlive args rest s.world
      { events := s.events ++ t.events, world := t.world, stop := t.stop,
        nullDeref := t.nullDeref }

/-- Method `Signal::dispatchSyncHelper`. -/
def dispatchSyncHelper {A : Type} (conn : Nat → Connect) (eff : Nat → A → World → World)
    (args : A) (w : World) : SyncStep A :=
  dispatchSyncLoop conn eff w.m_containerAlive args w.m_connectSet w

/-- Method `Signal::dispatchSync`, called on a thread whose current Loop is
`currentLoop`.  From another thread the emission is handed to the Loop of the
signal with `workSync`, which returns when it has run there. -/
def dispatchSync {A : Type} (conn : Nat → Connect) (eff : Nat → A → World → World)
    (currentLoop : Nat) (args : A) (w : World) : SyncStep A :=
  if w.m_loop = 0 then { events := [], world := w, stop := false, nullDeref := false }
  else if w.m_loop = currentLoop then dispatchSyncHelper conn eff args w
  else if !w.objAlive w.m_containerAlive then
    { events := [], world := w, stop := false, nullDeref := false }
  else dispatchSyncHelper conn eff args w

/-! ## connector.h: a signal as slot -/

/-- The members of one `Signal`. -/
structure SignalState where
  m_loop : Nat
  m_containerAlive : Nat
  m_connectFunMap : List (Nat × Nat)
  m_connectSet : List Nat
deriving DecidableEq, Repr

/-- The members of the signal a `World` is about. -/
def World.signal (w : World) : SignalState :=
  { m_loop := w.m_loop, m_containerAlive := w.m_containerAlive,
    m_connectFunMap := w.m_connectFunMap, m_connectSet := w.m_connectSet }

/-- Connection 1 goes from signal 100 of object 5 to receiver 6, every other
connection from signal 200 of object 5 to receiver 7. -/
def toReceivers : Nat → Connect := fun c =>
  if c = 1 then
    { mode := Mode.Auto, sender := 5, receiver := some 6, receiverLoop := 0, signal := 100 }
  else
    { mode := Mode.Auto, sender := 5, receiver := some 7, receiverLoop := 0, signal := 200 }

/-- Object 5 is the sender of the connections 1 and 2, both alive; objects 6
and 7 receive one each; every object is alive and lives on Loop 1. -/
def twoReceivers : World :=
  { connAlive := fun _ => true
    objAlive := fun _ => true
    objLoop := fun _ => 1
    m_asSenderConnectSet := fun o => if o = 5 then [1, 2] else []
    m_asReceiverConnectSet := fun o => if o = 6 then [1] else if o = 7 then [2] else []
    m_sharedConnectBaseSet := fun _ => []
    m_loop := 1
    m_containerAlive := 5
    m_connectFunMap := [(1, 11), (2, 12)]
    m_connectSet := [1, 2]
    posted := [] }

/-- A connection made with `connect(sender, &signal, functor)` on a thread of
the Loop at address 2. -/
def remoteFunctorConnect : Nat → Connect := fun _ =>
  { mode := Mode.Auto, sender := 5, receiver := none, receiverLoop := 2 }

/-- Signal of object 5 on the Loop at address 1 with the single connection 1
(slot 11), alive. -/
def oneSlot : World :=
  { connAlive := fun _ => true
    objAlive := fun _ => true
    objLoop := fun _ => 1
    m_asSenderConnectSet := fun o => if o = 5 then [1] else []
    m_asReceiverConnectSet := fun _ => []
    m_sharedConnectBaseSet := fun l => if l = 2 then [1] else []
    m_loop := 1
    m_containerAlive := 5
    m_connectFunMap := [(1, 11)]
    m_connectSet := [1]
    posted := [] }

/-- Destructor `Object::~Object` of an object `o` whose member `m_aliveMutex`
holds the handle `handle`: lines 93 to 97 write the flag of that handle, then
the two loops call the `disconnectFun` of every record in the connection sets
of `o`. -/
def Object.destructorOf (conn : Nat → Connect) (o handle : Nat) (w : World) : World :=
  let w1 : World := { w with objAlive := Function.update w.objAlive handle false }
  let w2 := (w1.m_asSenderConnectSet o).foldl (fun v c => disconnectFun conn c v) w1
  (w2.m_asReceiverConnectSet o).foldl (fun v c => disconnectFun conn c v) w2

/-- The graph together with the members of the objects that `Object::operator=`
writes.  `m_id o` is the id that object `o` has now; it names the alive handle
that the member `m_aliveMutex` of `o` holds now, since the constructor and
`operator=` take the id and make the handle together (lines 69 and 70, 85 and
86).  `g_objectId` is the counter that the next id is taken from. -/
structure Objects where
  world : World
  m_id : Nat → Nat
  g_objectId : Nat

/-- The objects of the graph `w` when none has been assigned to: each has the
id and holds the alive handle of its constructor. -/
def Objects.constructed (w : World) (g_objectId : Nat) : Objects :=
  { world := w, m_id := fun o => o, g_objectId := g_objectId }

/-- Method `Object::getSharedAliveMutex` of object `o`. -/
def Object.getSharedAliveMutex (s : Objects) (o : Nat) : Nat := s.m_id o

/-- The assignment `Object::operator=` to object `o` (lines 81 to 89), on a
thread whose current Loop is `currentLoop`: `o` gets that Loop, the next id,
and a new alive handle, whose flag is true.  Nothing else is written: the
connection sets of `o` stay, and every `Connect` record and every signal keeps
the handle it took from `o` before.  The counter is 64 bits wide. -/
def Object.assign (currentLoop o : Nat) (s : Objects) : Objects :=
  { world :=
      { s.world with
        objLoop := Function.update s.world.objLoop o currentLoop
        objAlive := Function.update s.world.objAlive s.g_objectId true }
    m_id := Function.update s.m_id o s.g_objectId
    g_objectId := (s.g_objectId + 1) % 2 ^ 64 }

/-- Destructor `Object::~Object` of object `o`, which writes the flag of the
handle that `o` holds now. -/
def Objects.destructor (conn : Nat → Connect) (o : Nat) (s : Objects) : Objects :=
  { s with world := Object.destructorOf conn o (Object.getSharedAliveMutex s o) s.world }

/-- Signal of object 5 on the Loop at address 1 with the single connection 1
(slot 11), alive, to receiver 6; every object is alive, object 6 lives on the
Loop at address 2 and every other object on Loop 1. -/
def remoteReceiver : World :=
  { connAlive := fun _ => true
    objAlive := fun _ => true
    objLoop := fun o => if o = 6 then 2 else 1
    m_asSenderConnectSet := fun o => if o = 5 then [1] else []
    m_asReceiverConnectSet := fun o => if o = 6 then [1] else []
    m_sharedConnectBaseSet := fun _ => []
    m_loop := 1
    m_containerAlive := 5
    m_connectFunMap := [(1, 11)]
    m_connectSet := [1]
    posted := [] }

/-- The graph `remoteReceiver`, made by objects with ids below 8, after the
receiver, object 6, has been assigned to on its own Loop (`r = other;`). -/
def assignedReceiver : Objects :=
  Object.assign 2 6 (Objects.constructed remoteReceiver 8)

/-- The graph `twoSlots`, made by objects with ids below 8, after the container
of the signal, object 5, has been assigned to on its own Loop. -/
def assignedContainer : Objects :=
  Object.assign 1 5 (Objects.constructed twoSlots 8)

/-- Slot 11 destroys object 5, the container of the signal of
`assignedContainer`. -/
def slotDestroysAssignedContainer : Nat → Nat → World → World := fun slot _ w =>
  if slot = 11 then
    Object.destructorOf functorConnect 5 (Object.getSharedAliveMutex assignedContainer 5) w
  else w

/-! ## coroutine.h, coroutine.cc -/

/-- What the closure of a Context does, one call of the library at a time;
`log` is a step of the closure that the scheduler does not see. -/
inductive Instr where
  | log (label : Nat)
  /-- The call `Coroutine::yield()`. -/
  | yield
  /-- The call `Coroutine::pending()`. -/
  | pending
  /-- The call `Coroutine::yieldFor(sec)`. -/
  | yieldFor (sec : Nat)
  /-- The call `co->resume(target)` on the Coroutine the Context runs on. -/
  | resume (target : Nat)
  /-- The call `co->join(target)` on the Coroutine the Context runs on. -/
  | join (target : Nat)
  /-- The call `co->work(f, stackSize, pri)` that creates Context `child`. -/
  | work (child : Nat) (stackSize : Nat) (pri : Priority)
deriving DecidableEq, Repr

/-- A closure that the Coroutine posts with `m_loop->work(...)`. -/
inductive CoWork where
  /-- The closure of `Coroutine::work` (lines 170 to 175). -/
  | register (sc : Nat)
  /-- The closure of `Coroutine::resume` (lines 243 to 258). -/
  | resume (sc : Nat)
  /-- The closure of `Coroutine::yield` (lines 298 to 301). -/
  | requeue (sc : Nat)
  /-- A slot or timer closure that calls `co->resume(sc)` from the Loop, outside
  every Context. -/
  | callResume (sc : Nat)
deriving DecidableEq, Repr

/-- The fields of a `SpaE::Context`.  `code` is what is left to run of the
closure `work`; `joiners` are the Contexts whose `join` connected a slot to
`signalCompelte`, in the order of the connection set. -/
structure Context where
  pri : Priority
  alive : Bool
  firstRun : Bool
  running : Bool
  stackSize : Nat
  code : List Instr
  joiners : List Nat
deriving DecidableEq, Repr

/-- Constructor `Context::Context(work, stackSize)` with `Context::init`. -/
def Context.init (work : List Instr) (stackSize : Nat) : Context :=
  { pri := 0, alive := true, firstRun := true, running := true, stackSize := stackSize,
    code := work, joiners := [] }

/-- A `Coroutine` with its Loop.  `contexts` is the heap of Contexts, by id;
`posted` are the closures posted on `m_loop` and not yet run, oldest first (all
are posted at the default priority, so the Loop runs them in this order while
fewer than 128 are outstanding); `trace` lists the `log` steps run so far, each
with the id of its Context; `timers` are the Contexts whose `yieldFor` has
started a Timer that has not fired yet. -/
structure Coroutine where
  m_stackSize : Nat
  m_runningContextMap : List (Priority × Nat)
  m_sharedContextSet : List Nat
  m_currentContext : Option Nat
  contexts : Nat → Context
  posted : List CoWork
  trace : List (Nat × Nat)
  timers : List Nat := []

namespace Coroutine

/-- Insertion `std::multimap::emplace` into `m_runningContextMap`: behind the
entries whose key is not larger. -/
def runningEmplace : List (Priority × Nat) → Priority → Nat → List (Priority × Nat)
  | [], k, c => [(k, c)]
  | (k1, c1) :: m, k, c =>
    if k < k1 then (k, c) :: (k1, c1) :: m else (k1, c1) :: runningEmplace m k c

/-- Insertion `std::unordered_set::emplace` into `m_sharedContextSet`. -/
def setEmplace (s : List Nat) (c : Nat) : List Nat :=
  if c ∈ s then s else s ++ [c]

/-- Overwrite Context `c`. -/
def setContext (co : Coroutine) (c : Nat) (cx : Context) : Coroutine :=
  { co with contexts := Function.update co.contexts c cx }

/-- Both overloads of `Coroutine::work`, creating the Context with id `sc`
whose closure is `body sc`. -/
def work (body : Nat → List Instr) (co : Coroutine) (sc stackSize : Nat) (pri : Priority) :
    Coroutine :=
  let ss := if stackSize < co.m_stackSize then co.m_stackSize else stackSize
  { co with
    contexts := Function.update co.contexts sc (Context.init (body sc) ss)
    posted := co.posted ++ [CoWork.register sc] }

/-- Run of one closure posted on the Loop.  The Loop runs closures between two
Contexts, when `m_currentContext` is null, so the `resume` called by
`callResume` does not go on to `yield`. -/
def runWork (w : CoWork) (co : Coroutine) : Coroutine :=
  match w with
  | .register sc =>
    { co with
      m_sharedContextSet := setEmplace co.m_sharedContextSet sc
      m_runningContextMap := runningEmplace co.m_runningContextMap (co.contexts sc).pri sc }
  | .resume sc =>
    if sc ∉ co.m_sharedContextSet then co
    else if !(co.contexts sc).alive || (co.contexts sc).running then co
    else
      { setContext co sc { co.contexts sc with running := true } with
        m_runningContextMap := runningEmplace co.m_runningContextMap (co.contexts sc).pri sc }
  | .requeue sc =>
    { co with
      m_runningContextMap := runningEmplace co.m_runningContextMap (co.contexts sc).pri sc }
  | .callResume sc => { co with posted := co.posted ++ [CoWork.resume sc] }

/-- Run posted closures, oldest first, until none is left or the fuel is. -/
def drain : Nat → Coroutine → Coroutine
  | 0, co => co
  | fuel + 1, co =>
    match co.posted with
    | [] => co
    | w :: rest => drain fuel (runWork w { co with posted := rest })

/-- The calls `m_loop->process()` and, with something posted,
`m_loop->waitProcess()` on the thread of the Coroutine: every posted closure
runs, also those posted meanwhile (a `callResume` posts one closure, the others
none, so twice the number posted is fuel enough). -/
def process (co : Coroutine) : Coroutine :=
  drain (2 * co.posted.length) co

/-- Context `c` runs `code` until it jumps back to the scheduler.  A
`yieldFor` starts a Timer with `setTimeout` and goes on to `pending`.  With the
code at its end the closure has returned: `archContextFun` writes
`alive = false` and emits `signalCompelte`, whose slots each call
`resume(joiner)`, which posts the closure of `resume` and, being called inside
a Context, goes on to `yield`; a Context that has emitted to every joiner makes
the final jump. -/
def runCode (body : Nat → List Instr) (c : Nat) : List Instr → Coroutine → Coroutine
  | [], co =>
    if (co.contexts c).alive then
      match (co.contexts c).joiners with
      | [] => setContext co c { co.contexts c with alive := false, code := [] }
      | j :: js =>
        { setContext co c { co.contexts c with alive := false, code := js.map Instr.resume } with
          posted := co.posted ++ [CoWork.resume j, CoWork.requeue c] }
    else setContext co c { co.contexts c with code := [] }
  | Instr.log l :: rest, co => runCode body c rest { co with trace := co.trace ++ [(c, l)] }
  | Instr.yield :: rest, co =>
    { setContext co c { co.contexts c with code := rest } with
      posted := co.posted ++ [CoWork.requeue c] }
  | Instr.pending :: rest, co => setContext co c { co.contexts c with code := rest }
  | Instr.yieldFor _ :: rest, co =>
    { setContext co c { co.contexts c with code := rest } with timers := co.timers ++ [c] }
  | Instr.resume t :: rest, co =>
    { setContext co c { co.contexts c with code := rest } with
      posted := co.posted ++ [CoWork.resume t, CoWork.requeue c] }
  | Instr.join t :: rest, co =>
    if !(co.contexts t).alive then runCode body c rest co
    else
      let co1 := setContext co t { co.contexts t with joiners := (co.contexts t).joiners ++ [c] }
      setContext co1 c { co1.contexts c with code := rest }
  | Instr.work child ss pri :: rest, co => runCode body c rest (work body co child ss pri)

/-- Lines 414 to 435 of `Coroutine::run`: the entry `(p, c)` leaves the running
map, Context `c` runs until it jumps back, then `running` is cleared and a
Context that is no longer alive leaves the shared set. -/
def runContext (body : Nat → List Instr) (p : Priority) (c : Nat) (co : Coroutine) : Coroutine :=
  let co1 : Coroutine :=
    { co with m_currentContext := some c
              m_runningContextMap := co.m_runningContextMap.erase (p, c) }
  let co2 := setContext co1 c { co1.contexts c with firstRun := false }
  let co3 := runCode body c (co2.contexts c).code co2
  let co4 := setContext co3 c { co3.contexts c with running := false }
  let co5 : Coroutine :=
    if !(co3.contexts c).alive then
      { co4 with m_sharedContextSet := co4.m_sharedContextSet.erase c }
    else co4
  { co5 with m_currentContext := none }

/-- One pass of the `while` loop of `Coroutine::run`; `none` is the thread
blocked in `waitProcess` with nothing posted. -/
def iterate (body : Nat → List Instr) (co : Coroutine) : Option Coroutine :=
  match co.m_runningContextMap with
  | [] => if co.posted = [] then none else some (process co)
  | (p, c) :: _ => some (runContext body p c (process co))

/-- Up to `n` passes of the `while` loop of `Coroutine::run`, stopping where the
thread blocks. -/
def runFor (body : Nat → List Instr) : Nat → Coroutine → Coroutine
  | 0, co => co
  | n + 1, co =>
    match iterate body co with
    | none => co
    | some co1 => runFor body n co1

/-- A new Coroutine: nothing registered, nothing posted but the scheduler
itself, which is running. -/
def new : Coroutine :=
  { m_stackSize := 64 * 1024, m_runningContextMap := [], m_sharedContextSet := [],
    m_currentContext := none, contexts := fun _ => Context.init [] 0, posted := [], trace := [] }

/-- The test of `Coroutine::join` called outside every Coroutine: the caller
leaves the wait on `compeleteCv` when `alive` is false. -/
def joinOutsideReturns (co : Coroutine) (sc : Nat) : Bool :=
  !(co.contexts sc).alive

end Coroutine

/-- The closure of a Context that makes `n` steps, labelled `i`, `i + 1`, ...,
with a `yield` between two steps. -/
def loopCode : Nat → Nat → List Instr
  | _, 0 => []
  | i, 1 => [Instr.log i]
  | i, n + 2 => Instr.log i :: Instr.yield :: loopCode (i + 1) (n + 1)

/-- The steps of two Contexts `a` and `b` in alternation, `n` rounds from
label `i`. -/
def alternating (a b : Nat) : Nat → Nat → List (Nat × Nat)
  | _, 0 => []
  | i, n + 1 => (a, i) :: (b, i) :: alternating a b (i + 1) n

/-- Closures for the example of `join`: Context 1 logs 1, joins Context 2 and
logs 2; Context 2 logs 10 and stays pending; Context 3 logs 20, resumes
Context 1 and logs 21. -/
def joinBodies : Nat → List Instr := fun c =>
  if c = 1 then [Instr.log 1, Instr.join 2, Instr.log 2]
  else if c = 2 then [Instr.log 10, Instr.pending, Instr.log 11]
  else [Instr.log 20, Instr.resume 1, Instr.log 21]

/-- The Contexts 1, 2 and 3 of `joinBodies` created with `work` on a new
Coroutine, in this order. -/
def joinExample : Coroutine :=
  Coroutine.work joinBodies (Coroutine.work joinBodies (Coroutine.work joinBodies
    Coroutine.new 1 0 0) 2 0 0) 3 0 0

/-- Closures that log their own id. -/
def logBodies : Nat → List Instr := fun c => [Instr.log c]

/-- Context 1 created with `work(f, 0, 5)`, then Context 2 with
`work(g, 0, 1)`, on a new Coroutine. -/
def priorityExample : Coroutine :=
  Coroutine.work logBodies (Coroutine.work logBodies Coroutine.new 1 0 5) 2 0 1

/-! ## Observers of the coroutine scheduler -/

namespace Coroutine

/-- The number of closures the Loop runs for the posted closure `w`, itself and
the one it posts. -/
def cost : CoWork → Nat
  | CoWork.callResume _ => 2
  | _ => 1

/-- The ids of the Contexts that the first `n` passes of `Coroutine::run` jump
into, in order (what the debug log of `run` prints, line 418). -/
def scheduled (body : Nat → List Instr) : Nat → Coroutine → List Nat
  | 0, _ => []
  | n + 1, co =>
    match co.m_runningContextMap with
    | [] => if co.posted = [] then [] else scheduled body n (process co)
    | (p, c) :: _ => c :: scheduled body n (runContext body p c (process co))

/-- Every Context has the priority that `Context::init` gives, and the running
map is keyed by it. -/
def defaultPriorities (co : Coroutine) : Prop :=
  (∀ x, (co.contexts x).pri = 0) ∧ ∀ e ∈ co.m_runningContextMap, e.1 = 0

/-- The running map `m` has an entry of Context `d` with no entry of Context
`c` in front of it. -/
def queuedAhead (d c : Nat) (m : List (Priority × Nat)) : Prop :=
  ∃ l1 l2, m = l1 ++ (0, d) :: l2 ∧ (0, c) ∉ l1

/-- In the sequence `s` of scheduled Contexts, `d` comes before every
occurrence of `c`. -/
def runsFirst (d c : Nat) (s : List Nat) : Prop :=
  ∀ s1 s2, s = s1 ++ c :: s2 → d ∈ s1

/-- Context `cx` has priority `p`, its closure has not returned, nothing has
joined it, and `code` is left to run. -/
def ready (p : Priority) (code : List Instr) (cx : Context) : Prop :=
  cx.pri = p ∧ cx.alive = true ∧ cx.joiners = [] ∧ cx.code = code

/-- A state between two passes of `Coroutine::run` in which Context `x` is the
next to run and Context `y` runs after it: `y` is in the running map behind
`x`, or the closure of its `yield` is posted. -/
def turnOf (p : Priority) (x y : Nat) (cx cy : List Instr) (t : List (Nat × Nat))
    (co : Coroutine) : Prop :=
  ((co.m_runningContextMap = [(p, x), (p, y)] ∧ co.posted = []) ∨
    (co.m_runningContextMap = [(p, x)] ∧ co.posted = [CoWork.requeue y])) ∧
  co.trace = t ∧ ready p cx (co.contexts x) ∧ ready p cy (co.contexts y)

/-- A state between two passes of `Coroutine::run` in which Context `y` alone
is runnable and Context `x` has run to the end. -/
def lastTurnOf (p : Priority) (y x : Nat) (cy : List Instr) (t : List (Nat × Nat))
    (co : Coroutine) : Prop :=
  co.m_runningContextMap = [(p, y)] ∧ co.posted = [] ∧ co.trace = t ∧
  ready p cy (co.contexts y) ∧ (co.contexts x).alive = false

end Coroutine

/-- Closures that make three steps, labelled 1, 2 and 3, with a `yield`
between two steps. -/
def yieldBodies : Nat → List Instr := fun _ => loopCode 1 3

/-- Context 1, then Context 2, created with `work` on a new Coroutine, both
with the closure of `yieldBodies`. -/
def yieldExample : Coroutine :=
  Coroutine.work yieldBodies (Coroutine.work yieldBodies Coroutine.new 1 0 0) 2 0 0

/-- Closures for the example of a `resume` on a Context that has yielded:
Context 1 makes three steps with a `yield` between two steps; Context 2 calls
`resume` on Context 1 and then logs 20. -/
def resumeBodies : Nat → List Instr := fun c =>
  if c = 1 then loopCode 1 3 else [Instr.resume 1, Instr.log 20]

/-- Context 1, then Context 2, created with `work` on a new Coroutine, with the
closures of `resumeBodies`. -/
def resumeExample : Coroutine :=
  Coroutine.work resumeBodies (Coroutine.work resumeBodies Coroutine.new 1 0 0) 2 0 0

/-! ## coroutine.cc: `yieldFor`, and the scenario of `testPending1` -/

/-- The Timer that `yieldFor` started in Context `sc` fires: the timer service
emits `signalTimeout`, the emission is posted on the Loop of the Coroutine, and
its slot calls `co->resume(sc)` there, outside every Context. -/
def Coroutine.timeout (co : Coroutine) (sc : Nat) : Coroutine :=
  if sc ∈ co.timers then
    { co with timers := co.timers.erase sc, posted := co.posted ++ [CoWork.callResume sc] }
  else co

/-- Closures of `testPending1`: Context 1 (X) logs 1, calls `pending` and logs
2; Context 2 (Y) logs 1, calls `yieldFor(1)`, then `resume` on Context 1, and
logs 2. -/
def pendingBodies : Nat → List Instr := fun c =>
  if c = 1 then [Instr.log 1, Instr.pending, Instr.log 2]
  else [Instr.log 1, Instr.yieldFor 1, Instr.resume 1, Instr.log 2]

/-- Context 1, then Context 2, created with `work` on a new Coroutine, with the
closures of `pendingBodies`. -/
def pendingExample : Coroutine :=
  Coroutine.work pendingBodies (Coroutine.work pendingBodies Coroutine.new 1 0 0) 2 0 0

/-! ## loop.cc: `queueSize`, and the count of `m_runSem` -/

namespace Loop

/-- Method `Loop::queueSize`. -/
def queueSize (l : Loop) : Nat := l.m_eventsMap.length

/-- The number of pending items: what the ring reports available plus the size
of the multimap. -/
def pendingCount (l : Loop) : Nat := l.m_highPriWorkTable.available + l.m_eventsMap.length

/-- The value of `m_runSem` is the number of pending items. -/
def balanced (l : Loop) : Prop := l.m_runSem.m_value = l.pendingCount

instance (l : Loop) : Decidable l.balanced := by
  unfold balanced; infer_instance

/-- The value of `m_runSem` is one less than the number of pending items: the
Loop thread has come back from `wait` or `tryWait` and has not yet taken the
item. -/
def owing (l : Loop) : Prop := l.m_runSem.m_value + 1 = l.pendingCount

end Loop

/-- A Loop with the closures 1 and 2 pending, both enqueued with `work` at the
default priority. -/
def twoDefaultPending : Loop :=
  Loop.work (Loop.work Loop.new (some 1) 0) (some 2) 0

/-- Closure 1 calls `waitEvent()` on the Loop that runs it (the Loop at address
20, on its thread 2) and returns; every other closure leaves the queue
alone. -/
def callsWaitEvent : Nat → Loop → Loop := fun k l =>
  if k = 1 then
    match Loop.waitEvent twoLoops 20 2 l with
    | .ok (some l1) => l1
    | _ => l
  else l

/-! ## coroutine_pool.cc -/

/-- A score `workSize` of the pool in the reading without rounding, counted in
millionths, so that the step `0.000001` of the initial scores is 1.  It serves
where the number of members and the order and equality of their scores are in
question; `FloatPool` keeps the scores as the `float` values of the source. -/
abbrev Score := Int

/-- The score 1, by which `coroutineWork` raises a member. -/
def scoreOne : Score := 1000000

/-- The statics of `coroutine_pool.cc`.  `g_poolMap` is the multimap as the
list of its entries in iteration order; `g_coroutineWorkSizeMap` lists its
entries in insertion order; `init` is the static flag of `initPool`; a
Coroutine is named by the number of Coroutines that
`Coroutine::newInstance` had created before it, which `created` counts. -/
structure CoroutinePool where
  g_poolSize : Int
  g_poolMap : List (Score × Nat)
  g_coroutineWorkSizeMap : List (Nat × Score)
  init : Bool
  created : Nat
deriving DecidableEq, Repr

namespace CoroutinePool

/-- The statics before any call: no Coroutine, `g_poolSize` as read from
`std::thread::hardware_concurrency()`. -/
def start (hardwareConcurrency : Int) : CoroutinePool :=
  { g_poolSize := hardwareConcurrency, g_poolMap := [], g_coroutineWorkSizeMap := [],
    init := false, created := 0 }

/-- Insertion `std::multimap::emplace` into `g_poolMap`: behind the entries
whose key is not larger. -/
def poolEmplace : List (Score × Nat) → Score → Nat → List (Score × Nat)
  | [], k, c => [(k, c)]
  | (k1, c1) :: m, k, c =>
    if k < k1 then (k, c) :: (k1, c1) :: m else (k1, c1) :: poolEmplace m k c

/-- Insertion `std::unordered_map::emplace` into `g_coroutineWorkSizeMap`:
nothing happens when the key is there. -/
def sizeEmplace (m : List (Nat × Score)) (co : Nat) (s : Score) : List (Nat × Score) :=
  if (m.lookup co).isSome then m else m ++ [(co, s)]

/-- Assignment through the iterator `workSizeIt` of Coroutine `co`. -/
def setScore (m : List (Nat × Score)) (co : Nat) (s : Score) : List (Nat × Score) :=
  m.map fun e => if e.1 = co then (co, s) else e

/-- The `for` loop of `setPoolSize` and of `initPool`, entered with the loop
variable at `i`.  The bound `size - g_poolMap.size()` is computed in `size_t`
and read again before every pass.  `none` is the loop still running when the
fuel is used up. -/
def grow (size : Int) : Nat → Nat → CoroutinePool → Option CoroutinePool
  | 0, _, _ => none
  | fuel + 1, i, p =>
    if i < (size.toNat + 2 ^ 64 - p.g_poolMap.length) % 2 ^ 64 then
      let co := p.created
      let workSize : Score := ((i + p.g_poolMap.length : Nat) : Int)
      grow size fuel (i + 1)
        { p with
          created := p.created + 1
          g_poolMap := poolEmplace p.g_poolMap workSize co
          g_coroutineWorkSizeMap := sizeEmplace p.g_coroutineWorkSizeMap co workSize }
    else some p

/-- Function `CoroutinePool::setPoolSize`. -/
def setPoolSize (size : Int) (p : CoroutinePool) : Option CoroutinePool :=
  let p1 := { p with g_poolSize := size }
  if (p1.g_poolMap.length : Int) < size then grow size (size.toNat + 1) 0 p1 else some p1

/-- Function `initPool`. -/
def initPool (p : CoroutinePool) : Option CoroutinePool :=
  if !p.init then
    let p1 := { p with init := true }
    if (p1.g_poolMap.length : Int) < p1.g_poolSize then
      grow p1.g_poolSize (p1.g_poolSize.toNat + 1) 0 p1
    else some p1
  else some p

/-- The first five lines of `updateCoroutinePool`: every entry of `g_poolMap`
under the score of `co` is erased, the score is raised by 1, and `co` is
entered under the new score.  `none` is the dereference of `end()` when `co`
has no score. -/
def raiseScore (co : Nat) (p : CoroutinePool) : Option CoroutinePool :=
  match p.g_coroutineWorkSizeMap.lookup co with
  | none => none
  | some s =>
    some { p with
      g_poolMap := poolEmplace (p.g_poolMap.filter fun e => e.1 ≠ s) (s + scoreOne) co
      g_coroutineWorkSizeMap := setScore p.g_coroutineWorkSizeMap co (s + scoreOne) }

/-- Both overloads of `CoroutinePool::coroutineWork`: the Coroutine on which
the Context is launched, and the statics afterwards.  `none` is the
dereference of `begin()` of an empty `g_poolMap`.  The slot that
`updateCoroutinePool` connects to the completion signal of the Context lowers
the score again when the Context completes. -/
def coroutineWork (p : CoroutinePool) : Option (Nat × CoroutinePool) :=
  match initPool p with
  | none => none
  | some p1 =>
    match p1.g_poolMap with
    | [] => none
    | (_, co) :: _ => (raiseScore co p1).map fun p2 => (co, p2)

/-- Calls of `coroutineWork` one after the other, no Context completing
meanwhile: the Coroutines selected, in order, and the statics afterwards. -/
def coroutineWorks : Nat → CoroutinePool → Option (List Nat × CoroutinePool)
  | 0, p => some ([], p)
  | k + 1, p =>
    match coroutineWork p with
    | none => none
    | some (co, p1) => (coroutineWorks k p1).map fun r => (co :: r.1, r.2)

end CoroutinePool

/-- The statics after `setPoolSize(size)` as the first call on the pool, on a
machine whose hardware concurrency is 8. -/
def poolOfSize (size : Int) : Option CoroutinePool :=
  CoroutinePool.setPoolSize size (CoroutinePool.start 8)

/-! ## coroutine_pool.cc: the scores as `float` -/

/-- A finite value of type `float` or `double`: the value `x` is kept as the
integer `x * 2 ^ 72`.  The `double` of the literal `0.000001` is
`4722366482869645 * 2 ^ (-72)`, so every initial score is such an integer, and
so is every score that comes from one by adding and subtracting 1 with
rounding.  No such value is subnormal, and the scores stay far below the
largest `float`, so rounding to 24 or 53 significant binary digits is the
rounding of the machine. -/
abbrev Binary := Int

namespace Binary

/-- Number of binary digits of `k`, for `fuel` at least that number. -/
def digits : Nat → Nat → Nat
  | 0, _ => 0
  | fuel + 1, k => if k = 0 then 0 else digits fuel (k / 2) + 1

/-- Rounding of the natural number `k` to `p` significant binary digits: to the
nearest such number, and of two equally near to the one whose last digit is
even (`roundTiesToEven`, the rounding of the arithmetic of C++ on the
machine). -/
def roundNat (p k : Nat) : Nat :=
  let sh := digits k k - p
  let q := k / 2 ^ sh
  let r := k % 2 ^ sh
  if 2 * r < 2 ^ sh then q * 2 ^ sh
  else if 2 ^ sh < 2 * r then (q + 1) * 2 ^ sh
  else if q % 2 = 0 then q * 2 ^ sh else (q + 1) * 2 ^ sh

/-- Rounding to `p` significant binary digits. -/
def roundTo (p : Nat) (x : Binary) : Binary :=
  if x < 0 then -((roundNat p x.natAbs : Nat) : Int) else ((roundNat p x.natAbs : Nat) : Int)

/-- Rounding to a `float`, which has 24 significant binary digits. -/
def toFloat (x : Binary) : Binary := roundTo 24 x

/-- Rounding to a `double`, which has 53 significant binary digits. -/
def toDouble (x : Binary) : Binary := roundTo 53 x

/-- The value 1. -/
def one : Binary := 2 ^ 72

/-- The `double` of the literal `0.000001`: the nearest to one millionth, and
near it two neighbouring values of type `double` are `2 ^ (-72)` apart. -/
def micro : Binary := (2 ^ 72 + 500000) / 1000000

/-- The sum `a + b` of two values of type `float`, as a `float`. -/
def add (a b : Binary) : Binary := toFloat (a + b)

/-- The difference `a - b` of two values of type `float`, as a `float`. -/
def sub (a b : Binary) : Binary := toFloat (a - b)

end Binary

/-- The statics of `coroutine_pool.cc` as in `CoroutinePool`, with the scores as
the `float` values that `g_poolMap` and `g_coroutineWorkSizeMap` keep. -/
structure FloatPool where
  g_poolSize : Int
  g_poolMap : List (Binary × Nat)
  g_coroutineWorkSizeMap : List (Nat × Binary)
  init : Bool
  created : Nat
deriving DecidableEq, Repr

/-- A closure that the pool posts on the Loop of a member or connects to the
completion signal of a Context. -/
inductive PoolWork where
  /-- The closure `f` passed to `loopWork`. -/
  | user (f : Nat)
  /-- The closure of `updateLoopPool` (lines 171 to 183) and the slot of
  `updateCoroutinePool` (lines 98 to 110), which have the same body. -/
  | decrement (co : Nat)
deriving DecidableEq, Repr

namespace FloatPool

/-- The statics before any call: no Coroutine, `g_poolSize` as read from
`std::thread::hardware_concurrency()`. -/
def start (hardwareConcurrency : Int) : FloatPool :=
  { g_poolSize := hardwareConcurrency, g_poolMap := [], g_coroutineWorkSizeMap := [],
    init := false, created := 0 }

/-- The score `0 + (i + g_poolMap.size()) * 0.000001` of lines 42 and 79 as the
two maps keep it, with `n` for `i + g_poolMap.size()`: `n` is converted to
`double`, the product with the `double` `0.000001` is rounded to a `double`,
adding it to 0 changes nothing, and `emplace` converts the `double` to the
`float` of the map. -/
def workSize (n : Nat) : Binary :=
  Binary.toFloat (Binary.toDouble (((Binary.roundNat 53 n : Nat) : Int) * Binary.micro))

/-- The `for` loop of `setPoolSize` and of `initPool`, entered with the loop
variable at `i`, as `CoroutinePool.grow`. -/
def grow (size : Int) : Nat → Nat → FloatPool → Option FloatPool
  | 0, _, _ => none
  | fuel + 1, i, p =>
    if i < (size.toNat + 2 ^ 64 - p.g_poolMap.length) % 2 ^ 64 then
      let co := p.created
      let workSize : Binary := workSize (i + p.g_poolMap.length)
      grow size fuel (i + 1)
        { p with
          created := p.created + 1
          g_poolMap := CoroutinePool.poolEmplace p.g_poolMap workSize co
          g_coroutineWorkSizeMap := CoroutinePool.sizeEmplace p.g_coroutineWorkSizeMap co workSize }
    else some p

/-- Function `initPool`. -/
def initPool (p : FloatPool) : Option FloatPool :=
  if !p.init then
    let p1 := { p with init := true }
    if (p1.g_poolMap.length : Int) < p1.g_poolSize then
      grow p1.g_poolSize (p1.g_poolSize.toNat + 1) 0 p1
    else some p1
  else some p

/-- The first five lines of `updateLoopPool` (lines 162 to 168): every entry of
`g_poolMap` under the score of `co` is erased, `workSizeIt->second += 1` adds 1
to the score as a `float`, and `co` is entered under the new score.  `none` is
the dereference of `end()` when `co` has no score. -/
def raiseScore (co : Nat) (p : FloatPool) : Option FloatPool :=
  match p.g_coroutineWorkSizeMap.lookup co with
  | none => none
  | some s =>
    some { p with
      g_poolMap :=
        CoroutinePool.poolEmplace (p.g_poolMap.filter fun e => e.1 ≠ s) (Binary.add s Binary.one) co
      g_coroutineWorkSizeMap :=
        CoroutinePool.setScore p.g_coroutineWorkSizeMap co (Binary.add s Binary.one) }

/-- The body of the closure of `updateLoopPool` (lines 173 to 182): the first
entry of `g_poolMap` under the score of `co` is erased,
`workSizeIt->second -= 1` subtracts 1 from the score as a `float`, and `co` is
entered under the new score.  `none` is the use of `end()` when `co` has no
score or no entry has that key. -/
def lowerScore (co : Nat) (p : FloatPool) : Option FloatPool :=
  match p.g_coroutineWorkSizeMap.lookup co with
  | none => none
  | some s =>
    if p.g_poolMap.any (fun e => e.1 = s) then
      some { p with
        g_poolMap :=
          CoroutinePool.poolEmplace (p.g_poolMap.eraseP fun e => e.1 = s)
            (Binary.sub s Binary.one) co
        g_coroutineWorkSizeMap :=
          CoroutinePool.setScore p.g_coroutineWorkSizeMap co (Binary.sub s Binary.one) }
    else none

/-- Both overloads of `CoroutinePool::loopWork`: the member selected, the
closures that the call posts on the Loop of that member, in order, each with
its priority, and the statics afterwards.  `none` is the dereference of
`begin()` of an empty `g_poolMap`. -/
def loopWork (f : Nat) (pri : Priority) (p : FloatPool) :
    Option (Nat × List (PoolWork × Priority) × FloatPool) :=
  match initPool p with
  | none => none
  | some p1 =>
    match p1.g_poolMap with
    | [] => none
    | (_, co) :: _ =>
      (raiseScore co p1).map fun p2 =>
        (co, [(PoolWork.user f, pri), (PoolWork.decrement co, 0)], p2)

/-- Run of a closure of the pool; a closure passed by the user leaves the
statics of the pool alone. -/
def runPoolWork : PoolWork → FloatPool → Option FloatPool
  | PoolWork.user _, p => some p
  | PoolWork.decrement co, p => lowerScore co p

/-- Run of closures of the pool, first to last. -/
def runPoolWorks : List PoolWork → FloatPool → Option FloatPool
  | [], p => some p
  | w :: ws, p =>
    match runPoolWork w p with
    | none => none
    | some p1 => runPoolWorks ws p1

/-- The score of Coroutine `co`. -/
def score (p : FloatPool) (co : Nat) : Option Binary := p.g_coroutineWorkSizeMap.lookup co

end FloatPool

/-- The pool of a machine whose hardware concurrency is 3 after one call of
`loopWork` whose closures have not run yet: the call has made the members 0
and 1, under the scores 0 and `0.000002`, and raised member 0 to the score
1. -/
def busyPool : FloatPool :=
  { g_poolSize := 3
    g_poolMap := [(FloatPool.workSize 2, 1), (Binary.one, 0)]
    g_coroutineWorkSizeMap := [(0, Binary.one), (1, FloatPool.workSize 2)]
    init := true
    created := 2 }

/-! ## timer.h, timer.cc -/

/-- Type `SpaE::Seconds`, a `double`.  Here a time is exact, counted in ticks
of the clock that `now()` reads (microseconds). -/
abbrev Seconds := Int

/-- The fields of a `TimerStatus`; `timer` is the address of the Timer. -/
structure TimerStatus where
  running : Bool
  singleShot : Bool
  timeout : Seconds
  lastEmitTime : Seconds
  timer : Nat
deriving DecidableEq, Repr

/-- The `TimerStatus` that the constructor of the Timer at address `timer`
makes: the member initialisers, with one second as `timeout`. -/
def TimerStatus.init (timer : Nat) : TimerStatus :=
  { running := false, singleShot := true, timeout := 1000000, lastEmitTime := 0, timer := timer }

/-- A `Timer`: its address and the handle of its `m_sharedTimerStatus`. -/
structure Timer where
  this : Nat
  m_sharedTimerStatus : Nat
deriving DecidableEq, Repr

/-- The statics of `timer.cc` and the heap of statuses.  `g_timerMap` is the
multimap as the list of its entries in iteration order, each a deadline and the
handle of a status; `readyTimerArray` is the local array of `helperThread`, of
which the `for` loop of lines 61 to 74 has yet to reach the statuses listed;
`emitted` lists the emissions of `signalTimeout` so far, each with the address
of the Timer and the time at which it was made. -/
structure TimerService where
  g_timerMap : List (Seconds × Nat)
  status : Nat → TimerStatus
  readyTimerArray : List Nat
  emitted : List (Nat × Seconds)

namespace TimerService

/-- Insertion `std::multimap::emplace` into `g_timerMap`: behind the entries
whose key is not larger. -/
def timerEmplace : List (Seconds × Nat) → Seconds → Nat → List (Seconds × Nat)
  | [], k, h => [(k, h)]
  | (k1, h1) :: m, k, h =>
    if k < k1 then (k, h) :: (k1, h1) :: m else (k1, h1) :: timerEmplace m k h

/-- The `while` loop of `Timer::stop` (lines 165 to 178), entered with the
iterator at the head of the list: the list that is left of it. -/
def stopLoop (status : Nat → TimerStatus) (this : Nat) (t : Seconds) :
    List (Seconds × Nat) → List (Seconds × Nat)
  | [] => []
  | (k, sts) :: rest =>
    if t ≠ k then (k, sts) :: rest
    else if (status sts).timer ≠ this then (k, sts) :: stopLoop status this t rest
    else rest

/-- Lines 164 to 178 of `Timer::stop`: `g_timerMap.find(t)`, which is the first
entry whose key is not less than `t` when that key is `t` and `end()`
otherwise, then the loop from there. -/
def stopErase (status : Nat → TimerStatus) (this : Nat) (t : Seconds)
    (m : List (Seconds × Nat)) : List (Seconds × Nat) :=
  match m.dropWhile (fun e => decide (e.1 < t)) with
  | [] => m
  | (k, sts) :: rest =>
    if t < k then m
    else m.takeWhile (fun e => decide (e.1 < t)) ++ stopLoop status this t ((k, sts) :: rest)

/-- Lines 44 to 59 of `helperThread`, the scan that runs under
`g_timerMapMutex`, with `n` the reading of `now()` on line 47: the entries at
the head of the map whose key is not above `n` move to the ready array. -/
def helperCollect (n : Seconds) (s : TimerService) : TimerService :=
  { s with
    readyTimerArray :=
      s.readyTimerArray ++ (s.g_timerMap.takeWhile fun e => !decide (n < e.1)).map Prod.snd
    g_timerMap := s.g_timerMap.dropWhile fun e => !decide (n < e.1) }

/-- The body of the `for` loop of `helperThread` (lines 62 to 73) for the
status `sts`, which runs under the mutex of that status; `n` is the time at
which the body runs, the one that `now()` reads on line 68. -/
def helperFire (n : Seconds) (s : TimerService) (sts : Nat) : TimerService :=
  if (s.status sts).running then
    let s1 : TimerService := { s with emitted := s.emitted ++ [((s.status sts).timer, n)] }
    if !(s.status sts).singleShot then
      { s1 with
        status := Function.update s1.status sts { s1.status sts with lastEmitTime := n }
        g_timerMap := timerEmplace s1.g_timerMap (n + (s.status sts).timeout) sts }
    else s1
  else s

/-- One pass through the body of the `for` loop of `helperThread`, at the time
`n`: the body runs for the first status that the loop has not reached, and the
loop has then reached it.  With the last one the array is empty, as line 75
leaves it. -/
def helperNext (n : Seconds) (s : TimerService) : TimerService :=
  match s.readyTimerArray with
  | [] => s
  | sts :: rest => { helperFire n s sts with readyTimerArray := rest }

end TimerService

namespace Timer

/-- Method `Timer::stop`. -/
def stop (t : Timer) (s : TimerService) : TimerService :=
  let st := s.status t.m_sharedTimerStatus
  { s with
    status := Function.update s.status t.m_sharedTimerStatus { st with running := false }
    g_timerMap :=
      TimerService.stopErase s.status t.this (st.lastEmitTime + st.timeout) s.g_timerMap }

/-- Method `Timer::start`, with `n` the reading of `now()`.  The post of
`g_helperSem`, which wakes the timer thread for its next pass, is not part of
the state. -/
def start (t : Timer) (sec n : Seconds) (s : TimerService) : TimerService :=
  let s1 := t.stop s
  let st : TimerStatus :=
    { s1.status t.m_sharedTimerStatus with lastEmitTime := n, running := true, timeout := sec }
  { s1 with
    status := Function.update s1.status t.m_sharedTimerStatus st
    g_timerMap := TimerService.timerEmplace s1.g_timerMap (n + sec) t.m_sharedTimerStatus }

end Timer

/-- A step of the timer thread or a call on a Timer from another thread.  The
scan of `helperThread` holds `g_timerMapMutex`, each body of its `for` loop
holds the mutex of one status, and between two of them the thread holds no
lock: calls on a Timer can run there. -/
inductive TimerOp where
  /-- The scan of `helperThread` (lines 44 to 59) that reads the time `n`. -/
  | scan (n : Seconds)
  /-- The next body of the `for` loop of `helperThread` (lines 62 to 73), at
  the time `n`. -/
  | fire (n : Seconds)
  /-- The call `t.start(sec)` at the time `n`. -/
  | start (t : Timer) (sec n : Seconds)
  /-- The call `t.stop()`. -/
  | stop (t : Timer)
deriving DecidableEq, Repr

/-- Run of one step. -/
def TimerService.step (s : TimerService) : TimerOp → TimerService
  | TimerOp.scan n => s.helperCollect n
  | TimerOp.fire n => s.helperNext n
  | TimerOp.start t sec n => t.start sec n s
  | TimerOp.stop t => t.stop s

/-- Run of steps, first to last. -/
def TimerService.steps (s : TimerService) (ops : List TimerOp) : TimerService :=
  ops.foldl TimerService.step s

/-- A timer service with no Timer started: the status at handle `h` is that of
a new Timer at address `h`. -/
def idleTimers : TimerService :=
  { g_timerMap := [], status := fun h => TimerStatus.init h, readyTimerArray := [], emitted := [] }

/-- The Timer at address `a`, with the status at handle `a`. -/
def timerAt (a : Nat) : Timer := { this := a, m_sharedTimerStatus := a }

/-- The Timers 1, 2, 3 and 4 are started at time 0 with the delays 5, 7, 7
and 9. -/
def fourTimers : TimerService :=
  idleTimers.steps [TimerOp.start (timerAt 1) 5 0, TimerOp.start (timerAt 2) 7 0,
    TimerOp.start (timerAt 3) 7 0, TimerOp.start (timerAt 4) 9 0]

/-- Timer 1 is started at time 0 with the delay 5; the timer thread scans at
time 6 and collects its status; before the thread reaches the `for` loop,
Timer 1 is started again, at time 6 with the delay 10. -/
def restartedAfterScan : TimerService :=
  idleTimers.steps [TimerOp.start (timerAt 1) 5 0, TimerOp.scan 6, TimerOp.start (timerAt 1) 10 6]

/-! # Theorems -/

/-! ## ring_list: pop after push on an empty ring -/

namespace ring_list
variable {T : Type} [Inhabited T]

theorem getD_setT_same (cells : List (Item T)) (i : Nat) (v : T) (h : i < cells.length) :
    ((setT cells i v).getD i default).t = v := by
  simp [setT, List.getD_eq_getElem?_getD, List.getElem?_set, h]

theorem newItems_read (r : ring_list T) (h : r.m_allocated.length ≠ 0) :
    (newItems r).m_itemRead = r.m_itemRead ∧ (newItems r).m_itemWrite = r.m_itemWrite ∧
    (newItems r).m_available = r.m_available ∧
    r.m_allocated.length ≤ (newItems r).m_allocated.length := by
  simp [newItems, h, setNext]

/-- Pop step after a write at the read position. -/
theorem pop_after_write (r : ring_list T) (v : T) (hr : r.m_itemRead < r.m_allocated.length)
    (h0 : r.m_available = 0) (hw : r.m_itemWrite = r.m_itemRead) :
    ∃ r1, pop { r with
      m_allocated := setT r.m_allocated r.m_itemWrite v
      m_itemWrite := (r.m_allocated.getD r.m_itemWrite default).next
      m_available := r.m_available + 1 } = some (v, r1) := by
  have := getD_setT_same r.m_allocated r.m_itemRead v hr
  rw [List.getD_eq_getElem?_getD] at this
  simp [pop, h0, hw, this]

theorem push_pop_of_empty (r : ring_list T) (v : T) (hr : r.m_itemRead < r.m_allocated.length)
    (h0 : r.m_available = 0) (hw : r.m_itemWrite = r.m_itemRead) :
    ∃ r1, (r.push v).pop = some (v, r1) := by
  have hne : r.m_allocated.length ≠ 0 := by omega
  obtain ⟨h1, h2, h3, h4⟩ := newItems_read r hne
  unfold push
  by_cases hs : r.m_available = r.m_size
  · simp only [hs, if_true]
    exact pop_after_write (newItems r) v (by omega) (by omega) (by omega)
  · simp only [hs, if_false]
    exact pop_after_write r v hr h0 hw
end ring_list

/-! ## ring_list: the invariant of reachable states -/

namespace ring_list
variable {T : Type} [Inhabited T]

theorem walk_succ (cells : List (Item T)) (n i : Nat) :
    walk cells (n + 1) i = nextOf cells (walk cells n i) := by
  induction n generalizing i with
  | zero => rfl
  | succ n ih => rw [walk, ih (nextOf cells i), walk]

theorem length_setT (cells : List (Item T)) (i : Nat) (v : T) :
    (setT cells i v).length = cells.length := by
  simp [setT]

theorem nextOf_setT (cells : List (Item T)) (i : Nat) (v : T) (j : Nat) :
    nextOf (setT cells i v) j = nextOf cells j := by
  unfold nextOf setT
  simp only [List.getD_eq_getElem?_getD, List.getElem?_set]
  by_cases hij : i = j
  · subst hij
    by_cases hl : i < cells.length
    · simp [hl]
    · simp [hl, List.getElem?_eq_none (Nat.le_of_not_lt hl)]
  · simp [hij]

theorem walk_setT (cells : List (Item T)) (i : Nat) (v : T) (n j : Nat) :
    walk (setT cells i v) n j = walk cells n j := by
  induction n generalizing j with
  | zero => rfl
  | succ n ih => rw [walk, walk, nextOf_setT, ih]

theorem newItems_grow (r : ring_list T) (h : r.m_allocated.length ≠ 0)
    (hnext : ∀ i, i < r.m_allocated.length → nextOf r.m_allocated i < r.m_allocated.length) :
    (newItems r).m_allocated.length = r.m_allocated.length + 64 ∧
    (newItems r).m_size = r.m_size ∧
    ∀ i, i < r.m_allocated.length + 64 →
      nextOf (newItems r).m_allocated i < r.m_allocated.length + 64 := by
  refine ⟨by simp [newItems, h, setNext], by simp [newItems, h, movedFromSize], ?_⟩
  intro i hi
  unfold nextOf
  simp only [newItems, h, if_false, setNext, List.getD_eq_getElem?_getD]
  by_cases hlt : i < r.m_allocated.length
  · rw [List.getElem?_append_left (by simpa using hlt)]
    simp only [List.getElem?_set]
    by_cases he : r.m_allocated.length - 1 = i
    · simp [he, hlt]
    · have := hnext i hlt
      unfold nextOf at this
      rw [List.getD_eq_getElem?_getD] at this
      simp only [he, if_false]
      omega
  · rw [List.getElem?_append_right (by simpa using hlt)]
    simp only [List.length_set, List.getElem?_set, List.length_map, List.length_range]
    have hj : i - r.m_allocated.length < 64 := by omega
    by_cases he : 63 = i - r.m_allocated.length
    · simp [← he]
    · simp only [he, if_false, List.getElem?_map, List.getElem?_range hj, Option.map_some',
        Option.getD_some]
      split <;> omega

theorem Inv_new : Inv (new : ring_list T) := by
  refine ⟨rfl, by simp [new, newItems, setNext], by simp [new, newItems, setNext], ?_, rfl⟩
  intro i hi
  have hi64 : i < 64 := hi
  unfold nextOf
  show ((new : ring_list T).m_allocated.getD i default).next < 64
  simp only [new, newItems, List.length_nil, if_true, setNext, List.nil_append,
    List.getD_eq_getElem?_getD, List.getElem?_set, List.length_map, List.length_range]
  by_cases he : 63 = i
  · simp [← he]
  · simp only [he, if_false, List.getElem?_map, List.getElem?_range hi64, Option.map_some',
      Option.getD_some]
    split <;> omega

theorem Inv_push (r : ring_list T) (v : T) (h : Inv r) : Inv (r.push v) := by
  obtain ⟨hs, hr, hw, hn, hwalk⟩ := h
  have hne : r.m_allocated.length ≠ 0 := by omega
  unfold push
  by_cases ha : r.m_available = r.m_size
  · obtain ⟨h1, h2, h3, h4⟩ := newItems_read r hne
    obtain ⟨g1, g2, g3⟩ := newItems_grow r hne hn
    have ha0 : r.m_available = 0 := by rw [ha, hs]
    have hwr : r.m_itemWrite = r.m_itemRead := by
      rw [ha0] at hwalk; exact hwalk.symm
    simp only [ha, if_true]
    refine ⟨by rw [g2]; exact hs, ?_, ?_, ?_, ?_⟩
    · show (newItems r).m_itemRead < (setT _ _ _).length
      rw [length_setT, g1, h1]; omega
    · show nextOf (newItems r).m_allocated (newItems r).m_itemWrite < (setT _ _ _).length
      rw [length_setT, g1]
      exact g3 _ (by rw [h2]; omega)
    · intro i hi
      rw [length_setT, g1] at hi
      show nextOf (setT _ _ _) i < (setT _ _ _).length
      rw [nextOf_setT, length_setT, g1]
      exact g3 i hi
    · show walk (setT _ _ _) ((newItems r).m_available + 1) (newItems r).m_itemRead
        = nextOf (newItems r).m_allocated (newItems r).m_itemWrite
      rw [walk_setT, walk_succ, h3, ha0, h1, h2, hwr]
      rfl
  · simp only [ha, if_false]
    refine ⟨hs, ?_, ?_, ?_, ?_⟩
    · show r.m_itemRead < (setT _ _ _).length
      rw [length_setT]; exact hr
    · show nextOf r.m_allocated r.m_itemWrite < (setT _ _ _).length
      rw [length_setT]; exact hn _ hw
    · intro i hi
      rw [length_setT] at hi
      show nextOf (setT _ _ _) i < (setT _ _ _).length
      rw [nextOf_setT, length_setT]
      exact hn i hi
    · show walk (setT _ _ _) (r.m_available + 1) r.m_itemRead = nextOf r.m_allocated r.m_itemWrite
      rw [walk_setT, walk_succ, hwalk]

theorem Inv_pop (r r1 : ring_list T) (v : T) (h : Inv r) (hp : r.pop = some (v, r1)) : Inv r1 := by
  obtain ⟨hs, hr, hw, hn, hwalk⟩ := h
  unfold pop at hp
  split at hp
  · cases hp
  · rename_i ha
    simp only [Option.some.injEq, Prod.mk.injEq] at hp
    obtain ⟨-, rfl⟩ := hp
    refine ⟨hs, hn _ hr, hw, hn, ?_⟩
    show walk r.m_allocated (r.m_available - 1) (nextOf r.m_allocated r.m_itemRead) = r.m_itemWrite
    obtain ⟨n, hn1⟩ : ∃ n, r.m_available = n + 1 := ⟨r.m_available - 1, by omega⟩
    rw [hn1] at hwalk
    rw [hn1, Nat.add_sub_cancel]
    exact hwalk

/-- In a reachable state an empty ring has its two pointers on one allocated
cell. -/
theorem Inv_empty (r : ring_list T) (h : Inv r) (h0 : r.m_available = 0) :
    r.m_itemRead < r.m_allocated.length ∧ r.m_itemWrite = r.m_itemRead := by
  obtain ⟨-, hr, -, -, hwalk⟩ := h
  rw [h0] at hwalk
  exact ⟨hr, hwalk.symm⟩

end ring_list

/-! ## The multimap and the work queue -/

theorem mem_multimapEmplace (m : List (Priority × WorkFun)) (k : Priority) (w : WorkFun)
    (x : Priority × WorkFun) : x ∈ multimapEmplace m k w ↔ x = (k, w) ∨ x ∈ m := by
  induction m with
  | nil => simp [multimapEmplace]
  | cons a m ih =>
    obtain ⟨k1, w1⟩ := a
    unfold multimapEmplace
    split
    · simp
    · simp only [List.mem_cons, ih]
      tauto

theorem multimapEmplace_sorted (m : List (Priority × WorkFun)) (k : Priority) (w : WorkFun)
    (h : (m.map Prod.fst).Sorted (· ≤ ·)) :
    ((multimapEmplace m k w).map Prod.fst).Sorted (· ≤ ·) := by
  induction m with
  | nil => simp [multimapEmplace]
  | cons a m ih =>
    obtain ⟨k1, w1⟩ := a
    simp only [List.map_cons, List.sorted_cons] at h
    unfold multimapEmplace
    split
    · rename_i hlt
      simp only [List.map_cons, List.sorted_cons, List.mem_cons, List.mem_map]
      refine ⟨?_, ?_, h.2⟩
      · rintro b (rfl | ⟨x, hx, rfl⟩)
        · exact Nat.le_of_lt hlt
        · have := h.1 x.1 (List.mem_map.mpr ⟨x, hx, rfl⟩)
          exact Nat.le_of_lt (Nat.lt_of_lt_of_le hlt this)
      · rintro b ⟨x, hx, rfl⟩
        exact h.1 x.1 (List.mem_map.mpr ⟨x, hx, rfl⟩)
    · rename_i hge
      simp only [List.map_cons, List.sorted_cons, List.mem_map]
      refine ⟨?_, ih h.2⟩
      rintro b ⟨x, hx, rfl⟩
      rcases (mem_multimapEmplace m k w x).mp hx with rfl | hx
      · exact Nat.le_of_not_lt hge
      · exact h.1 x.1 (List.mem_map.mpr ⟨x, hx, rfl⟩)

theorem multimapEmplace_front (m : List (Priority × WorkFun)) (k : Priority) (w : WorkFun)
    (h : ∀ x ∈ m, k < x.1) : multimapEmplace m k w = (k, w) :: m := by
  cases m with
  | nil => rfl
  | cons a m =>
    obtain ⟨k1, w1⟩ := a
    have := h (k1, w1) (by simp)
    simp only at this
    simp [multimapEmplace, this]

namespace Loop

theorem takeWork_ring_empty (l : Loop) (h : l.m_highPriWorkTable.m_available = 0) :
    l.takeWork = match l.m_eventsMap with
      | [] => none
      | (k, w) :: rest => some (k, { l with m_workFun := w, m_eventsMap := rest }) := by
  simp [takeWork, ring_list.pop, h]

theorem work_low (l : Loop) (w : WorkFun) (q : Priority) (hq : q ≠ HighPriority) :
    work l w q = { l with
      m_eventsMap := multimapEmplace l.m_eventsMap q w
      m_runSem := l.m_runSem.post } := by
  simp [work, workHelper, hq]

theorem work_high (l : Loop) (w : WorkFun) :
    work l w HighPriority = { l with
      m_highPriWorkTable := l.m_highPriWorkTable.push w
      m_runSem := l.m_runSem.post } := by
  simp [work, workHelper]

/-- Effect of a batch of `work` calls at one priority other than `HighPriority`. -/
theorem workAll_low (q : Priority) (hq : q ≠ HighPriority) (ws : List Nat) (l : Loop) :
    (workAll l (ws.map fun w => (some w, q))).m_highPriWorkTable = l.m_highPriWorkTable ∧
    (workAll l (ws.map fun w => (some w, q))).m_workFun = l.m_workFun ∧
    (workAll l (ws.map fun w => (some w, q))).m_runSem.m_value = l.m_runSem.m_value + ws.length ∧
    (∀ x ∈ l.m_eventsMap, x ∈ (workAll l (ws.map fun w => (some w, q))).m_eventsMap) ∧
    (∀ w ∈ ws, (q, some w) ∈ (workAll l (ws.map fun w => (some w, q))).m_eventsMap) ∧
    (∀ p h m, l.m_eventsMap = (p, h) :: m → p ≤ q →
      ∃ m1, (workAll l (ws.map fun w => (some w, q))).m_eventsMap = (p, h) :: m1) := by
  induction ws generalizing l with
  | nil =>
    simp only [List.map_nil, workAll, List.foldl_nil, List.length_nil, Nat.add_zero, true_and]
    refine ⟨fun x hx => hx, by simp, fun p h m hl _ => ⟨m, hl⟩⟩
  | cons w ws ih =>
    have hstep : workAll l ((w :: ws).map fun w => (some w, q)) =
        workAll (work l (some w) q) (ws.map fun w => (some w, q)) := by
      simp [workAll]
    rw [hstep]
    obtain ⟨h1, h2, h3, h4, h5, h6⟩ := ih (work l (some w) q)
    have hwork := work_low l (some w) q hq
    have hm : (work l (some w) q).m_eventsMap = multimapEmplace l.m_eventsMap q (some w) := by
      rw [hwork]
    refine ⟨?_, ?_, ?_, ?_, ?_, ?_⟩
    · rw [h1, hwork]
    · rw [h2, hwork]
    · have hv : (work l (some w) q).m_runSem.m_value = l.m_runSem.m_value + 1 := by
        rw [hwork]; rfl
      rw [h3, hv, List.length_cons]; omega
    · intro x hx
      apply h4
      rw [hm]
      exact (mem_multimapEmplace _ _ _ _).mpr (Or.inr hx)
    · intro x hx
      rcases List.mem_cons.mp hx with rfl | hx
      · apply h4
        rw [hm]
        exact (mem_multimapEmplace _ _ _ _).mpr (Or.inl rfl)
      · exact h5 x hx
    · intro p h m hl hpq
      apply h6 p h (multimapEmplace m q (some w))
      · rw [hm, hl]
        have : ¬ q < p := Nat.not_lt.mpr hpq
        simp [multimapEmplace, this]
      · exact hpq

end Loop

/-! ## The ring of a Loop stays within the invariant -/

theorem Loop.new_ringInv : Loop.new.m_highPriWorkTable.Inv :=
  ring_list.Inv_new

theorem Loop.work_ringInv (l : Loop) (w : WorkFun) (pri : Priority)
    (h : l.m_highPriWorkTable.Inv) : (Loop.work l w pri).m_highPriWorkTable.Inv := by
  by_cases hp : pri = HighPriority
  · subst hp
    rw [Loop.work_high]
    exact ring_list.Inv_push _ _ h
  · rw [Loop.work_low l w pri hp]
    exact h

theorem Loop.takeWork_ringInv (l l1 : Loop) (pri : Priority) (h : l.m_highPriWorkTable.Inv)
    (ht : l.takeWork = some (pri, l1)) : l1.m_highPriWorkTable.Inv := by
  unfold Loop.takeWork at ht
  split at ht
  · rename_i w r hpop
    simp only [Option.some.injEq, Prod.mk.injEq] at ht
    obtain ⟨-, rfl⟩ := ht
    exact ring_list.Inv_pop _ _ _ h hpop
  · split at ht
    · cases ht
    · simp only [Option.some.injEq, Prod.mk.injEq] at ht
      obtain ⟨-, rfl⟩ := ht
      exact h

/-! ## FIFO order in the multimap -/

theorem multimapEmplace_back (m : List (Priority × WorkFun)) (k : Priority) (w : WorkFun)
    (h : ∀ x ∈ m, x.1 ≤ k) : multimapEmplace m k w = m ++ [(k, w)] := by
  induction m with
  | nil => rfl
  | cons a m ih =>
    obtain ⟨k1, w1⟩ := a
    have h1 : ¬ k < k1 := Nat.not_lt.mpr (h (k1, w1) (List.mem_cons_self _ _))
    simp only [multimapEmplace, h1, if_false, List.cons_append]
    rw [ih (fun x hx => h x (List.mem_cons_of_mem _ hx))]

namespace Loop

/-- State after a batch of `work` calls at one priority other than
`HighPriority` on a Loop whose multimap holds nothing of a larger priority. -/
theorem workAll_low_appends (q : Priority) (hq : q ≠ HighPriority) (ws : List Nat) (l : Loop)
    (hl : ∀ x ∈ l.m_eventsMap, x.1 ≤ q) :
    workAll l (ws.map fun w => (some w, q)) =
      { l with
        m_eventsMap := l.m_eventsMap ++ ws.map (fun w => (q, some w))
        m_runSem := { m_value := l.m_runSem.m_value + ws.length } } := by
  induction ws generalizing l with
  | nil => simp [workAll]
  | cons w ws ih =>
    have hstep : workAll l ((w :: ws).map fun w => (some w, q)) =
        workAll (work l (some w) q) (ws.map fun w => (some w, q)) := by
      simp [workAll]
    rw [hstep, work_low l (some w) q hq, multimapEmplace_back _ _ _ hl, ih]
    · simp only [Semaphore.post, List.append_assoc, List.singleton_append, List.map_cons,
        List.length_cons]
      congr 2
      omega
    · intro x hx
      rcases List.mem_append.mp hx with h | h
      · exact hl x h
      · simp only [List.mem_singleton] at h
        rw [h]

/-- Draining a multimap of `n + 1` closures that leave the queue alone, with
the ring empty and the semaphore at `n`. -/
theorem processData_drains_map (m : List (Priority × Nat)) (e : Priority × Nat) (l : Loop)
    (hring : l.m_highPriWorkTable.m_available = 0)
    (hmap : l.m_eventsMap = (e :: m).map (fun x => (x.1, some x.2)))
    (hsem : l.m_runSem.m_value = m.length) (extra : Nat) :
    (processData inert (m.length + 1 + extra) l).1 = (e :: m).map Prod.snd ∧
    ∃ l1, (processData inert (m.length + 1 + extra) l).2 = some l1 ∧ l1.m_eventsMap = [] ∧
      l1.m_runSem.m_value = 0 := by
  induction m generalizing e l with
  | nil =>
    have ht : l.takeWork = some (e.1, { l with m_workFun := some e.2, m_eventsMap := [] }) := by
      rw [takeWork_ring_empty l hring, hmap]; rfl
    have hs : l.m_runSem.tryWait = (false, l.m_runSem) := by
      simp [Semaphore.tryWait, hsem]
    rw [show [].length + 1 + extra = extra + 1 by simp; omega, processData]
    simp only [ht, inert, hs]
    exact ⟨rfl, _, rfl, rfl, hsem⟩
  | cons e1 m ih =>
    have ht : l.takeWork = some (e.1, { l with
        m_workFun := some e.2, m_eventsMap := (e1 :: m).map (fun x => (x.1, some x.2)) }) := by
      rw [takeWork_ring_empty l hring, hmap]; rfl
    have hs : l.m_runSem.tryWait = (true, { m_value := m.length }) := by
      simp [Semaphore.tryWait, hsem]
    obtain ⟨h1, l1, h2, h3, h4⟩ := ih e1
      { l with m_workFun := some e.2, m_eventsMap := (e1 :: m).map (fun x => (x.1, some x.2)),
               m_runSem := { m_value := m.length } } hring rfl rfl
    rw [show (e1 :: m).length + 1 + extra = (m.length + 1 + extra) + 1 by simp; omega,
      processData]
    simp only [ht, inert, hs, h1, h2]
    exact ⟨rfl, l1, rfl, h3, h4⟩

end Loop

/-- At every priority other than 0, any number `n + 1` of closures enqueued
with `work` on a fresh Loop and drained by one pass of `run` are invoked once
each in the order they were enqueued, and the pass ends with the queue
empty. -/
theorem loop_fifo_at_low_priority (p : Priority) (hp : p ≠ HighPriority) (w : Nat)
    (ws : List Nat) :
    ∃ tr l1, Loop.runPass Loop.inert (ws.length + 1)
        (Loop.workAll Loop.new ((w :: ws).map fun k => (some k, p))) = some (tr, some l1) ∧
      tr = w :: ws ∧ l1.m_eventsMap = [] := by
  rw [Loop.workAll_low_appends p hp (w :: ws) Loop.new (by intro x hx; cases hx)]
  have hwait : ({ m_value := Loop.new.m_runSem.m_value + (w :: ws).length } : Semaphore).wait
      = some { m_value := ws.length } := by
    simp [Semaphore.wait, Loop.new]
  obtain ⟨h1, l1, h2, h3, -⟩ := Loop.processData_drains_map (ws.map fun k => (p, k)) (p, w)
    { Loop.new with
      m_eventsMap := (w :: ws).map (fun k => (p, some k))
      m_runSem := { m_value := ws.length } }
    rfl (by simp [Function.comp_def]) (by simp) 0
  simp only [List.length_map, Nat.add_zero] at h1 h2
  refine ⟨w :: ws, l1, ?_, rfl, h3⟩
  simp only [Loop.runPass, hwait]
  have hnil : Loop.new.m_eventsMap ++ (w :: ws).map (fun k => (p, some k))
      = (w :: ws).map (fun k => (p, some k)) := rfl
  simp only [hnil]
  rw [← h2]
  congr 1
  rw [Prod.ext_iff]
  refine ⟨?_, rfl⟩
  rw [h1]
  simp [Function.comp_def]

/-! ## ring_list: the overflow -/

set_option maxRecDepth 100000 in
/-- C1. After 129 pushes of the values 1, 2, ..., 129 on a new ring with no pop
in between, `available()` is 129 and the first pop delivers 129, the value
pushed last, where the FIFO queue delivers 1: the oldest value has been
overwritten. -/
theorem ring_list_overflow_overwrites_oldest :
    (runRing overflowOps ring_list.new).1 = [some 129] ∧
    (runFifo overflowOps []).1 = [some 1] ∧
    (ring_list.pushAll ring_list.new (List.range' 1 129)).available = 129 ∧
    (ring_list.pushAll ring_list.new (List.range' 1 129)).m_size = 0 := by
  decide

set_option maxRecDepth 100000 in
/-- C2. On a fresh Loop, 129 closures 0, ..., 128 enqueued with `work` at
priority 0 and then drained by one pass of `run`: the pass ends, the first
closure invoked is 128, the one enqueued last, and closure 0 is never
invoked. -/
theorem loop_burst_at_high_priority_loses_first_closure :
    (Loop.runPass Loop.inert 200 (burst 129)).map
      (fun r => (r.1.head?, decide (0 ∈ r.1), r.2.isSome)) = some (some 128, false, true) := by
  decide

set_option maxRecDepth 100000 in
/-- The same 129 closures enqueued at priority 3 are invoked once each in the
order they were enqueued. -/
theorem loop_burst_at_low_priority_in_order :
    (Loop.runPass Loop.inert 200
      (Loop.workAll Loop.new ((List.range 129).map fun k => (some k, 3)))).map (fun r => r.1)
      = some (List.range 129) := by
  decide

/-! ## Priority order -/

namespace Loop

theorem processData_head (exec : Nat → Loop → Loop) (fuel : Nat) (l l1 : Loop) (pri : Priority)
    (k : Nat) (ht : l.takeWork = some (pri, l1)) (hk : l1.m_workFun = some k) :
    ∃ tail, (processData exec (fuel + 1) l).1 = k :: tail := by
  unfold processData
  simp only [ht, hk]
  split
  · exact ⟨_, rfl⟩
  · exact ⟨_, rfl⟩

end Loop

theorem Loop.takeWork_ring_front (le : Loop) (s : Semaphore) (v : WorkFun)
    (r1 : ring_list WorkFun) (hpop : le.m_highPriWorkTable.pop = some (v, r1)) :
    Loop.takeWork { le with m_runSem := s } =
      some (HighPriority, { le with m_runSem := s, m_workFun := v, m_highPriWorkTable := r1 }) := by
  simp [Loop.takeWork, hpop]

theorem Loop.takeWork_map_front (le : Loop) (s : Semaphore) (k : Priority) (v : WorkFun)
    (m1 : List (Priority × WorkFun)) (hr0 : le.m_highPriWorkTable.m_available = 0)
    (hm : le.m_eventsMap = (k, v) :: m1) :
    Loop.takeWork { le with m_runSem := s } =
      some (k, { le with m_runSem := s, m_workFun := v, m_eventsMap := m1 }) := by
  simp [Loop.takeWork, ring_list.pop, hr0, hm]

theorem tryWait_pos (s : Semaphore) (h : 0 < s.m_value) :
    s.tryWait = (true, { m_value := s.m_value - 1 }) := by
  simp [Semaphore.tryWait, h]

/-- C4. `processData` is about to take closure `c` of priority `q` (the ring is
empty, with both pointers on one cell as in every reachable state, and `c`
heads the multimap).  While `c` runs, item `h` of priority `p < q` is enqueued
and then the items `ws` of priority `q`.  Then `c` is the closure taken and its
run is one step of the loop, the item taken next is `h`, with all of `ws` still
queued at that moment, and the closures invoked start with `c`, `h`. -/
theorem higher_priority_item_runs_next (exec : Nat → Loop → Loop) (l : Loop) (c h : Nat)
    (p q : Priority) (ws : List Nat) (rest : List (Priority × WorkFun))
    (hpq : p < q)
    (hring : l.m_highPriWorkTable.m_available = 0)
    (hread : l.m_highPriWorkTable.m_itemRead < l.m_highPriWorkTable.m_allocated.length)
    (hwrite : l.m_highPriWorkTable.m_itemWrite = l.m_highPriWorkTable.m_itemRead)
    (hmap : l.m_eventsMap = (q, some c) :: rest)
    (hsorted : (l.m_eventsMap.map Prod.fst).Sorted (· ≤ ·))
    (hexec : ∀ s, exec c s = Loop.workAll (Loop.work s (some h) p) (ws.map fun w => (some w, q)))
    (fuel : Nat) :
    (∃ lc, l.takeWork = some (q, lc) ∧ lc.m_workFun = some c ∧
      ∃ s lh, (exec c lc).m_runSem.tryWait = (true, s) ∧
        Loop.takeWork { exec c lc with m_runSem := s } = some (p, lh) ∧ lh.m_workFun = some h ∧
        ∀ w ∈ ws, (q, some w) ∈ lh.m_eventsMap) ∧
    ∃ tail, (Loop.processData exec (fuel + 2) l).1 = c :: h :: tail := by
  have hq : q ≠ HighPriority := by
    intro h0; rw [h0] at hpq; exact Nat.not_lt_zero _ hpq
  have htake : l.takeWork = some (q, { l with m_workFun := some c, m_eventsMap := rest }) := by
    rw [Loop.takeWork_ring_empty l hring, hmap]
  obtain ⟨h1, h2, h3, h4, h5, h6⟩ := Loop.workAll_low q hq ws
    (Loop.work { l with m_workFun := some c, m_eventsMap := rest } (some h) p)
  rw [← hexec] at h1 h2 h3 h4 h5 h6
  have hsem : 0 < (exec c { l with m_workFun := some c, m_eventsMap := rest }).m_runSem.m_value := by
    rw [h3]
    have : 0 < (Loop.work { l with m_workFun := some c, m_eventsMap := rest } (some h) p).m_runSem.m_value := by
      simp [Loop.work, Loop.workHelper, Semaphore.post]
    omega
  have htry := tryWait_pos _ hsem
  have hnext : ∃ lh, Loop.takeWork { exec c { l with m_workFun := some c, m_eventsMap := rest } with
        m_runSem := { m_value := (exec c { l with m_workFun := some c, m_eventsMap := rest }).m_runSem.m_value - 1 } }
        = some (p, lh) ∧ lh.m_workFun = some h ∧ ∀ w ∈ ws, (q, some w) ∈ lh.m_eventsMap := by
    by_cases hp : p = HighPriority
    · subst hp
      rw [Loop.work_high] at h1
      obtain ⟨r1, hr1⟩ := ring_list.push_pop_of_empty l.m_highPriWorkTable (some h) hread hring hwrite
      have hpop : (exec c { l with m_workFun := some c, m_eventsMap := rest }).m_highPriWorkTable.pop
          = some (some h, r1) := by
        rw [h1]; exact hr1
      exact ⟨_, Loop.takeWork_ring_front _ _ _ _ hpop, rfl, fun w hw => h5 w hw⟩
    · have hfront : multimapEmplace rest p (some h) = (p, some h) :: rest := by
        apply multimapEmplace_front
        intro x hx
        rw [hmap] at hsorted
        simp only [List.map_cons, List.sorted_cons] at hsorted
        exact Nat.lt_of_lt_of_le hpq (hsorted.1 x.1 (List.mem_map.mpr ⟨x, hx, rfl⟩))
      rw [Loop.work_low _ _ _ hp] at h1 h6
      obtain ⟨m1, hm1⟩ := h6 p (some h) rest hfront (Nat.le_of_lt hpq)
      have hr0 : (exec c { l with m_workFun := some c, m_eventsMap := rest }).m_highPriWorkTable.m_available = 0 := by
        rw [h1]; exact hring
      refine ⟨_, Loop.takeWork_map_front _ _ _ _ _ hr0 hm1, rfl, ?_⟩
      · intro w hw
        have := h5 w hw
        rw [hm1] at this
        rcases List.mem_cons.mp this with heq | hmem
        · exfalso
          have : q = p := (Prod.mk.inj heq).1
          rw [this] at hpq
          exact Nat.lt_irrefl _ hpq
        · exact hmem
  obtain ⟨lh, hlh1, hlh2, hlh3⟩ := hnext
  refine ⟨⟨_, htake, rfl, _, lh, htry, hlh1, hlh2, hlh3⟩, ?_⟩
  obtain ⟨tail, htail⟩ := Loop.processData_head exec fuel _ lh p h hlh1 hlh2
  refine ⟨tail, ?_⟩
  rw [Loop.processData]
  simp only [htake, htry, htail]
  rfl

theorem higher_priority_item_runs_next_witness :
    (2 : Nat) < 5 ∧ onePending.m_eventsMap = [(5, some 1)] ∧
    ∃ tail, (Loop.processData enqueuesDuringRun 2 onePending).1 = 1 :: 9 :: tail :=
  ⟨by decide, by decide,
    (higher_priority_item_runs_next enqueuesDuringRun onePending 1 9 2 5 [10, 11] []
      (by decide) (by decide) (by decide) (by decide) (by decide) (by decide)
      (fun s => by simp [enqueuesDuringRun]) 0).2⟩

/-! ## Thread affinity -/

theorem lookup_eq_some_iff (m : List (Nat × Nat)) (hn : (m.map Prod.fst).Nodup) (t l : Nat) :
    m.lookup t = some l ↔ (t, l) ∈ m := by
  induction m with
  | nil => simp
  | cons a m ih =>
    obtain ⟨t1, l1⟩ := a
    simp only [List.map_cons, List.nodup_cons, List.mem_map, not_exists, not_and] at hn
    by_cases ht : t = t1
    · subst ht
      simp only [List.lookup_cons, beq_self_eq_true, Option.some.injEq, List.mem_cons,
        Prod.mk.injEq, true_and]
      constructor
      · intro h; exact Or.inl h.symm
      · rintro (h | h)
        · exact h.symm
        · exact absurd rfl (hn.1 (t, l) h)
    · have hb : (t == t1) = false := by simpa using ht
      simp only [List.lookup_cons, hb, List.mem_cons, Prod.mk.injEq, ht, false_and, false_or]
      exact ih hn.2

theorem getCurrentLoop_eq_iff (p : LoopPool) (huniq : p.uniqueKeys) (this tid : Nat) :
    this = p.getCurrentLoop tid ↔
      (p.ownThread this tid ∨ (p.ownsNoLoop tid ∧ this = p.defaultLoop)) := by
  unfold LoopPool.getCurrentLoop LoopPool.ownThread LoopPool.ownsNoLoop LoopPool.getInstance
  cases hl : p.g_loopPoolMap.lookup tid with
  | none =>
    simp only [true_and]
    constructor
    · intro h; exact Or.inr h
    · rintro (h | h)
      · rw [← lookup_eq_some_iff _ huniq, hl] at h
        exact absurd h (by simp)
      · exact h
  | some l1 =>
    rw [← lookup_eq_some_iff _ huniq, hl]
    constructor
    · intro h; rw [h]; exact Or.inl rfl
    · rintro (h | h)
      · exact (Option.some.inj h).symm
      · exact absurd h.1 (by simp)

/-- C5, as amended. Each of `waitEvent`, `process` and `waitProcess` of Loop
`this`, called on thread `tid`, throws exactly when `this` is not the current
Loop of `tid`: when `tid` is neither the own thread of `this` nor a thread that
owns no Loop calling the default Loop. -/
theorem thread_check_throws_iff (p : LoopPool) (huniq : p.uniqueKeys) (this tid : Nat)
    (exec : Nat → Loop → Loop) (fuel : Nat) (l : Loop) :
    (threw (Loop.waitEvent p this tid l) = true ↔
      ¬ (p.ownThread this tid ∨ (p.ownsNoLoop tid ∧ this = p.defaultLoop))) ∧
    (threw (Loop.process p this tid exec fuel l) = true ↔
      ¬ (p.ownThread this tid ∨ (p.ownsNoLoop tid ∧ this = p.defaultLoop))) ∧
    (threw (Loop.waitProcess p this tid exec fuel l) = true ↔
      ¬ (p.ownThread this tid ∨ (p.ownsNoLoop tid ∧ this = p.defaultLoop))) := by
  rw [← getCurrentLoop_eq_iff p huniq this tid]
  by_cases h : this = p.getCurrentLoop tid
  · refine ⟨?_, ?_, ?_⟩
    · simp [Loop.waitEvent, h, threw]
    · simp only [Loop.process, ne_eq, h, not_true_eq_false, if_false]
      split <;> simp [threw]
    · simp [Loop.waitProcess, h, threw]
  · refine ⟨?_, ?_, ?_⟩
    · simp [Loop.waitEvent, h, threw]
    · simp [Loop.process, h, threw]
    · simp [Loop.waitProcess, h, threw]

theorem thread_check_throws_iff_witness :
    twoLoops.uniqueKeys ∧
    (threw (Loop.waitEvent twoLoops 20 1 Loop.new) = true ↔
      ¬ (twoLoops.ownThread 20 1 ∨ (twoLoops.ownsNoLoop 1 ∧ 20 = twoLoops.defaultLoop))) :=
  ⟨by decide, (thread_check_throws_iff twoLoops (by decide) 20 1 Loop.inert 0 Loop.new).1⟩

/-- C5, the claim as stated fails. Thread 0 owns no Loop, so it is not the own
thread of the default Loop (address 10), and yet none of the three calls made
on the default Loop from thread 0 throws. -/
theorem default_loop_accepts_thread_without_loop :
    ¬ twoLoops.ownThread twoLoops.getInstance 0 ∧
    threw (Loop.waitEvent twoLoops twoLoops.getInstance 0 Loop.new) = false ∧
    threw (Loop.process twoLoops twoLoops.getInstance 0 Loop.inert 1 Loop.new) = false ∧
    threw (Loop.waitProcess twoLoops twoLoops.getInstance 0 Loop.inert 1 Loop.new) = false := by
  decide

/-! ## workSync -/

set_option maxRecDepth 100000 in
/-- C6. Enqueue path: with 127 closures pending at priority 0 on a fresh Loop
(address 20), `workSync(w, 0)` called from thread 0 queues `w` (200) and the
releasing closure (201); the Loop thread then invokes 201 first, so the caller
is released when `w` has not run.  Inline path: with 129 closures pending at
priority 0, `workSync(w, 0)` called on the Loop thread returns after `w` ran,
but closure 0, enqueued before the call, was never invoked. -/
theorem workSync_overflow_breaks_order :
    Loop.workSync twoLoops 20 0 Loop.inert 0 (burst 127) 200 HighPriority 201
      = Loop.SyncResult.waiting
          (Loop.workHelper (Loop.workHelper (burst 127) (some 200) 0) (some 201) 0) ∧
    (Loop.runPass Loop.inert 300
        (Loop.workHelper (Loop.workHelper (burst 127) (some 200) 0) (some 201) 0)).map
      (fun r => (r.1.head?, Loop.invokedAtRelease 201 r.1)) = some (some 201, [201]) ∧
    (Loop.workSync twoLoops 20 2 Loop.inert 300 (burst 129) 200 HighPriority 201).invoked.map
      (fun tr => (tr.head?, decide (0 ∈ tr), tr.getLast?)) = some (some 128, false, some 200) := by
  decide

/-! ## The range check of connect -/

/-- Both overloads throw exactly when the signal lies below the sender or
above `sender + sizeof(SenderObject)`. -/
theorem connect_throws_iff (sender sizeofSender signal : Nat) :
    (threw (connect sender sizeofSender signal) = true ↔
      (signal < sender ∨ signal > (sender + sizeofSender) % 2 ^ 64)) ∧
    (threw (connectReceiver sender sizeofSender signal) = true ↔
      (signal < sender ∨ signal > (sender + sizeofSender) % 2 ^ 64)) := by
  unfold connect connectReceiver
  constructor <;> split <;> simp_all [threw]

/-- C7. For a sender of 64 bytes at address 4096 and a signal at address 4160,
the first byte past the sender, so outside the range from 4096 up to but not
including 4160, neither overload throws. -/
theorem connect_accepts_one_past_the_end :
    ¬ (4096 ≤ 4160 ∧ 4160 < 4096 + 64) ∧
    threw (connect 4096 64 4160) = false ∧
    threw (connectReceiver 4096 64 4160) = false := by
  decide

/-! ## Signal dispatch -/

theorem disconnectFun_objAlive (conn : Nat → Connect) (c : Nat) (w : World) :
    (disconnectFun conn c w).objAlive = w.objAlive := by
  unfold disconnectFun
  split
  · rfl
  · dsimp only
    split <;> split <;> (try split) <;> rfl

theorem foldl_disconnectFun_objAlive (conn : Nat → Connect) (cs : List Nat) (w : World) :
    (cs.foldl (fun v c => disconnectFun conn c v) w).objAlive = w.objAlive := by
  induction cs generalizing w with
  | nil => rfl
  | cons c cs ih => rw [List.foldl_cons, ih, disconnectFun_objAlive]

theorem destructor_objAlive (conn : Nat → Connect) (o : Nat) (w : World) :
    (Object.destructor conn o w).objAlive = Function.update w.objAlive o false := by
  unfold Object.destructor
  simp only [foldl_disconnectFun_objAlive]

theorem deliver_conn {A : Type} (conn : Nat → Connect) (eff : Nat → A → World → World)
    (sharedAlive : Nat) (args : A) (item slot rl : Nat) (w : World) :
    ∀ e ∈ (deliver conn eff sharedAlive args item slot rl w).events,
      e.conn? = some item ∧ ∀ loop sync g c s a, e = Event.post loop sync g c s a →
        g = (conn item).receiver := by
  intro e he
  unfold deliver at he
  split at he
  · simp only [List.mem_singleton] at he
    subst he
    exact ⟨rfl, fun _ _ _ _ _ _ h => by cases h⟩
  · split at he <;>
    · simp only [List.mem_singleton] at he
      subst he
      exact ⟨rfl, fun _ _ _ _ _ _ h => by cases h; rfl⟩

theorem dispatchStep_conn {A : Type} (conn : Nat → Connect) (eff : Nat → A → World → World)
    (sharedAlive : Nat) (args : A) (item : Nat) (w : World) :
    ∀ e ∈ (dispatchStep conn eff sharedAlive args item w).events,
      e.conn? = some item ∧ ∀ loop sync g c s a, e = Event.post loop sync g c s a →
        g = (conn item).receiver := by
  intro e he
  unfold dispatchStep at he
  split at he
  · simp at he
  · split at he
    · simp at he
    · split at he
      · split at he
        · simp at he
        · exact deliver_conn conn eff sharedAlive args item _ _ w e he
      · exact deliver_conn conn eff sharedAlive args item _ _ w e he

theorem dispatchStep_dead_receiver {A : Type} (conn : Nat → Connect)
    (eff : Nat → A → World → World) (sharedAlive : Nat) (args : A) (c r : Nat) (w : World)
    (hc : (conn c).receiver = some r) (hdead : w.objAlive r = false) :
    (dispatchStep conn eff sharedAlive args c w).events = [] ∧
    (dispatchStep conn eff sharedAlive args c w).world = w ∧
    (dispatchStep conn eff sharedAlive args c w).stop = false := by
  unfold dispatchStep
  split
  · exact ⟨rfl, rfl, rfl⟩
  · split
    · exact ⟨rfl, rfl, rfl⟩
    · simp [hc, hdead]

theorem dispatchStep_keeps_dead {A : Type} (conn : Nat → Connect)
    (eff : Nat → A → World → World) (sharedAlive : Nat) (args : A) (r : Nat)
    (hmono : ∀ slot v, v.objAlive r = false → (eff slot args v).objAlive r = false)
    (item : Nat) (w : World) (hdead : w.objAlive r = false) :
    (dispatchStep conn eff sharedAlive args item w).world.objAlive r = false := by
  have hdel : ∀ slot rl, (deliver conn eff sharedAlive args item slot rl w).world.objAlive r
      = false := by
    intro slot rl
    unfold deliver
    split
    · exact hmono slot w hdead
    · split
      · exact hdead
      · dsimp only
        unfold runPosted
        split
        · split
          · exact hdead
          · exact hmono slot w hdead
        · exact hmono slot w hdead
  unfold dispatchStep
  split
  · exact hdead
  · split
    · exact hdead
    · split
      · split
        · exact hdead
        · exact hdel _ _
      · exact hdel _ _

theorem dispatchLoop_dead_receiver {A : Type} (conn : Nat → Connect)
    (eff : Nat → A → World → World) (sharedAlive : Nat) (args : A) (c r : Nat)
    (hc : (conn c).receiver = some r)
    (hmono : ∀ slot v, v.objAlive r = false → (eff slot args v).objAlive r = false)
    (snapshot : List Nat) (w : World) (hdead : w.objAlive r = false) :
    ∀ e ∈ (dispatchLoop conn eff sharedAlive args snapshot w).events, e.conn? ≠ some c := by
  induction snapshot generalizing w with
  | nil => simp [dispatchLoop]
  | cons item rest ih =>
    have hstep : ∀ e ∈ (dispatchStep conn eff sharedAlive args item w).events,
        e.conn? ≠ some c := by
      intro e he
      by_cases hi : item = c
      · subst hi
        rw [(dispatchStep_dead_receiver conn eff sharedAlive args item r w hc hdead).1] at he
        simp at he
      · rw [(dispatchStep_conn conn eff sharedAlive args item w e he).1]
        intro h
        exact hi (Option.some.inj h)
    intro e he
    unfold dispatchLoop at he
    dsimp only at he
    split at he
    · exact hstep e he
    · dsimp only at he
      rcases List.mem_append.mp he with h | h
      · exact hstep e h
      · exact ih _ (dispatchStep_keeps_dead conn eff sharedAlive args r hmono item w hdead) e h

/-- Connection `c` has receiver object `r`, which holds the alive handle of its
constructor.  Once the destructor of `r` has run, that handle reads false.
From then on (slots never set a handle back to alive) no emission invokes or
posts the slot of `c`: the pass of
`dispatchHelper` that examines `c` emits nothing and leaves the graph as it
is, and so does the whole loop over any snapshot; a closure that an earlier
pass posted for `c` carries the guard on the handle of `r`, and when it is
executed after the destructor it returns without invoking the slot.  The Loop
of `r` plays no part. -/
theorem destroyed_receiver_slot_never_runs {A : Type} (conn : Nat → Connect)
    (eff : Nat → A → World → World) (sharedAlive : Nat) (args : A) (c r : Nat)
    (hc : (conn c).receiver = some r) :
    (∀ w, (Object.destructor conn r w).objAlive r = false) ∧
    (∀ w, w.objAlive r = false →
      (dispatchStep conn eff sharedAlive args c w).events = [] ∧
      (dispatchStep conn eff sharedAlive args c w).world = w) ∧
    ((∀ slot v, v.objAlive r = false → (eff slot args v).objAlive r = false) →
      ∀ snapshot w, w.objAlive r = false →
        ∀ e ∈ (dispatchLoop conn eff sharedAlive args snapshot w).events, e.conn? ≠ some c) ∧
    (∀ w loop sync g slot a,
      Event.post loop sync g c slot a ∈ (dispatchStep conn eff sharedAlive args c w).events →
        g = some r) ∧
    (∀ w slot, w.objAlive r = false → runPosted eff (some r) c slot args w = ([], w)) := by
  refine ⟨?_, ?_, ?_, ?_, ?_⟩
  · intro w
    rw [destructor_objAlive]
    simp
  · intro w hdead
    exact ⟨(dispatchStep_dead_receiver conn eff sharedAlive args c r w hc hdead).1,
      (dispatchStep_dead_receiver conn eff sharedAlive args c r w hc hdead).2.1⟩
  · intro hmono snapshot w hdead
    exact dispatchLoop_dead_receiver conn eff sharedAlive args c r hc hmono snapshot w hdead
  · intro w loop sync g slot a he
    rw [← hc]
    exact (dispatchStep_conn conn eff sharedAlive args c w _ he).2 loop sync g c slot a rfl
  · intro w slot hdead
    simp [runPosted, hdead]

theorem destroyed_receiver_slot_never_runs_witness :
    (receiverConnect 1).receiver = some 6 ∧
    (dispatchStep receiverConnect quietSlots 5 7 1
      (Object.destructor receiverConnect 6 twoSlots)).events = [] :=
  ⟨rfl,
    ((destroyed_receiver_slot_never_runs receiverConnect quietSlots 5 7 1 6 rfl).2.1
      (Object.destructor receiverConnect 6 twoSlots)
      ((destroyed_receiver_slot_never_runs receiverConnect quietSlots 5 7 1 6 rfl).1 twoSlots)).1⟩

/-- For an object that holds the alive handle of its constructor,
`Object.destructorOf` is `Object.destructor`. -/
theorem destructorOf_constructed (conn : Nat → Connect) (o : Nat) (w : World) :
    Object.destructorOf conn o o w = Object.destructor conn o w := rfl

/-- C9, the claim as stated fails.  Connection 1 goes from the signal of object
5, on Loop 1, to receiver 6, on Loop 2.  The receiver has been assigned to with
`Object::operator=` since the connection was made: it holds the new handle 8,
and the `Connect` record holds handle 6.  An emission posts the slot to Loop 2
behind the guard on handle 6.  Then the destructor of the receiver runs to its
end: it writes the flag of handle 8 and marks the record dead; the flag of
handle 6 stays true.  The posted closure is executed after that: its guard
reads handle 6 and the slot is invoked, on a receiver that is destroyed.  An
emission that examines the connection after the destructor delivers nothing,
because the record is dead.  For a receiver that was never assigned to, the
same closure returns without invoking the slot.  In general the destructor of
an object writes the flag of the handle that the object holds and leaves the
flag of every other handle as it is. -/
theorem posted_slot_runs_after_assigned_receiver_is_destroyed :
    (∀ (conn : Nat → Connect) (o handle g : Nat) (w : World), g ≠ handle →
      (Object.destructorOf conn o handle w).objAlive g = w.objAlive g) ∧
    Object.getSharedAliveMutex assignedReceiver 6 = 8 ∧
    Connect.receiverAlive (receiverConnect 1) = some 6 ∧
    (dispatch receiverConnect quietSlots 1 7 assignedReceiver.world).events =
      [Event.post 2 false (some 6) 1 11 7] ∧
    (Objects.destructor receiverConnect 6 assignedReceiver).world.objAlive 8 = false ∧
    (Objects.destructor receiverConnect 6 assignedReceiver).world.objAlive 6 = true ∧
    (Objects.destructor receiverConnect 6 assignedReceiver).world.connAlive 1 = false ∧
    (runPosted quietSlots (some 6) 1 11 7
      (Objects.destructor receiverConnect 6 assignedReceiver).world).1 =
        [Event.invoke 1 11 7] ∧
    (dispatch receiverConnect quietSlots 1 7
      (Objects.destructor receiverConnect 6 assignedReceiver).world).events = [] ∧
    (runPosted quietSlots (some 6) 1 11 7
      (Objects.destructor receiverConnect 6 (Objects.constructed remoteReceiver 8)).world).1 =
        [] := by
  refine ⟨?_, by decide, by decide, by decide, by decide, by decide, by decide, by decide,
    by decide, by decide⟩
  intro conn o handle g w hg
  unfold Object.destructorOf
  simp only [foldl_disconnectFun_objAlive]
  exact Function.update_noteq hg false w.objAlive

/-! ## The container destroyed by a slot -/

theorem deliver_stop {A : Type} (conn : Nat → Connect) (eff : Nat → A → World → World)
    (sharedAlive : Nat) (args : A) (item slot rl : Nat) (w : World) :
    (deliver conn eff sharedAlive args item slot rl w).stop =
      !(deliver conn eff sharedAlive args item slot rl w).world.objAlive sharedAlive := by
  unfold deliver
  split
  · rfl
  · split <;> rfl

/-- A pass that delivered something leaves through the `return` exactly when
the container is dead afterwards. -/
theorem dispatchStep_stop {A : Type} (conn : Nat → Connect) (eff : Nat → A → World → World)
    (sharedAlive : Nat) (args : A) (item : Nat) (w : World)
    (hev : (dispatchStep conn eff sharedAlive args item w).events ≠ []) :
    (dispatchStep conn eff sharedAlive args item w).stop =
      !(dispatchStep conn eff sharedAlive args item w).world.objAlive sharedAlive := by
  unfold dispatchStep at hev ⊢
  split
  · rename_i h; simp [h] at hev
  · rename_i slot h
    simp only [h] at hev
    split
    · rename_i h2; simp [h2] at hev
    · rename_i h2
      simp only [h2] at hev
      split
      · rename_i r h3
        simp only [h3] at hev
        split
        · rename_i h4; simp [h4] at hev
        · exact deliver_stop conn eff sharedAlive args item slot _ w
      · exact deliver_stop conn eff sharedAlive args item slot _ w

theorem dispatchLoop_cons {A : Type} (conn : Nat → Connect) (eff : Nat → A → World → World)
    (sharedAlive : Nat) (args : A) (item : Nat) (rest : List Nat) (w : World) :
    dispatchLoop conn eff sharedAlive args (item :: rest) w =
      if (dispatchStep conn eff sharedAlive args item w).stop = true then
        dispatchStep conn eff sharedAlive args item w
      else
        { events := (dispatchStep conn eff sharedAlive args item w).events ++
            (dispatchLoop conn eff sharedAlive args rest
              (dispatchStep conn eff sharedAlive args item w).world).events
          world := (dispatchLoop conn eff sharedAlive args rest
            (dispatchStep conn eff sharedAlive args item w).world).world
          stop := (dispatchLoop conn eff sharedAlive args rest
            (dispatchStep conn eff sharedAlive args item w).world).stop } := by
  rw [dispatchLoop]

theorem dispatchLoop_append {A : Type} (conn : Nat → Connect) (eff : Nat → A → World → World)
    (sharedAlive : Nat) (args : A) (pre rest : List Nat) (w : World)
    (hpre : (dispatchLoop conn eff sharedAlive args pre w).stop = false) :
    (dispatchLoop conn eff sharedAlive args (pre ++ rest) w).events =
      (dispatchLoop conn eff sharedAlive args pre w).events ++
        (dispatchLoop conn eff sharedAlive args rest
          (dispatchLoop conn eff sharedAlive args pre w).world).events ∧
    (dispatchLoop conn eff sharedAlive args (pre ++ rest) w).world =
      (dispatchLoop conn eff sharedAlive args rest
        (dispatchLoop conn eff sharedAlive args pre w).world).world ∧
    (dispatchLoop conn eff sharedAlive args (pre ++ rest) w).stop =
      (dispatchLoop conn eff sharedAlive args rest
        (dispatchLoop conn eff sharedAlive args pre w).world).stop := by
  induction pre generalizing w with
  | nil => simp [dispatchLoop]
  | cons item pre ih =>
    simp only [List.cons_append, dispatchLoop_cons] at hpre ⊢
    by_cases hs : (dispatchStep conn eff sharedAlive args item w).stop = true
    · simp only [hs, if_true] at hpre
      cases hpre
    · have hs1 : (dispatchStep conn eff sharedAlive args item w).stop = false := by
        simpa using hs
      simp only [hs1, Bool.false_eq_true, if_false] at hpre ⊢
      obtain ⟨h1, h2, h3⟩ := ih (dispatchStep conn eff sharedAlive args item w).world hpre
      exact ⟨by rw [h1, List.append_assoc], h2, h3⟩

/-- In an emission over the snapshot `pre ++ item :: rest`, the passes for
`pre` did not end the emission, the pass for `item` invokes its slot inline and
that slot leaves the handle `sharedAlive`, which the emission took from
`m_containerAlive`, with its flag false.  Then the emission
consists of the events of `pre` followed by this one invocation: nothing of
`rest` is invoked or posted, the emission has left through the `return`, and
the graph is exactly as the slot left it. -/
theorem emission_stops_when_slot_destroys_container {A : Type} (conn : Nat → Connect)
    (eff : Nat → A → World → World) (sharedAlive : Nat) (args : A)
    (pre : List Nat) (item slot : Nat) (rest : List Nat) (w : World)
    (hpre : (dispatchLoop conn eff sharedAlive args pre w).stop = false)
    (hinline : (dispatchStep conn eff sharedAlive args item
        (dispatchLoop conn eff sharedAlive args pre w).world).events
          = [Event.invoke item slot args])
    (hdead : (dispatchStep conn eff sharedAlive args item
        (dispatchLoop conn eff sharedAlive args pre w).world).world.objAlive sharedAlive = false) :
    (dispatchLoop conn eff sharedAlive args (pre ++ item :: rest) w).events =
      (dispatchLoop conn eff sharedAlive args pre w).events ++ [Event.invoke item slot args] ∧
    (dispatchLoop conn eff sharedAlive args (pre ++ item :: rest) w).stop = true ∧
    (dispatchLoop conn eff sharedAlive args (pre ++ item :: rest) w).world =
      (dispatchStep conn eff sharedAlive args item
        (dispatchLoop conn eff sharedAlive args pre w).world).world := by
  obtain ⟨h1, h2, h3⟩ := dispatchLoop_append conn eff sharedAlive args pre (item :: rest) w hpre
  have hstop : (dispatchStep conn eff sharedAlive args item
      (dispatchLoop conn eff sharedAlive args pre w).world).stop = true := by
    rw [dispatchStep_stop conn eff sharedAlive args item _ (by rw [hinline]; simp), hdead]
    rfl
  have hloop : dispatchLoop conn eff sharedAlive args (item :: rest)
      (dispatchLoop conn eff sharedAlive args pre w).world =
      dispatchStep conn eff sharedAlive args item
        (dispatchLoop conn eff sharedAlive args pre w).world := by
    rw [dispatchLoop_cons]
    simp only [hstop, if_true]
  rw [h1, h2, h3, hloop, hinline, hstop]
  exact ⟨rfl, rfl, rfl⟩

theorem emission_stops_when_slot_destroys_container_witness :
    (dispatchStep functorConnect slotDestroysContainer 5 7 1 twoSlots).events
      = [Event.invoke 1 11 7] ∧
    (dispatchLoop functorConnect slotDestroysContainer 5 7 [1, 2] twoSlots).events
      = [Event.invoke 1 11 7] ∧
    (dispatchLoop functorConnect slotDestroysContainer 5 7 [1, 2] twoSlots).stop = true :=
  ⟨by decide,
    (emission_stops_when_slot_destroys_container functorConnect slotDestroysContainer 5 7
      [] 1 11 [2] twoSlots rfl (by decide) (by decide)).1,
    (emission_stops_when_slot_destroys_container functorConnect slotDestroysContainer 5 7
      [] 1 11 [2] twoSlots rfl (by decide) (by decide)).2.1⟩

/-- C10, the claim as stated fails.  The signal of object 5 has the connections
1 (slot 11) and 2 (slot 12), both inline.  The container, object 5, has been
assigned to with `Object::operator=` since the signal was bound to it: it holds
the new handle 8, and `m_containerAlive` of the signal is still handle 5.  Slot
11 destroys the container.  The destructor writes the
flag of handle 8, so the test after the slot, which reads handle 5, does not
leave the loop: the emission goes on to the pass for connection 2, which finds
the entry of connection 2 in the map of the destroyed signal and then the dead
record, and the emission ends with the snapshot, not through the `return`.
For a container that was never assigned to, the same emission leaves through
the `return` after slot 11. -/
theorem emission_goes_on_after_assigned_container_is_destroyed :
    Object.getSharedAliveMutex assignedContainer 5 = 8 ∧
    assignedContainer.world.m_containerAlive = 5 ∧
    (dispatchStep functorConnect slotDestroysAssignedContainer 5 7 1
      assignedContainer.world).events = [Event.invoke 1 11 7] ∧
    (dispatchStep functorConnect slotDestroysAssignedContainer 5 7 1
      assignedContainer.world).world.objAlive 8 = false ∧
    (dispatchStep functorConnect slotDestroysAssignedContainer 5 7 1
      assignedContainer.world).world.objAlive 5 = true ∧
    (dispatchStep functorConnect slotDestroysAssignedContainer 5 7 1
      assignedContainer.world).stop = false ∧
    (dispatchStep functorConnect slotDestroysAssignedContainer 5 7 1
      assignedContainer.world).world.m_connectFunMap.lookup 2 = some 12 ∧
    (dispatchStep functorConnect slotDestroysAssignedContainer 5 7 1
      assignedContainer.world).world.connAlive 2 = false ∧
    (dispatch functorConnect slotDestroysAssignedContainer 1 7 assignedContainer.world).events =
      [Event.invoke 1 11 7] ∧
    (dispatch functorConnect slotDestroysAssignedContainer 1 7 assignedContainer.world).stop =
      false ∧
    (dispatch functorConnect slotDestroysContainer 1 7 twoSlots).stop = true := by
  refine ⟨by decide, by decide, by decide, by decide, by decide, by decide, by decide,
    by decide, by decide, by decide, by decide⟩

/-! ## Disconnecting -/

theorem disconnectFun_of_dead (conn : Nat → Connect) (c : Nat) (w : World)
    (h : w.connAlive c = false) : disconnectFun conn c w = w := by
  simp [disconnectFun, h]

theorem disconnectFun_connAlive (conn : Nat → Connect) (c : Nat) (w : World) :
    (disconnectFun conn c w).connAlive = Function.update w.connAlive c false := by
  unfold disconnectFun
  split
  · rename_i h
    funext d
    by_cases hd : d = c
    · subst hd; simpa using h
    · simp [Function.update_noteq hd]
  · dsimp only
    split <;> split <;> (try split) <;> rfl

theorem disconnectFun_keeps_dead (conn : Nat → Connect) (c d : Nat) (w : World)
    (h : w.connAlive d = false) : (disconnectFun conn c w).connAlive d = false := by
  rw [disconnectFun_connAlive]
  by_cases hd : d = c
  · subst hd; simp
  · rw [Function.update_noteq hd]; exact h

/-- C11. A `disconnectFun` (or `disconnect(handle)`) called on a connection
whose `alive` is already false returns the state it was given: `alive` stays
false, nothing is posted and no set changes.  Two consecutive disconnects of a
connection leave the state of one, and no disconnect turns the `alive` of any
connection from false to true. -/
theorem disconnect_dead_has_no_effect (conn : Nat → Connect) (c : Nat) (w : World) :
    (w.connAlive c = false → disconnectFun conn c w = w ∧ disconnect conn c w = w) ∧
    disconnectFun conn c (disconnectFun conn c w) = disconnectFun conn c w ∧
    disconnect conn c (disconnect conn c w) = disconnect conn c w ∧
    (∀ d, w.connAlive d = false → (disconnectFun conn c w).connAlive d = false) := by
  have hdead : (disconnectFun conn c w).connAlive c = false := by
    rw [disconnectFun_connAlive]; simp
  refine ⟨fun h => ⟨disconnectFun_of_dead conn c w h, disconnectFun_of_dead conn c w h⟩,
    disconnectFun_of_dead conn c _ hdead, disconnectFun_of_dead conn c _ hdead, ?_⟩
  intro d hd
  exact disconnectFun_keeps_dead conn c d w hd

theorem disconnect_dead_has_no_effect_witness :
    (disconnectFun functorConnect 2 twoSlots).connAlive 2 = false ∧
    (disconnectFun functorConnect 2 (disconnectFun functorConnect 2 twoSlots)).posted
      = (disconnectFun functorConnect 2 twoSlots).posted :=
  ⟨by decide,
    congrArg World.posted (disconnect_dead_has_no_effect functorConnect 2 twoSlots).2.1⟩

/-! ## Emission after a disconnect -/

theorem dispatchStep_dead_conn {A : Type} (conn : Nat → Connect)
    (eff : Nat → A → World → World) (sharedAlive : Nat) (args : A) (c : Nat) (w : World)
    (hdead : w.connAlive c = false) :
    (dispatchStep conn eff sharedAlive args c w).events = [] ∧
    (dispatchStep conn eff sharedAlive args c w).world = w ∧
    (dispatchStep conn eff sharedAlive args c w).stop = false := by
  unfold dispatchStep
  split
  · exact ⟨rfl, rfl, rfl⟩
  · simp [hdead]

theorem dispatchSyncStep_dead_conn {A : Type} (conn : Nat → Connect)
    (eff : Nat → A → World → World) (sharedAlive : Nat) (args : A) (c : Nat) (w : World)
    (hdead : w.connAlive c = false) :
    (dispatchSyncStep conn eff sharedAlive args c w).events = [] ∧
    (dispatchSyncStep conn eff sharedAlive args c w).world = w ∧
    (dispatchSyncStep conn eff sharedAlive args c w).stop = false := by
  unfold dispatchSyncStep
  split
  · exact ⟨rfl, rfl, rfl⟩
  · simp [hdead]

theorem deliverSync_conn {A : Type} (conn : Nat → Connect) (eff : Nat → A → World → World)
    (sharedAlive : Nat) (args : A) (item slot rl : Nat) (w : World) :
    ∀ e ∈ (deliverSync conn eff sharedAlive args item slot rl w).events, e.conn? = some item := by
  intro e he
  unfold deliverSync at he
  split at he
  · simp only [List.mem_singleton] at he
    subst he; rfl
  · split at he <;>
    · simp only [List.mem_singleton] at he
      subst he; rfl

theorem dispatchSyncStep_conn {A : Type} (conn : Nat → Connect) (eff : Nat → A → World → World)
    (sharedAlive : Nat) (args : A) (item : Nat) (w : World) :
    ∀ e ∈ (dispatchSyncStep conn eff sharedAlive args item w).events, e.conn? = some item := by
  intro e he
  unfold dispatchSyncStep at he
  split at he
  · simp at he
  · split at he
    · simp at he
    · split at he
      · split at he
        · simp at he
        · exact deliverSync_conn conn eff sharedAlive args item _ _ w e he
      · exact deliverSync_conn conn eff sharedAlive args item _ _ w e he

theorem dispatchStep_keeps_connDead {A : Type} (conn : Nat → Connect)
    (eff : Nat → A → World → World) (sharedAlive : Nat) (args : A) (c : Nat)
    (hmono : ∀ slot v, v.connAlive c = false → (eff slot args v).connAlive c = false)
    (item : Nat) (w : World) (hdead : w.connAlive c = false) :
    (dispatchStep conn eff sharedAlive args item w).world.connAlive c = false := by
  have hdel : ∀ slot rl, (deliver conn eff sharedAlive args item slot rl w).world.connAlive c
      = false := by
    intro slot rl
    unfold deliver
    split
    · exact hmono slot w hdead
    · split
      · exact hdead
      · dsimp only
        unfold runPosted
        split
        · split
          · exact hdead
          · exact hmono slot w hdead
        · exact hmono slot w hdead
  unfold dispatchStep
  split
  · exact hdead
  · split
    · exact hdead
    · split
      · split
        · exact hdead
        · exact hdel _ _
      · exact hdel _ _

theorem dispatchSyncStep_keeps_connDead {A : Type} (conn : Nat → Connect)
    (eff : Nat → A → World → World) (sharedAlive : Nat) (args : A) (c : Nat)
    (hmono : ∀ slot v, v.connAlive c = false → (eff slot args v).connAlive c = false)
    (item : Nat) (w : World) (hdead : w.connAlive c = false) :
    (dispatchSyncStep conn eff sharedAlive args item w).world.connAlive c = false := by
  have hdel : ∀ slot rl, (deliverSync conn eff sharedAlive args item slot rl w).world.connAlive c
      = false := by
    intro slot rl
    unfold deliverSync
    split
    · exact hmono slot w hdead
    · unfold runPostedSync
      split
      · exact hdead
      · rename_i r hr
        split at hr
        · cases hr
        · split at hr
          · cases hr; exact hdead
          · cases hr; exact hmono slot w hdead
  unfold dispatchSyncStep
  split
  · exact hdead
  · split
    · exact hdead
    · split
      · split
        · exact hdead
        · exact hdel _ _
      · exact hdel _ _

theorem dispatchLoop_dead_conn {A : Type} (conn : Nat → Connect)
    (eff : Nat → A → World → World) (sharedAlive : Nat) (args : A) (c : Nat)
    (hmono : ∀ slot v, v.connAlive c = false → (eff slot args v).connAlive c = false)
    (snapshot : List Nat) (w : World) (hdead : w.connAlive c = false) :
    ∀ e ∈ (dispatchLoop conn eff sharedAlive args snapshot w).events, e.conn? ≠ some c := by
  induction snapshot generalizing w with
  | nil => simp [dispatchLoop]
  | cons item rest ih =>
    have hstep : ∀ e ∈ (dispatchStep conn eff sharedAlive args item w).events,
        e.conn? ≠ some c := by
      intro e he
      by_cases hi : item = c
      · subst hi
        rw [(dispatchStep_dead_conn conn eff sharedAlive args item w hdead).1] at he
        simp at he
      · rw [(dispatchStep_conn conn eff sharedAlive args item w e he).1]
        intro h
        exact hi (Option.some.inj h)
    intro e he
    rw [dispatchLoop_cons] at he
    split at he
    · exact hstep e he
    · dsimp only at he
      rcases List.mem_append.mp he with h | h
      · exact hstep e h
      · exact ih _ (dispatchStep_keeps_connDead conn eff sharedAlive args c hmono item w hdead) e h

theorem dispatchSyncLoop_cons {A : Type} (conn : Nat → Connect) (eff : Nat → A → World → World)
    (sharedAlive : Nat) (args : A) (item : Nat) (rest : List Nat) (w : World) :
    dispatchSyncLoop conn eff sharedAlive args (item :: rest) w =
      if (dispatchSyncStep conn eff sharedAlive args item w).stop = true then
        dispatchSyncStep conn eff sharedAlive args item w
      else
        { events := (dispatchSyncStep conn eff sharedAlive args item w).events ++
            (dispatchSyncLoop conn eff sharedAlive args rest
              (dispatchSyncStep conn eff sharedAlive args item w).world).events
          world := (dispatchSyncLoop conn eff sharedAlive args rest
            (dispatchSyncStep conn eff sharedAlive args item w).world).world
          stop := (dispatchSyncLoop conn eff sharedAlive args rest
            (dispatchSyncStep conn eff sharedAlive args item w).world).stop
          nullDeref := (dispatchSyncLoop conn eff sharedAlive args rest
            (dispatchSyncStep conn eff sharedAlive args item w).world).nullDeref } := by
  rw [dispatchSyncLoop]

theorem dispatchSyncLoop_dead_conn {A : Type} (conn : Nat → Connect)
    (eff : Nat → A → World → World) (sharedAlive : Nat) (args : A) (c : Nat)
    (hmono : ∀ slot v, v.connAlive c = false → (eff slot args v).connAlive c = false)
    (snapshot : List Nat) (w : World) (hdead : w.connAlive c = false) :
    ∀ e ∈ (dispatchSyncLoop conn eff sharedAlive args snapshot w).events, e.conn? ≠ some c := by
  induction snapshot generalizing w with
  | nil => simp [dispatchSyncLoop]
  | cons item rest ih =>
    have hstep : ∀ e ∈ (dispatchSyncStep conn eff sharedAlive args item w).events,
        e.conn? ≠ some c := by
      intro e he
      by_cases hi : item = c
      · subst hi
        rw [(dispatchSyncStep_dead_conn conn eff sharedAlive args item w hdead).1] at he
        simp at he
      · rw [dispatchSyncStep_conn conn eff sharedAlive args item w e he]
        intro h
        exact hi (Option.some.inj h)
    intro e he
    rw [dispatchSyncLoop_cons] at he
    split at he
    · exact hstep e he
    · dsimp only at he
      rcases List.mem_append.mp he with h | h
      · exact hstep e h
      · exact ih _
          (dispatchSyncStep_keeps_connDead conn eff sharedAlive args c hmono item w hdead) e h

/-- C12. Once `disconnect(c)` has returned, `alive` of `c` is false.  From a
state in which it is false (slots never set it back), every emission of the
signal, with `dispatch` or with `dispatchSync` and from any thread, contains
neither an invocation nor a post of the slot of `c`; the pass that examines
`c` emits nothing and leaves the graph as it is.  Nothing is assumed about the
map of the signal: `c` may still be in it. -/
theorem disconnected_connection_not_delivered {A : Type} (conn : Nat → Connect)
    (eff : Nat → A → World → World) (args : A) (c : Nat)
    (hmono : ∀ slot v, v.connAlive c = false → (eff slot args v).connAlive c = false) :
    (∀ w, (disconnect conn c w).connAlive c = false) ∧
    (∀ w, (disconnect conn c w).m_connectFunMap = w.m_connectFunMap) ∧
    (∀ currentLoop w, w.connAlive c = false →
      ∀ e ∈ (dispatch conn eff currentLoop args w).events, e.conn? ≠ some c) ∧
    (∀ currentLoop w, w.connAlive c = false →
      ∀ e ∈ (dispatchSync conn eff currentLoop args w).events, e.conn? ≠ some c) ∧
    (∀ sharedAlive w, w.connAlive c = false →
      (dispatchStep conn eff sharedAlive args c w).events = [] ∧
      (dispatchStep conn eff sharedAlive args c w).world = w ∧
      (dispatchSyncStep conn eff sharedAlive args c w).events = [] ∧
      (dispatchSyncStep conn eff sharedAlive args c w).world = w) := by
  refine ⟨?_, ?_, ?_, ?_, ?_⟩
  · intro w
    unfold disconnect
    rw [disconnectFun_connAlive]
    simp
  · intro w
    unfold disconnect disconnectFun
    split
    · rfl
    · dsimp only
      split <;> split <;> (try split) <;> rfl
  · intro cur w hdead e he
    unfold dispatch at he
    split at he
    · simp at he
    · split at he
      · exact dispatchLoop_dead_conn conn eff _ args c hmono _ w hdead e he
      · simp only [List.mem_singleton] at he
        subst he
        intro h; cases h
  · intro cur w hdead e he
    unfold dispatchSync at he
    split at he
    · simp at he
    · split at he
      · exact dispatchSyncLoop_dead_conn conn eff _ args c hmono _ w hdead e he
      · split at he
        · simp at he
        · exact dispatchSyncLoop_dead_conn conn eff _ args c hmono _ w hdead e he
  · intro sa w hdead
    exact ⟨(dispatchStep_dead_conn conn eff sa args c w hdead).1,
      (dispatchStep_dead_conn conn eff sa args c w hdead).2.1,
      (dispatchSyncStep_dead_conn conn eff sa args c w hdead).1,
      (dispatchSyncStep_dead_conn conn eff sa args c w hdead).2.1⟩

theorem disconnected_connection_not_delivered_witness :
    (disconnect functorConnect 2 twoSlots).m_connectFunMap = [(1, 11), (2, 12)] ∧
    ∀ e ∈ (dispatch functorConnect quietSlots 1 7 (disconnect functorConnect 2 twoSlots)).events,
      e.conn? ≠ some 2 :=
  ⟨by decide,
    (disconnected_connection_not_delivered functorConnect quietSlots 7 2
      (fun _ _ h => h)).2.2.1 1 (disconnect functorConnect 2 twoSlots) (by decide)⟩

/-! ## The destructor of an Object -/

/-- A loop that calls `disconnectFun` on the connections of `cs` that satisfy
`P`: afterwards exactly those are dead that were dead before or were called. -/
theorem foldl_cond_disconnectFun_connAlive (conn : Nat → Connect) (P : Nat → Prop)
    [DecidablePred P] (cs : List Nat) (w : World) (d : Nat) :
    (cs.foldl (fun v c => if P c then disconnectFun conn c v else v) w).connAlive d =
      if d ∈ cs ∧ P d then false else w.connAlive d := by
  induction cs generalizing w with
  | nil => simp
  | cons c cs ih =>
    rw [List.foldl_cons, ih]
    by_cases hP : P c
    · simp only [hP, if_true, disconnectFun_connAlive, List.mem_cons]
      by_cases hdc : d = c
      · subst hdc
        simp [hP]
      · simp [hdc, Function.update_noteq hdc]
    · simp only [hP, if_false, List.mem_cons]
      by_cases hdc : d = c
      · subst hdc
        simp [hP]
      · simp [hdc]

/-- What `Object::disconnect(receiverId)` leaves alive. -/
theorem Object_disconnect_connAlive (conn : Nat → Connect) (o receiverId : Nat) (w : World)
    (d : Nat) :
    (Object.disconnect conn o receiverId w).connAlive d =
      if d ∈ w.m_asSenderConnectSet o ∧ (conn d).receiverId ≠ receiverId then false
      else w.connAlive d := by
  unfold Object.disconnect
  exact foldl_cond_disconnectFun_connAlive conn (fun c => (conn c).receiverId ≠ receiverId) _ w d

/-- What `Object::disconnect(signal)` leaves alive. -/
theorem Object_disconnectSignal_connAlive (conn : Nat → Connect) (o signal : Nat) (w : World)
    (d : Nat) :
    (Object.disconnectSignal conn o signal w).connAlive d =
      if d ∈ w.m_asSenderConnectSet o ∧ (signal = 0 ∨ (conn d).signal ≠ signal) then false
      else w.connAlive d := by
  unfold Object.disconnectSignal
  by_cases hs : signal = 0
  · simp only [hs, ne_eq, not_true_eq_false, if_false, true_or, and_true]
    have := foldl_cond_disconnectFun_connAlive conn (fun _ => True) (w.m_asSenderConnectSet o) w d
    simpa using this
  · simp only [ne_eq, hs, not_false_eq_true, if_true, false_or]
    exact foldl_cond_disconnectFun_connAlive conn (fun c => ¬ (conn c).signal = signal) _ w d

/-- C14. Object 5 is the sender of connection 1, whose receiver is object 6, and
of connection 2, whose receiver is object 7, both alive.  After
`disconnect(sender 5, receiver 6)` on the Loop of the sender, connection 1 (to
receiver 6) is still alive and connection 2 (to receiver 7) is dead. -/
theorem disconnect_by_receiver_cuts_the_other_receivers :
    twoReceivers.objLoop 5 = 1 ∧
    (toReceivers 1).receiverId = 6 ∧ (toReceivers 2).receiverId = 7 ∧
    twoReceivers.connAlive 1 = true ∧ twoReceivers.connAlive 2 = true ∧
    (disconnectSenderReceiver toReceivers 1 5 6 twoReceivers).connAlive 1 = true ∧
    (disconnectSenderReceiver toReceivers 1 5 6 twoReceivers).connAlive 2 = false := by
  decide

/-- C15. Object 5 is the sender of connection 1, on its signal 100, and of
connection 2, on its signal 200, both alive.  After
`disconnectAsSender(sender 5, signal 100)` on the Loop of the sender,
connection 1 (on signal 100) is still alive and connection 2 (on signal 200)
is dead. -/
theorem disconnectAsSender_cuts_the_other_signals :
    twoReceivers.objLoop 5 = 1 ∧
    (toReceivers 1).signal = 100 ∧ (toReceivers 2).signal = 200 ∧
    twoReceivers.connAlive 1 = true ∧ twoReceivers.connAlive 2 = true ∧
    (disconnectAsSender toReceivers 1 5 100 twoReceivers).connAlive 1 = true ∧
    (disconnectAsSender toReceivers 1 5 100 twoReceivers).connAlive 2 = false := by
  decide

/-- With a null signal `disconnectAsSender`, on the Loop of the sender,
disconnects every connection of the as-sender set. -/
theorem disconnectAsSender_null_cuts_all (conn : Nat → Connect) (sender : Nat) (w : World)
    (c : Nat) (hc : c ∈ w.m_asSenderConnectSet sender) :
    (disconnectAsSender conn (w.objLoop sender) sender 0 w).connAlive c = false := by
  unfold disconnectAsSender
  simp only [if_true]
  rw [Object_disconnectSignal_connAlive]
  simp [hc]

/-! ## dispatchSync against dispatch -/

theorem dispatchSyncStep_eq {A : Type} (conn : Nat → Connect) (eff : Nat → A → World → World)
    (sharedAlive : Nat) (args : A) (item : Nat) (w : World)
    (hrecv : (conn item).receiver ≠ none) :
    dispatchSyncStep conn eff sharedAlive args item w =
      { events := (dispatchStep (fun c => { conn c with mode := Mode.Sync }) eff sharedAlive args
          item w).events
        world := (dispatchStep (fun c => { conn c with mode := Mode.Sync }) eff sharedAlive args
          item w).world
        stop := (dispatchStep (fun c => { conn c with mode := Mode.Sync }) eff sharedAlive args
          item w).stop
        nullDeref := false } := by
  obtain ⟨r, hr⟩ : ∃ r, (conn item).receiver = some r := by
    cases h : (conn item).receiver with
    | none => exact absurd h hrecv
    | some r => exact ⟨r, rfl⟩
  unfold dispatchSyncStep dispatchStep
  cases hl : w.m_connectFunMap.lookup item with
  | none => rfl
  | some slot =>
    by_cases ha : w.connAlive item = true
    · by_cases hra : w.objAlive r = true
      · by_cases hloop : w.objLoop r = w.m_loop
        · simp [ha, hr, hra, deliverSync, deliver, hloop]
        · simp [ha, hr, hra, deliverSync, deliver, hloop, runPostedSync, runPosted,
            Connect.receiverAlive]
      · simp [ha, hr, hra]
    · simp [ha]

/-- For connections that all have a receiver, `dispatchSyncHelper` does what
`dispatchHelper` does with the mode of every connection set to `Sync`. -/
theorem dispatchSyncLoop_eq {A : Type} (conn : Nat → Connect) (eff : Nat → A → World → World)
    (sharedAlive : Nat) (args : A) (snapshot : List Nat) (w : World)
    (hrecv : ∀ c ∈ snapshot, (conn c).receiver ≠ none) :
    dispatchSyncLoop conn eff sharedAlive args snapshot w =
      { events := (dispatchLoop (fun c => { conn c with mode := Mode.Sync }) eff sharedAlive args
          snapshot w).events
        world := (dispatchLoop (fun c => { conn c with mode := Mode.Sync }) eff sharedAlive args
          snapshot w).world
        stop := (dispatchLoop (fun c => { conn c with mode := Mode.Sync }) eff sharedAlive args
          snapshot w).stop
        nullDeref := false } := by
  induction snapshot generalizing w with
  | nil => rfl
  | cons item rest ih =>
    rw [dispatchSyncLoop_cons, dispatchLoop_cons,
      dispatchSyncStep_eq conn eff sharedAlive args item w (hrecv item (List.mem_cons_self _ _))]
    dsimp only
    split
    · rfl
    · rw [ih _ (fun c hc => hrecv c (List.mem_cons_of_mem _ hc))]

/-- C16. Connection 1 was made with `connect(sender, &signal, functor)` on a
thread of Loop 2, the signal lives on Loop 1.  `dispatch(7)` posts to Loop 2 a
closure without guard, whose run invokes slot 11 with 7.  `dispatchSync(7)`
hands Loop 2 a closure that tests the receiver handle, which is null for this
connection: the closure ends in the null dereference and slot 11 is not
invoked. -/
theorem dispatchSync_dereferences_null_receiver_handle :
    (remoteFunctorConnect 1).receiver = none ∧
    (remoteFunctorConnect 1).receiverLoop ≠ oneSlot.m_loop ∧
    (dispatch remoteFunctorConnect quietSlots 1 7 oneSlot).events
      = [Event.post 2 false none 1 11 7] ∧
    (runPosted quietSlots none 1 11 7 oneSlot).1 = [Event.invoke 1 11 7] ∧
    (dispatchSync remoteFunctorConnect quietSlots 1 7 oneSlot).events
      = [Event.post 2 true none 1 11 7] ∧
    (runPostedSync quietSlots (remoteFunctorConnect 1).receiverAlive 1 11 7 oneSlot).isNone
      = true ∧
    (dispatchSync remoteFunctorConnect quietSlots 1 7 oneSlot).nullDeref = true := by
  decide

/-! ## A signal connected to a signal -/

namespace Coroutine

theorem process_of_nothing_posted (co : Coroutine) (h : co.posted = []) : process co = co := by
  unfold process
  rw [h]
  rfl

theorem process_requeue (co : Coroutine) (y : Nat) (h : co.posted = [CoWork.requeue y]) :
    process co =
      { co with posted := []
                m_runningContextMap :=
                  runningEmplace co.m_runningContextMap (co.contexts y).pri y } := by
  unfold process
  rw [h]
  simp [drain, h, runWork]

theorem iterate_cons (body : Nat → List Instr) (co : Coroutine) (p : Priority) (c : Nat)
    (r : List (Priority × Nat)) (h : co.m_runningContextMap = (p, c) :: r) :
    iterate body co = some (runContext body p c (process co)) := by
  unfold iterate
  rw [h]

theorem runFor_succ_of_iterate (body : Nat → List Instr) (n : Nat) (co co1 : Coroutine)
    (h : iterate body co = some co1) : runFor body (n + 1) co = runFor body n co1 := by
  simp [runFor, h]

theorem runFor_of_blocked (body : Nat → List Instr) (n : Nat) (co : Coroutine)
    (h : iterate body co = none) : runFor body n co = co := by
  cases n with
  | zero => rfl
  | succ n => simp [runFor, h]

theorem runFor_add (body : Nat → List Instr) (m n : Nat) (co : Coroutine) :
    runFor body (m + n) co = runFor body n (runFor body m co) := by
  induction m generalizing co with
  | zero => simp [runFor]
  | succ m ih =>
    rw [Nat.succ_add]
    cases h : iterate body co with
    | none => simp [runFor, h, runFor_of_blocked body n co h]
    | some co1 => simp [runFor, h, ih]

theorem runContext_log_yield (body : Nat → List Instr) (p : Priority) (x i : Nat)
    (rest : List Instr) (co : Coroutine)
    (hcode : (co.contexts x).code = Instr.log i :: Instr.yield :: rest)
    (halive : (co.contexts x).alive = true) :
    (runContext body p x co).m_runningContextMap = co.m_runningContextMap.erase (p, x) ∧
    (runContext body p x co).posted = co.posted ++ [CoWork.requeue x] ∧
    (runContext body p x co).trace = co.trace ++ [(x, i)] ∧
    ((runContext body p x co).contexts x).pri = (co.contexts x).pri ∧
    ((runContext body p x co).contexts x).alive = true ∧
    ((runContext body p x co).contexts x).joiners = (co.contexts x).joiners ∧
    ((runContext body p x co).contexts x).code = rest ∧
    ∀ z, z ≠ x → (runContext body p x co).contexts z = co.contexts z := by
  simp [runContext, setContext, hcode, runCode, halive]
  intro z hz
  simp [Function.update, hz]

theorem runContext_log_end (body : Nat → List Instr) (p : Priority) (x i : Nat)
    (co : Coroutine)
    (hcode : (co.contexts x).code = [Instr.log i])
    (halive : (co.contexts x).alive = true)
    (hjoin : (co.contexts x).joiners = []) :
    (runContext body p x co).m_runningContextMap = co.m_runningContextMap.erase (p, x) ∧
    (runContext body p x co).posted = co.posted ∧
    (runContext body p x co).trace = co.trace ++ [(x, i)] ∧
    ((runContext body p x co).contexts x).alive = false ∧
    ∀ z, z ≠ x → (runContext body p x co).contexts z = co.contexts z := by
  simp [runContext, setContext, hcode, runCode, halive, hjoin]
  intro z hz
  simp [Function.update, hz]

end Coroutine
namespace Coroutine

theorem process_turnOf (p : Priority) (x y : Nat) (cx cy : List Instr) (t : List (Nat × Nat))
    (co : Coroutine) (h : turnOf p x y cx cy t co) :
    (process co).m_runningContextMap = [(p, x), (p, y)] ∧ (process co).posted = [] ∧
    (process co).trace = t ∧ (process co).contexts = co.contexts := by
  obtain ⟨hq, ht, -, hy⟩ := h
  rcases hq with ⟨hm, hp⟩ | ⟨hm, hp⟩
  · rw [process_of_nothing_posted co hp]
    exact ⟨hm, hp, ht, rfl⟩
  · rw [process_requeue co y hp]
    refine ⟨?_, rfl, ht, rfl⟩
    simp [hm, hy.1, runningEmplace]

theorem turnOf_yield (body : Nat → List Instr) (p : Priority) (x y i m : Nat) (cy : List Instr)
    (t : List (Nat × Nat)) (co : Coroutine) (hxy : x ≠ y)
    (h : turnOf p x y (loopCode i (m + 2)) cy t co) :
    ∃ co1, iterate body co = some co1 ∧
      turnOf p y x cy (loopCode (i + 1) (m + 1)) (t ++ [(x, i)]) co1 := by
  obtain ⟨hm, hp, ht, hc⟩ := process_turnOf p x y _ cy t co h
  obtain ⟨hq, -, hx, hy⟩ := h
  have hhead : ∃ r, co.m_runningContextMap = (p, x) :: r := by
    rcases hq with ⟨h1, -⟩ | ⟨h1, -⟩ <;> exact ⟨_, h1⟩
  obtain ⟨r, hr⟩ := hhead
  refine ⟨_, iterate_cons body co p x r hr, ?_⟩
  have hcode : ((process co).contexts x).code =
      Instr.log i :: Instr.yield :: loopCode (i + 1) (m + 1) := by
    rw [hc, hx.2.2.2]
    rfl
  have halive : ((process co).contexts x).alive = true := by rw [hc]; exact hx.2.1
  obtain ⟨r1, r2, r3, r4, r5, r6, r7, r8⟩ :=
    runContext_log_yield body p x i _ (process co) hcode halive
  refine ⟨Or.inr ⟨?_, ?_⟩, ?_, ?_, ?_⟩
  · rw [r1, hm]; simp
  · rw [r2, hp]; rfl
  · rw [r3, ht]
  · rw [r8 y (Ne.symm hxy), hc]; exact hy
  · refine ⟨?_, r5, ?_, r7⟩
    · rw [r4, hc]; exact hx.1
    · rw [r6, hc]; exact hx.2.2.1

theorem turnOf_end (body : Nat → List Instr) (p : Priority) (x y i : Nat) (cy : List Instr)
    (t : List (Nat × Nat)) (co : Coroutine) (hxy : x ≠ y)
    (h : turnOf p x y [Instr.log i] cy t co) :
    ∃ co1, iterate body co = some co1 ∧ lastTurnOf p y x cy (t ++ [(x, i)]) co1 := by
  obtain ⟨hm, hp, ht, hc⟩ := process_turnOf p x y _ cy t co h
  obtain ⟨hq, -, hx, hy⟩ := h
  have hhead : ∃ r, co.m_runningContextMap = (p, x) :: r := by
    rcases hq with ⟨h1, -⟩ | ⟨h1, -⟩ <;> exact ⟨_, h1⟩
  obtain ⟨r, hr⟩ := hhead
  refine ⟨_, iterate_cons body co p x r hr, ?_⟩
  have hcode : ((process co).contexts x).code = [Instr.log i] := by
    rw [hc, hx.2.2.2]
  have halive : ((process co).contexts x).alive = true := by rw [hc]; exact hx.2.1
  have hjoin : ((process co).contexts x).joiners = [] := by rw [hc]; exact hx.2.2.1
  obtain ⟨r1, r2, r3, r4, r5⟩ :=
    runContext_log_end body p x i (process co) hcode halive hjoin
  refine ⟨?_, ?_, ?_, ?_, r4⟩
  · rw [r1, hm]; simp
  · rw [r2, hp]
  · rw [r3, ht]
  · rw [r5 y (Ne.symm hxy), hc]; exact hy

theorem lastTurnOf_end (body : Nat → List Instr) (p : Priority) (y x i : Nat)
    (t : List (Nat × Nat)) (co : Coroutine) (hxy : x ≠ y)
    (h : lastTurnOf p y x [Instr.log i] t co) :
    ∃ co1, iterate body co = some co1 ∧ co1.m_runningContextMap = [] ∧ co1.posted = [] ∧
      co1.trace = t ++ [(y, i)] ∧ (co1.contexts x).alive = false ∧
      (co1.contexts y).alive = false := by
  obtain ⟨hm, hp, ht, hy, hx⟩ := h
  refine ⟨_, iterate_cons body co p y [] hm, ?_⟩
  rw [process_of_nothing_posted co hp]
  obtain ⟨r1, r2, r3, r4, r5⟩ :=
    runContext_log_end body p y i co hy.2.2.2 hy.2.1 hy.2.2.1
  refine ⟨?_, ?_, ?_, ?_, r4⟩
  · rw [r1, hm]; simp
  · rw [r2, hp]
  · rw [r3, ht]
  · rw [r5 x hxy]; exact hx

theorem iterate_of_idle (body : Nat → List Instr) (co : Coroutine)
    (hm : co.m_runningContextMap = []) (hp : co.posted = []) : iterate body co = none := by
  simp [iterate, hm, hp]

/-- Two Contexts that take turns, each with `m + 1` steps left from label `i`,
run their steps in alternation, and after `2 * (m + 1)` passes both have run
to the end and the scheduler is idle. -/
theorem turnOf_alternates (body : Nat → List Instr) (p : Priority) (a b : Nat) (hab : a ≠ b)
    (m : Nat) : ∀ (i : Nat) (t : List (Nat × Nat)) (co : Coroutine),
    turnOf p a b (loopCode i (m + 1)) (loopCode i (m + 1)) t co →
    (runFor body (2 * (m + 1)) co).m_runningContextMap = [] ∧
    (runFor body (2 * (m + 1)) co).posted = [] ∧
    (runFor body (2 * (m + 1)) co).trace = t ++ alternating a b i (m + 1) ∧
    ((runFor body (2 * (m + 1)) co).contexts a).alive = false ∧
    ((runFor body (2 * (m + 1)) co).contexts b).alive = false := by
  induction m with
  | zero =>
    intro i t co h
    obtain ⟨co1, h1, hl⟩ := turnOf_end body p a b i _ t co hab h
    obtain ⟨co2, h2, f1, f2, f3, f4, f5⟩ := lastTurnOf_end body p b a i _ co1 hab hl
    have hrun : runFor body (2 * (0 + 1)) co = co2 := by
      show runFor body (1 + 1) co = co2
      rw [runFor_succ_of_iterate body 1 co co1 h1, runFor_succ_of_iterate body 0 co1 co2 h2]
      rfl
    rw [hrun]
    exact ⟨f1, f2, by rw [f3]; simp [alternating], f4, f5⟩
  | succ m ih =>
    intro i t co h
    obtain ⟨co1, h1, ht1⟩ := turnOf_yield body p a b i m _ t co hab h
    obtain ⟨co2, h2, ht2⟩ := turnOf_yield body p b a i m _ _ co1 (Ne.symm hab) ht1
    have hrun : runFor body (2 * (m + 1 + 1)) co = runFor body (2 * (m + 1)) co2 := by
      show runFor body (2 * (m + 1) + 1 + 1) co = _
      rw [runFor_succ_of_iterate body _ co co1 h1, runFor_succ_of_iterate body _ co1 co2 h2]
    rw [hrun]
    obtain ⟨f1, f2, f3, f4, f5⟩ := ih (i + 1) _ co2 ht2
    refine ⟨f1, f2, ?_, f4, f5⟩
    rw [f3]
    simp [alternating]

end Coroutine
namespace Coroutine

theorem runningEmplace_default (m : List (Priority × Nat)) (c : Nat)
    (h : ∀ e ∈ m, e.1 = 0) : runningEmplace m 0 c = m ++ [(0, c)] := by
  induction m with
  | nil => rfl
  | cons e m ih =>
    obtain ⟨k1, c1⟩ := e
    have hk : k1 = 0 := h (k1, c1) (List.mem_cons_self _ _)
    subst hk
    simp only [runningEmplace, Nat.lt_irrefl, if_false, List.cons_append]
    rw [ih (fun e he => h e (List.mem_cons_of_mem _ he))]

theorem runWork_default (w : CoWork) (co : Coroutine) (h : defaultPriorities co) :
    defaultPriorities (runWork w co) ∧
    ∃ ext, (runWork w co).m_runningContextMap = co.m_runningContextMap ++ ext := by
  obtain ⟨hc, hm⟩ := h
  have hsnoc : ∀ c, ∀ e ∈ co.m_runningContextMap ++ [((0 : Priority), c)], e.1 = 0 := by
    intro c e he
    rcases List.mem_append.mp he with he | he
    · exact hm e he
    · rw [List.mem_singleton.mp he]
  cases w with
  | register sc =>
    simp only [runWork, hc sc, runningEmplace_default _ sc hm]
    exact ⟨⟨hc, hsnoc sc⟩, _, rfl⟩
  | resume sc =>
    simp only [runWork]
    split
    · exact ⟨⟨hc, hm⟩, [], by simp⟩
    · split
      · exact ⟨⟨hc, hm⟩, [], by simp⟩
      · simp only [hc sc, runningEmplace_default _ sc hm, setContext]
        refine ⟨⟨?_, hsnoc sc⟩, _, rfl⟩
        intro x
        by_cases hx : x = sc
        · subst hx; simp [hc x]
        · simp [Function.update, hx, hc x]
  | requeue sc =>
    simp only [runWork, hc sc, runningEmplace_default _ sc hm]
    exact ⟨⟨hc, hsnoc sc⟩, _, rfl⟩
  | callResume sc =>
    exact ⟨⟨hc, hm⟩, [], by simp [runWork]⟩

theorem drain_default (n : Nat) : ∀ (co : Coroutine), defaultPriorities co →
    defaultPriorities (drain n co) ∧
    ∃ ext, (drain n co).m_runningContextMap = co.m_runningContextMap ++ ext := by
  induction n with
  | zero => intro co h; exact ⟨h, [], by simp [drain]⟩
  | succ n ih =>
    intro co h
    cases hp : co.posted with
    | nil => simp only [drain, hp]; exact ⟨h, [], by simp⟩
    | cons w rest =>
      simp only [drain, hp]
      have h0 : defaultPriorities { co with posted := rest } := h
      obtain ⟨h1, e1, he1⟩ := runWork_default w { co with posted := rest } h0
      obtain ⟨h2, e2, he2⟩ := ih _ h1
      refine ⟨h2, e1 ++ e2, ?_⟩
      rw [he2, he1, List.append_assoc]

theorem process_default (co : Coroutine) (h : defaultPriorities co) :
    defaultPriorities (process co) ∧
    ∃ ext, (process co).m_runningContextMap = co.m_runningContextMap ++ ext :=
  drain_default _ co h

theorem cost_pos (w : CoWork) : 0 < cost w := by
  cases w <;> simp [cost]

theorem cost_le_two (w : CoWork) : cost w ≤ 2 := by
  cases w <;> simp [cost]

theorem sum_cost_le (l : List CoWork) : (l.map cost).sum ≤ 2 * l.length := by
  induction l with
  | nil => simp
  | cons w l ih =>
    have := cost_le_two w
    simp only [List.map_cons, List.sum_cons, List.length_cons]
    omega

/-- With fuel for every closure, those posted meanwhile included, `drain` stops
with nothing posted. -/
theorem drain_posted (n : Nat) : ∀ (co : Coroutine), (co.posted.map cost).sum ≤ n →
    (drain n co).posted = [] := by
  induction n with
  | zero =>
    intro co h
    cases hp : co.posted with
    | nil => simp [drain, hp]
    | cons w rest =>
      rw [hp] at h
      have := cost_pos w
      simp only [List.map_cons, List.sum_cons] at h
      omega
  | succ n ih =>
    intro co h
    cases hp : co.posted with
    | nil => simp [drain, hp]
    | cons w rest =>
      rw [hp] at h
      simp only [List.map_cons, List.sum_cons] at h
      simp only [drain, hp]
      apply ih
      cases w with
      | register sc => simp only [runWork, cost] at h ⊢; omega
      | resume sc =>
        simp only [cost] at h
        simp only [runWork]
        split
        · show (rest.map cost).sum ≤ n; omega
        · split
          · show (rest.map cost).sum ≤ n; omega
          · show (rest.map cost).sum ≤ n; omega
      | requeue sc => simp only [runWork, cost] at h ⊢; omega
      | callResume sc =>
        simp only [cost] at h
        simp only [runWork, List.map_append, List.sum_append, List.map_cons, List.map_nil,
          List.sum_cons, List.sum_nil, cost]
        omega

theorem process_posted (co : Coroutine) : (process co).posted = [] :=
  drain_posted _ co (sum_cost_le co.posted)

theorem work_default (body : Nat → List Instr) (co : Coroutine) (sc ss : Nat) (pri : Priority)
    (h : ∀ x, (co.contexts x).pri = 0) :
    (∀ x, ((work body co sc ss pri).contexts x).pri = 0) ∧
    (work body co sc ss pri).m_runningContextMap = co.m_runningContextMap := by
  refine ⟨?_, rfl⟩
  intro x
  by_cases hx : x = sc
  · subst hx; simp [work, Context.init]
  · simp [work, Function.update, hx, h x]

theorem setContext_default (co : Coroutine) (c : Nat) (cx : Context)
    (h : ∀ x, (co.contexts x).pri = 0) (hcx : cx.pri = 0) :
    ∀ x, ((setContext co c cx).contexts x).pri = 0 := by
  intro x
  by_cases hx : x = c
  · subst hx; simp [setContext, hcx]
  · simp [setContext, Function.update, hx, h x]

theorem runCode_default (body : Nat → List Instr) (c : Nat) (code : List Instr) :
    ∀ (co : Coroutine), (∀ x, (co.contexts x).pri = 0) →
    (∀ x, ((runCode body c code co).contexts x).pri = 0) ∧
    (runCode body c code co).m_runningContextMap = co.m_runningContextMap := by
  induction code with
  | nil =>
    intro co h
    simp only [runCode]
    split
    · split
      · exact ⟨setContext_default co c _ h (h c), rfl⟩
      · exact ⟨setContext_default co c _ h (h c), rfl⟩
    · exact ⟨setContext_default co c _ h (h c), rfl⟩
  | cons ins rest ih =>
    intro co h
    cases ins with
    | log l =>
      simp only [runCode]
      exact ih { co with trace := co.trace ++ [(c, l)] } h
    | yield => exact ⟨setContext_default co c _ h (h c), rfl⟩
    | pending => exact ⟨setContext_default co c _ h (h c), rfl⟩
    | yieldFor sec => exact ⟨setContext_default co c _ h (h c), rfl⟩
    | resume t => exact ⟨setContext_default co c _ h (h c), rfl⟩
    | join t =>
      simp only [runCode]
      split
      · exact ih co h
      · have h1 := setContext_default co t
          { co.contexts t with joiners := (co.contexts t).joiners ++ [c] } h (h t)
        exact ⟨setContext_default _ c _ h1 (h1 c), rfl⟩
    | work child ss pri =>
      simp only [runCode]
      obtain ⟨w1, w2⟩ := work_default body co child ss pri h
      obtain ⟨i1, i2⟩ := ih _ w1
      exact ⟨i1, i2.trans w2⟩

theorem runContext_default (body : Nat → List Instr) (p : Priority) (c : Nat) (co : Coroutine)
    (h : defaultPriorities co) :
    defaultPriorities (runContext body p c co) ∧
    (runContext body p c co).m_runningContextMap = co.m_runningContextMap.erase (p, c) := by
  obtain ⟨hc, hm⟩ := h
  have h2 : ∀ x, ((setContext
      { co with m_currentContext := some c
                m_runningContextMap := co.m_runningContextMap.erase (p, c) } c
      { co.contexts c with firstRun := false }).contexts x).pri = 0 :=
    setContext_default _ c _ hc (hc c)
  obtain ⟨r1, r2⟩ := runCode_default body c _ _ h2
  have hmap : (runContext body p c co).m_runningContextMap =
      co.m_runningContextMap.erase (p, c) := by
    simp only [runContext]
    split
    · exact r2
    · exact r2
  refine ⟨⟨?_, ?_⟩, hmap⟩
  · have h4 := setContext_default _ c
      { (runCode body c _ _).contexts c with running := false } r1 (r1 c)
    intro x
    simp only [runContext]
    split
    · exact h4 x
    · exact h4 x
  · rw [hmap]
    intro e he
    exact hm e (List.mem_of_mem_erase he)

/-- Among Contexts of the default priority the running map is a queue: a
Context `d` queued with no entry of `c` in front of it is scheduled before
`c`, whatever the Contexts scheduled meanwhile do. -/
theorem queuedAhead_runsFirst (body : Nat → List Instr) (c d : Nat) (hcd : c ≠ d) (n : Nat) :
    ∀ (co : Coroutine), defaultPriorities co →
    queuedAhead d c (process co).m_runningContextMap →
    runsFirst d c (scheduled body n co) := by
  induction n with
  | zero =>
    intro co _ _ s1 s2 hs
    simp [scheduled] at hs
  | succ n ih =>
    intro co h hq
    obtain ⟨hp1, ext, hext⟩ := process_default co h
    cases hm : co.m_runningContextMap with
    | nil =>
      simp only [scheduled, hm]
      split
      · intro s1 s2 hs
        simp at hs
      · apply ih (process co) hp1
        rw [process_of_nothing_posted (process co) (process_posted co)]
        exact hq
    | cons e r =>
      obtain ⟨p, x⟩ := e
      have hp0 : p = 0 := h.2 (p, x) (by rw [hm]; exact List.mem_cons_self _ _)
      subst hp0
      simp only [scheduled, hm]
      obtain ⟨l1, l2, hl, hnc⟩ := hq
      rw [hext, hm] at hl
      cases l1 with
      | nil =>
        simp only [List.nil_append, List.cons_append, List.cons.injEq, Prod.mk.injEq,
          true_and] at hl
        obtain ⟨hxd, -⟩ := hl
        subst hxd
        intro s1 s2 hs
        cases s1 with
        | nil =>
          simp only [List.nil_append, List.cons.injEq] at hs
          exact absurd hs.1.symm hcd
        | cons y s1 =>
          simp only [List.cons_append, List.cons.injEq] at hs
          rw [← hs.1]
          exact List.mem_cons_self _ _
      | cons e1 l1 =>
        simp only [List.cons_append, List.cons.injEq] at hl
        obtain ⟨he1, hl⟩ := hl
        subst he1
        have hxc : x ≠ c := by
          intro hx
          subst hx
          exact hnc (List.mem_cons_self _ _)
        obtain ⟨hr1, hr2⟩ := runContext_default body 0 x (process co) hp1
        obtain ⟨hp2, ext2, hext2⟩ := process_default _ hr1
        have hq2 : queuedAhead d c
            (process (runContext body 0 x (process co))).m_runningContextMap := by
          refine ⟨l1, l2 ++ ext2, ?_, fun hmem => hnc (List.mem_cons_of_mem _ hmem)⟩
          rw [hext2, hr2, hext, hm, List.cons_append, List.erase_cons_head, hl]
          simp
        have hrf := ih _ hr1 hq2
        intro s1 s2 hs
        cases s1 with
        | nil =>
          simp only [List.nil_append, List.cons.injEq] at hs
          exact absurd hs.1 hxc
        | cons y s1 =>
          simp only [List.cons_append, List.cons.injEq] at hs
          exact List.mem_cons_of_mem _ (hrf s1 s2 hs.2)

end Coroutine
theorem process_registers (co : Coroutine) (a b : Nat) (p : Priority)
    (hmap : co.m_runningContextMap = [])
    (hposted : co.posted = [CoWork.register a, CoWork.register b])
    (ha : (co.contexts a).pri = p) (hb : (co.contexts b).pri = p) :
    (Coroutine.process co).m_runningContextMap = [(p, a), (p, b)] ∧
    (Coroutine.process co).posted = [] ∧ (Coroutine.process co).trace = co.trace ∧
    (Coroutine.process co).contexts = co.contexts := by
  unfold Coroutine.process
  rw [hposted]
  simp [Coroutine.drain, hposted, Coroutine.runWork, hmap, ha, hb, Coroutine.runningEmplace]

theorem yieldExample_default : Coroutine.defaultPriorities yieldExample := by
  refine ⟨?_, ?_⟩
  · exact (Coroutine.work_default yieldBodies _ 2 0 0
      (Coroutine.work_default yieldBodies Coroutine.new 1 0 0 (fun _ => rfl)).1).1
  · intro e he
    simp [yieldExample, Coroutine.work, Coroutine.new] at he

/-- Contexts `a` and `b` of equal priority `p` are registered in this order on
a Coroutine before either runs, each with a closure of `k` steps and a `yield`
between two steps.  From `2 * k + 1` passes of the
scheduler on, the steps that ran are those of `a` and `b` in strict
alternation, `a` first, both closures have returned and the scheduler is idle.
More generally, for Contexts of the priority that `Context::init` gives: when
Context `c` is scheduled while Context `d` is in the running map behind it and
`c` has no second entry in the map, then whatever `c` and the other Contexts
do, `d` is scheduled before `c` is scheduled again. -/
theorem equal_priority_yield_loops_alternate (body : Nat → List Instr) (a b : Nat)
    (p : Priority) (k : Nat) (co : Coroutine) (hab : a ≠ b) (hk : 0 < k)
    (hmap : co.m_runningContextMap = [])
    (hposted : co.posted = [CoWork.register a, CoWork.register b])
    (ha : Coroutine.ready p (loopCode 1 k) (co.contexts a))
    (hb : Coroutine.ready p (loopCode 1 k) (co.contexts b)) :
    (∀ n, 2 * k + 1 ≤ n →
      (Coroutine.runFor body n co).trace = co.trace ++ alternating a b 1 k ∧
      (Coroutine.runFor body n co).m_runningContextMap = [] ∧
      (Coroutine.runFor body n co).posted = [] ∧
      ((Coroutine.runFor body n co).contexts a).alive = false ∧
      ((Coroutine.runFor body n co).contexts b).alive = false) ∧
    (∀ (co1 : Coroutine) (c d : Nat) (rest : List (Priority × Nat)), c ≠ d →
      Coroutine.defaultPriorities co1 →
      co1.m_runningContextMap = (0, c) :: rest → (0, d) ∈ rest → (0, c) ∉ rest →
      ∀ n, ∃ s, Coroutine.scheduled body (n + 1) co1 = c :: s ∧ Coroutine.runsFirst d c s) := by
  constructor
  · intro n hn
    obtain ⟨m, rfl⟩ : ∃ m, k = m + 1 := ⟨k - 1, by omega⟩
    obtain ⟨j, rfl⟩ : ∃ j, n = (1 + 2 * (m + 1)) + j := ⟨n - (1 + 2 * (m + 1)), by omega⟩
    obtain ⟨q1, q2, q3, q4⟩ := process_registers co a b p hmap hposted ha.1 hb.1
    have hit : Coroutine.iterate body co = some (Coroutine.process co) := by
      simp [Coroutine.iterate, hmap, hposted]
    have hturn : Coroutine.turnOf p a b (loopCode 1 (m + 1)) (loopCode 1 (m + 1)) co.trace
        (Coroutine.process co) :=
      ⟨Or.inl ⟨q1, q2⟩, q3, by rw [q4]; exact ha, by rw [q4]; exact hb⟩
    obtain ⟨f1, f2, f3, f4, f5⟩ :=
      Coroutine.turnOf_alternates body p a b hab m 1 co.trace (Coroutine.process co) hturn
    have h1 : Coroutine.runFor body (1 + 2 * (m + 1)) co =
        Coroutine.runFor body (2 * (m + 1)) (Coroutine.process co) := by
      rw [Nat.add_comm 1]
      exact Coroutine.runFor_succ_of_iterate body _ co _ hit
    rw [Coroutine.runFor_add, h1,
      Coroutine.runFor_of_blocked body j _ (Coroutine.iterate_of_idle body _ f1 f2)]
    exact ⟨f3, f1, f2, f4, f5⟩
  · intro co1 c d rest hcd hdef hm hd hc n
    refine ⟨Coroutine.scheduled body n (Coroutine.runContext body 0 c (Coroutine.process co1)),
      by simp only [Coroutine.scheduled, hm], ?_⟩
    obtain ⟨hp1, ext, hext⟩ := Coroutine.process_default co1 hdef
    obtain ⟨hr1, hr2⟩ := Coroutine.runContext_default body 0 c (Coroutine.process co1) hp1
    obtain ⟨-, ext2, hext2⟩ := Coroutine.process_default _ hr1
    apply Coroutine.queuedAhead_runsFirst body c d hcd n _ hr1
    obtain ⟨l1, l2, hl⟩ := List.append_of_mem hd
    refine ⟨l1, l2 ++ ext ++ ext2, ?_, ?_⟩
    · rw [hext2, hr2, hext, hm, List.cons_append, List.erase_cons_head, hl]
      simp
    · intro hmem
      apply hc
      rw [hl]
      exact List.mem_append_left _ hmem

theorem equal_priority_yield_loops_alternate_witness :
    (Coroutine.runFor yieldBodies 7 yieldExample).trace =
      [(1, 1), (2, 1), (1, 2), (2, 2), (1, 3), (2, 3)] ∧
    (∃ s, Coroutine.scheduled yieldBodies 6 (Coroutine.process yieldExample) = 1 :: s ∧
      Coroutine.runsFirst 2 1 s) :=
  ⟨((equal_priority_yield_loops_alternate yieldBodies 1 2 0 3 yieldExample (by decide)
      (by decide) rfl rfl ⟨rfl, rfl, rfl, rfl⟩ ⟨rfl, rfl, rfl, rfl⟩).1 7 (by decide)).1,
    (equal_priority_yield_loops_alternate yieldBodies 1 2 0 3 yieldExample (by decide)
      (by decide) rfl rfl ⟨rfl, rfl, rfl, rfl⟩ ⟨rfl, rfl, rfl, rfl⟩).2
      (Coroutine.process yieldExample) 1 2 [(0, 2)] (by decide)
      (Coroutine.process_default yieldExample yieldExample_default).1 (by decide)
      (by decide) (by decide) 5⟩

/-- C18, the claim as stated fails.  Context 1 makes three steps with a `yield`
between two steps; Context 2 calls `resume` on Context 1 and then logs 20; both
have priority 0.  The closure of `yield` has put Context 1 back in the running
map without setting its `running` flag, so the closure of that `resume` finds
the flag false and gives Context 1 a second entry in the running map.  When
Context 1 yields after its second step, Context 2 is runnable and in the
running map, yet the next pass schedules Context 1 again: its third step runs
before Context 2 has logged anything. -/
theorem resumed_yielder_continues_before_waiting_context :
    ((Coroutine.runFor resumeBodies 3 resumeExample).contexts 1).running = false ∧
    (Coroutine.runFor resumeBodies 3 resumeExample).posted =
      [CoWork.resume 1, CoWork.requeue 2] ∧
    (Coroutine.runFor resumeBodies 4 resumeExample).trace = [(1, 1), (1, 2)] ∧
    (Coroutine.runFor resumeBodies 4 resumeExample).m_runningContextMap = [(0, 1), (0, 2)] ∧
    (Coroutine.runFor resumeBodies 4 resumeExample).posted = [CoWork.requeue 1] ∧
    (Coroutine.runFor resumeBodies 5 resumeExample).trace = [(1, 1), (1, 2), (1, 3)] ∧
    ((Coroutine.runFor resumeBodies 5 resumeExample).contexts 2).code = [Instr.log 20] ∧
    Coroutine.scheduled resumeBodies 5 resumeExample = [1, 2, 1, 1] := by
  decide

/-- C19, the claim as stated fails: `Coroutine::work` never reads its parameter
`pri`.  Whatever `pri` is, the new Context has priority 0, the one that
`Context::init` writes.  With Context 1 created by `work(f, 0, 5)` and then
Context 2 by `work(g, 0, 1)`, both are keyed by 0 in the running map, in the
order of creation, and the scheduler runs Context 1 first although its
requested priority is the larger number. -/
theorem work_ignores_requested_priority :
    (∀ (body : Nat → List Instr) (co : Coroutine) (sc stackSize : Nat) (pri : Priority),
      ((Coroutine.work body co sc stackSize pri).contexts sc).pri = 0) ∧
    (Coroutine.process priorityExample).m_runningContextMap = [(0, 1), (0, 2)] ∧
    (Coroutine.runFor logBodies 3 priorityExample).trace = [(1, 1), (2, 2)] := by
  refine ⟨?_, by decide, by decide⟩
  intro body co sc stackSize pri
  simp [Coroutine.work, Context.init]

/-- For a Context `t` whose closure has returned, `join(t)` called in Context
`c` goes on with the closure of `c` at once: no jump to the scheduler, no
connection to `signalCompelte`. -/
theorem join_of_completed_context_returns_at_once (body : Nat → List Instr) (c t : Nat)
    (rest : List Instr) (co : Coroutine) (h : (co.contexts t).alive = false) :
    Coroutine.runCode body c (Instr.join t :: rest) co = Coroutine.runCode body c rest co := by
  simp [Coroutine.runCode, h]

/-- C20, the claim as stated fails.  Context 1 logs 1 and calls `join` on
Context 2; Context 2 logs 10 and calls `pending`; Context 3 logs 20 and calls
`resume` on Context 1.  After six passes of the scheduler Context 1 has come
back from `join` and logged 2, while the closure of Context 2 has not
returned: `alive` is still true, and a caller of `join` outside every
Coroutine would still wait. -/
theorem join_returns_while_joined_context_alive :
    (Coroutine.runFor joinBodies 6 joinExample).trace = [(1, 1), (2, 10), (3, 20), (1, 2)] ∧
    ((Coroutine.runFor joinBodies 6 joinExample).contexts 2).alive = true ∧
    ((Coroutine.runFor joinBodies 6 joinExample).contexts 2).code = [Instr.log 11] ∧
    Coroutine.joinOutsideReturns (Coroutine.runFor joinBodies 6 joinExample) 2 = false := by
  decide

/-! ## Coroutine scheduler: `pending`, `resume`, and the running map -/

theorem runFor_of_idle (body : Nat → List Instr) (co : Coroutine) (k j : Nat)
    (hm : (Coroutine.runFor body k co).m_runningContextMap = [])
    (hp : (Coroutine.runFor body k co).posted = []) :
    Coroutine.runFor body (k + j) co = Coroutine.runFor body k co := by
  rw [Coroutine.runFor_add]
  exact Coroutine.runFor_of_blocked body j _ (Coroutine.iterate_of_idle body _ hm hp)

/-- C21, as amended. In the scenario of `testPending1` (Context 1 is X, Context
2 is Y) the scheduler is idle after three passes or more: X has logged X1 and
is suspended in `pending`, Y has logged Y1 and is suspended in `yieldFor`, the
running map is empty and nothing is posted, so X does not run until the Timer
fires and Y calls `resume`.  Five passes or more after the Timer has fired the
log is X1, Y1, X2, Y2: the call `resume(X)` made inside Y yields, the closure
of `resume` is ahead of the closure of that `yield`, and X continues before Y
logs Y2. -/
theorem pending_resume_runs_resumed_context_first (n m : Nat) (hn : 3 ≤ n) (hm : 5 ≤ m) :
    (Coroutine.runFor pendingBodies n pendingExample).trace = [(1, 1), (2, 1)] ∧
    ((Coroutine.runFor pendingBodies n pendingExample).contexts 1).code = [Instr.log 2] ∧
    (Coroutine.runFor pendingBodies n pendingExample).m_runningContextMap = [] ∧
    (Coroutine.runFor pendingBodies n pendingExample).posted = [] ∧
    (Coroutine.runFor pendingBodies m
      ((Coroutine.runFor pendingBodies n pendingExample).timeout 2)).trace =
        [(1, 1), (2, 1), (1, 2), (2, 2)] := by
  obtain ⟨j, rfl⟩ : ∃ j, n = 3 + j := ⟨n - 3, by omega⟩
  obtain ⟨i, rfl⟩ : ∃ i, m = 5 + i := ⟨m - 5, by omega⟩
  rw [runFor_of_idle pendingBodies pendingExample 3 j (by decide) (by decide),
    runFor_of_idle pendingBodies _ 5 i (by decide) (by decide)]
  decide

theorem pending_resume_runs_resumed_context_first_witness :
    (Coroutine.runFor pendingBodies 3 pendingExample).trace = [(1, 1), (2, 1)] ∧
    ((Coroutine.runFor pendingBodies 3 pendingExample).contexts 1).code = [Instr.log 2] ∧
    (Coroutine.runFor pendingBodies 3 pendingExample).m_runningContextMap = [] ∧
    (Coroutine.runFor pendingBodies 3 pendingExample).posted = [] ∧
    (Coroutine.runFor pendingBodies 5
      ((Coroutine.runFor pendingBodies 3 pendingExample).timeout 2)).trace =
        [(1, 1), (2, 1), (1, 2), (2, 2)] :=
  pending_resume_runs_resumed_context_first 3 5 (by decide) (by decide)

/-- C21, the claim as stated fails.  In the scenario of `testPending1`, four
passes after the Timer of `yieldFor` has fired the log is X1, Y1, X2 and Y has
its last step, the log of Y2, still to run; the scheduler jumps into Y, then
X, then Y: X continues before Y logs Y2, and the final log is not X1, Y1, Y2,
X2. -/
theorem pending_resume_does_not_log_resumer_first :
    (Coroutine.runFor pendingBodies 4
      ((Coroutine.runFor pendingBodies 3 pendingExample).timeout 2)).trace =
        [(1, 1), (2, 1), (1, 2)] ∧
    ((Coroutine.runFor pendingBodies 4
      ((Coroutine.runFor pendingBodies 3 pendingExample).timeout 2)).contexts 2).code =
        [Instr.log 2] ∧
    Coroutine.scheduled pendingBodies 5
      ((Coroutine.runFor pendingBodies 3 pendingExample).timeout 2) = [2, 1, 2] ∧
    (Coroutine.runFor pendingBodies 5
      ((Coroutine.runFor pendingBodies 3 pendingExample).timeout 2)).trace ≠
        [(1, 1), (2, 1), (2, 2), (1, 2)] := by
  decide

theorem length_runningEmplace (m : List (Priority × Nat)) (k : Priority) (c : Nat) :
    (Coroutine.runningEmplace m k c).length = m.length + 1 := by
  induction m with
  | nil => rfl
  | cons e m ih =>
    obtain ⟨k1, c1⟩ := e
    simp only [Coroutine.runningEmplace]
    split
    · rfl
    · simp [ih]

/-- C28. The closure that `Coroutine::resume(h)` posts, run in state `co`:
when `h` is in the shared set, alive and not running, the running map gets one
new entry, `h` under its priority, `running` of `h` becomes true, and nothing
else changes; in every other case the state is unchanged.  So the entry is
inserted and the flag set exactly in the first case. -/
theorem resume_closure_enqueues_iff (co : Coroutine) (h : Nat) :
    ((h ∈ co.m_sharedContextSet ∧ (co.contexts h).alive = true ∧
        (co.contexts h).running = false) →
      (Coroutine.runWork (CoWork.resume h) co).m_runningContextMap =
          Coroutine.runningEmplace co.m_runningContextMap (co.contexts h).pri h ∧
      (Coroutine.runWork (CoWork.resume h) co).contexts h =
          { co.contexts h with running := true } ∧
      (∀ x, x ≠ h → (Coroutine.runWork (CoWork.resume h) co).contexts x = co.contexts x) ∧
      (Coroutine.runWork (CoWork.resume h) co).m_sharedContextSet = co.m_sharedContextSet ∧
      (Coroutine.runWork (CoWork.resume h) co).posted = co.posted ∧
      (Coroutine.runWork (CoWork.resume h) co).m_currentContext = co.m_currentContext ∧
      (Coroutine.runWork (CoWork.resume h) co).trace = co.trace) ∧
    (¬ (h ∈ co.m_sharedContextSet ∧ (co.contexts h).alive = true ∧
        (co.contexts h).running = false) →
      Coroutine.runWork (CoWork.resume h) co = co) ∧
    (((Coroutine.runWork (CoWork.resume h) co).m_runningContextMap =
          Coroutine.runningEmplace co.m_runningContextMap (co.contexts h).pri h ∧
        ((Coroutine.runWork (CoWork.resume h) co).contexts h).running = true) ↔
      (h ∈ co.m_sharedContextSet ∧ (co.contexts h).alive = true ∧
        (co.contexts h).running = false)) := by
  have hyes : (h ∈ co.m_sharedContextSet ∧ (co.contexts h).alive = true ∧
        (co.contexts h).running = false) →
      Coroutine.runWork (CoWork.resume h) co =
        { Coroutine.setContext co h { co.contexts h with running := true } with
          m_runningContextMap :=
            Coroutine.runningEmplace co.m_runningContextMap (co.contexts h).pri h } := by
    rintro ⟨h1, h2, h3⟩
    simp [Coroutine.runWork, h1, h2, h3]
  have hno : ¬ (h ∈ co.m_sharedContextSet ∧ (co.contexts h).alive = true ∧
        (co.contexts h).running = false) →
      Coroutine.runWork (CoWork.resume h) co = co := by
    intro hc
    simp only [Coroutine.runWork]
    by_cases h1 : h ∈ co.m_sharedContextSet
    · by_cases h2 : (co.contexts h).alive = true
      · have h3 : (co.contexts h).running = true := by
          by_contra h3
          exact hc ⟨h1, h2, by simpa using h3⟩
        simp [h1, h2, h3]
      · simp [h1, h2]
    · simp [h1]
  refine ⟨?_, hno, ?_⟩
  · intro hc
    rw [hyes hc]
    refine ⟨rfl, by simp [Coroutine.setContext], ?_, rfl, rfl, rfl, rfl⟩
    intro x hx
    simp [Coroutine.setContext, Function.update, hx]
  · constructor
    · rintro ⟨hmap, -⟩
      by_contra hc
      rw [hno hc] at hmap
      have := congrArg List.length hmap
      rw [length_runningEmplace] at this
      omega
    · intro hc
      rw [hyes hc]
      exact ⟨rfl, by simp [Coroutine.setContext]⟩

/-- C30, the claim as stated fails.  Context 1 makes three steps with a `yield`
between two steps; Context 2 calls `resume` on Context 1 and then logs 20.
After Context 1 has yielded, the closure of its `yield` puts it in the running
map while its `running` flag is false.  The closure of the `resume` then finds
the flag false and inserts Context 1 a second time: the running map holds
Context 1 twice.  After Context 1 has run to the end, its second entry is
still in the running map, for a Context that is no longer alive. -/
theorem resume_enqueues_yielded_context_twice :
    (Coroutine.process (Coroutine.runFor resumeBodies 2 resumeExample)).m_runningContextMap =
      [(0, 2), (0, 1)] ∧
    ((Coroutine.process (Coroutine.runFor resumeBodies 2 resumeExample)).contexts 1).running =
      false ∧
    (Coroutine.runFor resumeBodies 3 resumeExample).posted =
      [CoWork.resume 1, CoWork.requeue 2] ∧
    (Coroutine.process (Coroutine.runFor resumeBodies 3 resumeExample)).m_runningContextMap =
      [(0, 1), (0, 1), (0, 2)] ∧
    (Coroutine.runFor resumeBodies 5 resumeExample).m_runningContextMap = [(0, 2), (0, 1)] ∧
    ((Coroutine.runFor resumeBodies 5 resumeExample).contexts 1).alive = false := by
  decide

/-! ## The Loop: `queueSize` and the count of `m_runSem` -/

/-- C26, the claim as stated fails.  An item enqueued at `HighPriority`, which
is 0, the default priority of `work`, goes to the ring, and `queueSize` reads
the size of the multimap only: it is the same before and after the call.  On a
fresh Loop with one closure enqueued by `work(f)`, one item is pending and
`queueSize()` is 0. -/
theorem queueSize_ignores_default_priority :
    (∀ (l : Loop) (w : WorkFun),
      Loop.queueSize (Loop.work l w HighPriority) = Loop.queueSize l) ∧
    Loop.pendingPriorities (Loop.work Loop.new (some 1) 0) = [0] ∧
    Loop.queueSize (Loop.work Loop.new (some 1) 0) = 0 ∧
    Loop.queueSize (Loop.work Loop.new (some 1) 5) = 1 := by
  refine ⟨?_, by decide, by decide, by decide⟩
  intro l w
  simp [Loop.queueSize, Loop.work, Loop.workHelper]

theorem Loop.length_multimapEmplace (m : List (Priority × WorkFun)) (k : Priority) (w : WorkFun) :
    (multimapEmplace m k w).length = m.length + 1 := by
  induction m with
  | nil => rfl
  | cons e m ih =>
    obtain ⟨k1, w1⟩ := e
    simp only [multimapEmplace]
    split
    · rfl
    · simp [ih]

theorem ring_list.available_newItems {T : Type} [Inhabited T] (r : ring_list T) :
    r.newItems.m_available = r.m_available := by
  unfold ring_list.newItems
  split <;> rfl

theorem ring_list.available_push {T : Type} [Inhabited T] (r : ring_list T) (v : T) :
    (r.push v).m_available = r.m_available + 1 := by
  unfold ring_list.push
  split
  · simp [ring_list.available_newItems]
  · rfl

theorem Loop.work_count (l : Loop) (w : WorkFun) (pri : Priority) :
    (Loop.work l w pri).m_runSem.m_value = l.m_runSem.m_value + 1 ∧
    (Loop.work l w pri).pendingCount = l.pendingCount + 1 := by
  unfold Loop.work Loop.workHelper
  by_cases h : pri = HighPriority
  · simp only [h, if_true, Semaphore.post, Loop.pendingCount, ring_list.available,
      ring_list.available_push, true_and]
    omega
  · simp only [h, if_false, Semaphore.post, Loop.pendingCount, ring_list.available,
      Loop.length_multimapEmplace, true_and]
    omega

theorem Loop.balanced_work (l : Loop) (w : WorkFun) (pri : Priority) (h : l.balanced) :
    (Loop.work l w pri).balanced := by
  obtain ⟨h1, h2⟩ := Loop.work_count l w pri
  unfold Loop.balanced at h ⊢
  omega

theorem Loop.takeWork_of_owing (l : Loop) (h : l.owing) :
    ∃ pri l1, l.takeWork = some (pri, l1) ∧ l1.balanced := by
  unfold Loop.owing Loop.pendingCount ring_list.available at h
  unfold Loop.takeWork ring_list.pop
  by_cases ha : l.m_highPriWorkTable.m_available = 0
  · simp only [ha, if_true]
    cases hm : l.m_eventsMap with
    | nil => rw [hm, ha] at h; simp at h
    | cons e rest =>
      obtain ⟨k, w⟩ := e
      refine ⟨k, _, rfl, ?_⟩
      rw [hm, ha] at h
      simp only [Loop.balanced, Loop.pendingCount, ring_list.available, ha]
      simp only [List.length_cons] at h
      omega
  · simp only [ha, if_false]
    refine ⟨_, _, rfl, ?_⟩
    simp only [Loop.balanced, Loop.pendingCount, ring_list.available]
    omega

theorem Loop.processData_balanced (exec : Nat → Loop → Loop)
    (hexec : ∀ k l, l.balanced → (exec k l).balanced) (fuel : Nat) :
    ∀ (l l2 : Loop), l.owing → (Loop.processData exec fuel l).2 = some l2 → l2.balanced := by
  induction fuel with
  | zero => intro l l2 _ h; simp [Loop.processData] at h
  | succ fuel ih =>
    intro l l2 ho h
    obtain ⟨pri, l1, ht, hb⟩ := Loop.takeWork_of_owing l ho
    simp only [Loop.processData, ht] at h
    have hran : ∀ (ran : List Nat × Loop), ran.2.balanced →
        (match ran.2.m_runSem.tryWait with
          | (true, s) =>
            ((ran.1 ++ (Loop.processData exec fuel { ran.2 with m_runSem := s }).1,
              (Loop.processData exec fuel { ran.2 with m_runSem := s }).2) :
                List Nat × Option Loop)
          | (false, _) => (ran.1, some ran.2)).2 = some l2 → l2.balanced := by
      intro ran hrb hres
      by_cases hv : 0 < ran.2.m_runSem.m_value
      · rw [tryWait_pos _ hv] at hres
        simp only at hres
        refine ih _ l2 ?_ hres
        unfold Loop.balanced Loop.pendingCount at hrb
        simp only [Loop.owing, Loop.pendingCount]
        omega
      · have hf : ran.2.m_runSem.tryWait = (false, ran.2.m_runSem) := by
          simp [Semaphore.tryWait, hv]
        rw [hf] at hres
        simp only [Option.some.injEq] at hres
        rw [← hres]
        exact hrb
    rcases l1 with ⟨rs, rr, rm, _ | k⟩
    · exact hran ([], _) hb h
    · exact hran ([k], exec k _) (hexec k _ hb) h

theorem Loop.owing_of_wait (l : Loop) (s : Semaphore) (h : l.balanced)
    (hs : l.m_runSem.wait = some s) : Loop.owing { l with m_runSem := s } := by
  unfold Semaphore.wait at hs
  split at hs
  · rename_i hv
    simp only [Option.some.injEq] at hs
    subst hs
    unfold Loop.balanced Loop.pendingCount at h
    simp only [Loop.owing, Loop.pendingCount]
    omega
  · cases hs

theorem Loop.owing_of_tryWait (l : Loop) (s : Semaphore) (h : l.balanced)
    (hs : l.m_runSem.tryWait = (true, s)) : Loop.owing { l with m_runSem := s } := by
  unfold Semaphore.tryWait at hs
  split at hs
  · rename_i hv
    simp only [Prod.mk.injEq, true_and] at hs
    subst hs
    unfold Loop.balanced Loop.pendingCount at h
    simp only [Loop.owing, Loop.pendingCount]
    omega
  · simp at hs

theorem Loop.balanced_workAll (ws : List (WorkFun × Priority)) :
    ∀ (l : Loop), l.balanced → (Loop.workAll l ws).balanced := by
  induction ws with
  | nil => intro l h; exact h
  | cons x ws ih =>
    intro l h
    exact ih _ (Loop.balanced_work l x.1 x.2 h)

theorem enqueuesDuringRun_balanced (k : Nat) (l : Loop) (h : l.balanced) :
    (enqueuesDuringRun k l).balanced := by
  unfold enqueuesDuringRun
  split
  · exact Loop.balanced_workAll _ _ (Loop.balanced_work l _ _ h)
  · exact h

/-- C27, as amended. On a Loop whose closures do not call `waitEvent` (running
closure `k` keeps the value of `m_runSem` equal to the number of pending
items, as every call of `work` does), that equality holds on a fresh Loop and
is kept by every call of `work`, by every item that `processData` takes after
the `wait` or `tryWait` that paid for it, and by every whole pass of `run`,
`process` and `waitProcess` that comes to its end; so it holds whenever the
Loop thread is blocked on `m_runSem`, where both numbers are 0. -/
theorem runSem_counts_pending_items (exec : Nat → Loop → Loop)
    (hexec : ∀ k l, l.balanced → (exec k l).balanced) :
    Loop.new.balanced ∧
    (∀ (l : Loop) (w : WorkFun) (pri : Priority), l.balanced → (Loop.work l w pri).balanced) ∧
    (∀ (l : Loop) (s : Semaphore), l.balanced → l.m_runSem.wait = some s →
      ∃ pri l1, Loop.takeWork { l with m_runSem := s } = some (pri, l1) ∧ l1.balanced) ∧
    (∀ (l : Loop) (s : Semaphore), l.balanced → l.m_runSem.tryWait = (true, s) →
      ∃ pri l1, Loop.takeWork { l with m_runSem := s } = some (pri, l1) ∧ l1.balanced) ∧
    (∀ (fuel : Nat) (l l2 : Loop) (tr : List Nat), l.balanced →
      Loop.runPass exec fuel l = some (tr, some l2) → l2.balanced) ∧
    (∀ (p : LoopPool) (this tid fuel : Nat) (l l2 : Loop) (tr : List Nat), l.balanced →
      Loop.process p this tid exec fuel l = Except.ok (tr, some l2) → l2.balanced) ∧
    (∀ (p : LoopPool) (this tid fuel : Nat) (l l2 : Loop) (tr : List Nat), l.balanced →
      Loop.waitProcess p this tid exec fuel l = Except.ok (some (tr, some l2)) → l2.balanced) ∧
    (∀ (fuel : Nat) (l : Loop), l.balanced → Loop.runPass exec fuel l = none →
      l.m_runSem.m_value = 0 ∧ l.pendingCount = 0) := by
  refine ⟨by decide, fun l w pri h => Loop.balanced_work l w pri h, ?_, ?_, ?_, ?_, ?_, ?_⟩
  · intro l s h hs
    exact Loop.takeWork_of_owing _ (Loop.owing_of_wait l s h hs)
  · intro l s h hs
    exact Loop.takeWork_of_owing _ (Loop.owing_of_tryWait l s h hs)
  · intro fuel l l2 tr h hrun
    unfold Loop.runPass at hrun
    cases hs : l.m_runSem.wait with
    | none => simp [hs] at hrun
    | some s =>
      simp only [hs, Option.some.injEq] at hrun
      exact Loop.processData_balanced exec hexec fuel _ l2 (Loop.owing_of_wait l s h hs)
        (by rw [hrun])
  · intro p this tid fuel l l2 tr h hrun
    unfold Loop.process at hrun
    split at hrun
    · cases hrun
    · split at hrun
      · simp only [Except.ok.injEq, Prod.mk.injEq, Option.some.injEq] at hrun
        rw [← hrun.2]
        exact h
      · rename_i s hs
        simp only [Except.ok.injEq] at hrun
        exact Loop.processData_balanced exec hexec fuel _ l2 (Loop.owing_of_tryWait l s h hs)
          (by rw [hrun])
  · intro p this tid fuel l l2 tr h hrun
    unfold Loop.waitProcess at hrun
    split at hrun
    · cases hrun
    · cases hs : l.m_runSem.wait with
      | none => simp [hs] at hrun
      | some s =>
        simp only [hs, Option.map_some', Except.ok.injEq, Option.some.injEq] at hrun
        exact Loop.processData_balanced exec hexec fuel _ l2 (Loop.owing_of_wait l s h hs)
          (by rw [hrun])
  · intro fuel l h hrun
    unfold Loop.runPass at hrun
    cases hs : l.m_runSem.wait with
    | some s => simp [hs] at hrun
    | none =>
      unfold Semaphore.wait at hs
      split at hs
      · cases hs
      · rename_i hv
        unfold Loop.balanced at h
        omega

theorem runSem_counts_pending_items_witness :
    onePending.balanced ∧
    ∃ tr l2, Loop.runPass enqueuesDuringRun 10 onePending = some (tr, some l2) ∧
      tr = [1, 9, 10, 11] ∧ l2.balanced :=
  ⟨by decide, _, _, rfl, by decide,
    (runSem_counts_pending_items enqueuesDuringRun enqueuesDuringRun_balanced).2.2.2.2.1
      10 onePending _ _ (by decide) rfl⟩

/-- C27, the claim as stated fails.  The closures 1 and 2 are pending on a
Loop, the value of `m_runSem` is 2, and closure 1 calls `waitEvent()` on that
Loop.  The pass of `run` takes closure 1 only; `waitEvent` has taken the count
that stood for closure 2.  After the pass the value of `m_runSem` is 0 with one
item pending, and the Loop thread blocks on `m_runSem`. -/
theorem waitEvent_leaves_item_without_count :
    twoDefaultPending.balanced ∧ twoDefaultPending.m_runSem.m_value = 2 ∧
    (∃ l2, Loop.runPass callsWaitEvent 5 twoDefaultPending = some ([1], some l2) ∧
      l2.m_runSem.m_value = 0 ∧ l2.pendingCount = 1 ∧ ¬ l2.balanced ∧
      Loop.runPass callsWaitEvent 5 l2 = none) := by
  refine ⟨by decide, by decide, _, rfl, by decide, by decide, by decide, by decide⟩

/-! ## The coroutine pool -/

namespace CoroutinePool

theorem poolEmplace_of_le (m : List (Score × Nat)) (k : Score) (c : Nat)
    (h : ∀ e ∈ m, e.1 ≤ k) : poolEmplace m k c = m ++ [(k, c)] := by
  induction m with
  | nil => rfl
  | cons e m ih =>
    obtain ⟨k1, c1⟩ := e
    have hk : k1 ≤ k := h (k1, c1) (List.mem_cons_self _ _)
    simp only [poolEmplace, not_lt.mpr hk, if_false, List.cons_append]
    rw [ih (fun e he => h e (List.mem_cons_of_mem _ he))]

theorem mem_poolEmplace (m : List (Score × Nat)) (k : Score) (c : Nat) :
    (k, c) ∈ poolEmplace m k c := by
  induction m with
  | nil => simp [poolEmplace]
  | cons e m ih =>
    obtain ⟨k1, c1⟩ := e
    simp only [poolEmplace]
    split
    · exact List.mem_cons_self _ _
    · exact List.mem_cons_of_mem _ ih

/-- The entries that the loop of `setPoolSize` has made after `i` passes on an
empty pool: member `j` under the score `2 * j` millionths. -/
theorem grow_from (size : Nat) (hsize : size < 2 ^ 63) (n : Nat) :
    ∀ (fuel i : Nat) (p : CoroutinePool), (size + 1) / 2 - i = n → i ≤ (size + 1) / 2 →
    n < fuel →
    p.g_poolMap = (List.range i).map (fun j => (((2 * j : Nat) : Int), j)) →
    p.created = i →
    ∃ p1, grow (size : Int) fuel i p = some p1 ∧
      p1.g_poolMap = (List.range ((size + 1) / 2)).map (fun j => (((2 * j : Nat) : Int), j)) ∧
      p1.created = (size + 1) / 2 ∧ p1.g_poolSize = p.g_poolSize ∧ p1.init = p.init := by
  induction n with
  | zero =>
    intro fuel i p hn hi hf hmap hc
    obtain ⟨fuel, rfl⟩ : ∃ f, fuel = f + 1 := ⟨fuel - 1, by omega⟩
    have hi2 : i = (size + 1) / 2 := by omega
    have hcond : ¬ i < ((size : Int).toNat + 2 ^ 64 - p.g_poolMap.length) % 2 ^ 64 := by
      rw [hmap]
      simp only [Int.toNat_ofNat, List.length_map, List.length_range]
      norm_num at hsize ⊢
      omega
    simp only [grow, hcond, if_false]
    exact ⟨p, rfl, by rw [hmap, hi2], by rw [hc, hi2], rfl, rfl⟩
  | succ n ih =>
    intro fuel i p hn hi hf hmap hc
    obtain ⟨fuel, rfl⟩ : ∃ f, fuel = f + 1 := ⟨fuel - 1, by omega⟩
    have hcond : i < ((size : Int).toNat + 2 ^ 64 - p.g_poolMap.length) % 2 ^ 64 := by
      rw [hmap]
      simp only [Int.toNat_ofNat, List.length_map, List.length_range]
      norm_num at hsize ⊢
      omega
    simp only [grow, hcond, if_true]
    have hnew : poolEmplace p.g_poolMap (((i + p.g_poolMap.length : Nat) : Int)) p.created =
        (List.range (i + 1)).map (fun j => (((2 * j : Nat) : Int), j)) := by
      rw [poolEmplace_of_le]
      · rw [hmap, hc]
        simp only [List.length_map, List.length_range, List.range_succ, List.map_append,
          List.map_cons, List.map_nil]
        rw [show i + i = 2 * i by omega]
      · intro e he
        rw [hmap] at he
        simp only [List.mem_map, List.mem_range] at he
        obtain ⟨j, hj, rfl⟩ := he
        simp only [hmap, List.length_map, List.length_range]
        exact_mod_cast (by omega : 2 * j ≤ i + i)
    obtain ⟨p1, h1, h2, h3, h4, h5⟩ := ih fuel (i + 1)
      { p with
        created := p.created + 1
        g_poolMap := poolEmplace p.g_poolMap (((i + p.g_poolMap.length : Nat) : Int)) p.created
        g_coroutineWorkSizeMap := sizeEmplace p.g_coroutineWorkSizeMap p.created
          (((i + p.g_poolMap.length : Nat) : Int)) }
      (by omega) (by omega) (by omega) hnew (by simp only [hc])
    exact ⟨p1, h1, h2, h3, h4, h5⟩

theorem setPoolSize_start (hc : Int) (size : Nat) (h1 : 1 ≤ size) (h2 : size < 2 ^ 63) :
    ∃ p, setPoolSize (size : Int) (start hc) = some p ∧
      p.g_poolMap = (List.range ((size + 1) / 2)).map (fun j => (((2 * j : Nat) : Int), j)) := by
  have hlt : ((({ start hc with g_poolSize := (size : Int) } : CoroutinePool).g_poolMap.length
      : Nat) : Int) < (size : Int) := by
    simp only [start, List.length_nil]
    exact_mod_cast h1
  simp only [setPoolSize, hlt, if_true]
  obtain ⟨p1, h, hm, -⟩ := grow_from size h2 ((size + 1) / 2 - 0)
    ((size : Int).toNat + 1) 0 { start hc with g_poolSize := (size : Int) } rfl (by omega)
    (by simp only [Int.toNat_ofNat]; omega) rfl rfl
  exact ⟨p1, h, hm⟩

theorem initPool_start (size : Nat) (h1 : 1 ≤ size) (h2 : size < 2 ^ 63) :
    ∃ p, initPool (start (size : Int)) = some p ∧
      p.g_poolMap = (List.range ((size + 1) / 2)).map (fun j => (((2 * j : Nat) : Int), j)) := by
  have hlt : ((({ start (size : Int) with init := true } : CoroutinePool).g_poolMap.length
      : Nat) : Int) < ({ start (size : Int) with init := true } : CoroutinePool).g_poolSize := by
    simp only [start, List.length_nil]
    exact_mod_cast h1
  have hinit : (start (size : Int)).init = false := rfl
  simp only [initPool, hinit, Bool.not_false, if_true, hlt]
  obtain ⟨p1, h, hm, -⟩ := grow_from size h2 ((size + 1) / 2 - 0)
    ((size : Int).toNat + 1) 0 { start (size : Int) with init := true } rfl (by omega)
    (by simp only [Int.toNat_ofNat]; omega) rfl rfl
  exact ⟨p1, h, hm⟩

end CoroutinePool

/-- C22, the claim as stated fails.  The loop of `setPoolSize` and of `initPool`
compares its counter with `size - g_poolMap.size()`, which falls by one with
every Coroutine the loop makes, so the loop ends after half the passes: for
every `N` from 1 on (below `2 ^ 63`), `setPoolSize(N)` on an empty pool, and the
first-use initialisation with the configured size `N`, leave a pool of
`(N + 1) / 2` Coroutines, member `j` under the score `2 * j` millionths.
`setPoolSize(2)` makes one Coroutine, and a configured size of 8 makes four. -/
theorem pool_initialisation_makes_half_the_members :
    (∀ (hc : Int) (N : Nat), 1 ≤ N → N < 2 ^ 63 →
      ∃ p, CoroutinePool.setPoolSize (N : Int) (CoroutinePool.start hc) = some p ∧
        p.g_poolMap = (List.range ((N + 1) / 2)).map (fun j => (((2 * j : Nat) : Int), j)) ∧
        p.g_poolMap.length = (N + 1) / 2) ∧
    (∀ (N : Nat), 1 ≤ N → N < 2 ^ 63 →
      ∃ p, CoroutinePool.initPool (CoroutinePool.start (N : Int)) = some p ∧
        p.g_poolMap = (List.range ((N + 1) / 2)).map (fun j => (((2 * j : Nat) : Int), j)) ∧
        p.g_poolMap.length = (N + 1) / 2) ∧
    ((CoroutinePool.setPoolSize 2 (CoroutinePool.start 8)).map fun p => p.g_poolMap) =
      some [(0, 0)] ∧
    ((CoroutinePool.initPool (CoroutinePool.start 8)).map fun p => p.g_poolMap) =
      some [(0, 0), (2, 1), (4, 2), (6, 3)] := by
  refine ⟨?_, ?_, by decide, by decide⟩
  · intro hc N h1 h2
    obtain ⟨p, hp, hm⟩ := CoroutinePool.setPoolSize_start hc N h1 h2
    exact ⟨p, hp, hm, by simp [hm]⟩
  · intro N h1 h2
    obtain ⟨p, hp, hm⟩ := CoroutinePool.initPool_start N h1 h2
    exact ⟨p, hp, hm, by simp [hm]⟩

/-- C23, the claim as stated fails.  After `setPoolSize(3)` the pool has the
members 0 and 1, under the scores 0 and 2 millionths.  The first
`coroutineWork` runs `initPool`, whose loop adds member 2 under the score 2
again.  The second call selects member 1 and erases every entry under its
score, the entry of member 2 with it.  From then on member 2, whose score stays
at 2 millionths, is never selected: four calls launch on the members 0, 1, 0,
1, the third on member 0 at score 1 while member 2 is at 2 millionths, and
afterwards the scores are 2, 2.000002 and 0.000002. -/
theorem coroutineWork_drops_member_with_equal_score :
    ((poolOfSize 3).map fun p => p.g_poolMap) = some [(0, 0), (2, 1)] ∧
    (((poolOfSize 3).bind (CoroutinePool.coroutineWorks 1)).map
      fun r => (r.1, r.2.g_poolMap)) = some ([0], [(2, 1), (2, 2), (1000000, 0)]) ∧
    (((poolOfSize 3).bind (CoroutinePool.coroutineWorks 2)).map
      fun r => (r.1, r.2.g_poolMap, r.2.g_coroutineWorkSizeMap)) =
        some ([0, 1], [(1000000, 0), (1000002, 1)], [(0, 1000000), (1, 1000002), (2, 2)]) ∧
    (((poolOfSize 3).bind (CoroutinePool.coroutineWorks 4)).map
      fun r => (r.1, r.2.g_poolMap, r.2.g_coroutineWorkSizeMap)) =
        some ([0, 1, 0, 1], [(2000000, 0), (2000002, 1)],
          [(0, 2000000), (1, 2000002), (2, 2)]) := by
  refine ⟨by decide, by decide, by decide, by decide⟩

namespace CoroutinePool

theorem lookup_setScore (m : List (Nat × Score)) (co : Nat) (s v : Score)
    (h : m.lookup co = some s) : (setScore m co v).lookup co = some v := by
  induction m with
  | nil => simp at h
  | cons e m ih =>
    obtain ⟨c1, s1⟩ := e
    by_cases hc : c1 = co
    · have hset : setScore ((c1, s1) :: m) co v = (co, v) :: setScore m co v := by
        simp [setScore, hc]
      rw [hset]
      simp [List.lookup]
    · have hset : setScore ((c1, s1) :: m) co v = (c1, s1) :: setScore m co v := by
        simp [setScore, hc]
      rw [hset]
      have hc2 : (co == c1) = false := by
        simp only [beq_eq_false_iff_ne, ne_eq]
        exact fun h => hc h.symm
      simp only [List.lookup, hc2] at h ⊢
      exact ih h

end CoroutinePool

namespace FloatPool

theorem score_raiseScore (co : Nat) (p p1 : FloatPool) (h : raiseScore co p = some p1) :
    ∃ s, p.score co = some s ∧ p1.score co = some (Binary.add s Binary.one) ∧
      (Binary.add s Binary.one, co) ∈ p1.g_poolMap := by
  unfold raiseScore at h
  cases hl : p.g_coroutineWorkSizeMap.lookup co with
  | none => simp [hl] at h
  | some s =>
    simp only [hl, Option.some.injEq] at h
    subst h
    exact ⟨s, hl, CoroutinePool.lookup_setScore _ co s _ hl, CoroutinePool.mem_poolEmplace _ _ _⟩

theorem score_lowerScore (co : Nat) (p : FloatPool) (s : Binary)
    (hs : p.score co = some s) (hmem : (s, co) ∈ p.g_poolMap) :
    ∃ p1, lowerScore co p = some p1 ∧ p1.score co = some (Binary.sub s Binary.one) := by
  unfold score at hs
  have hany : (p.g_poolMap.any fun e => e.1 = s) = true := by
    simp only [List.any_eq_true, decide_eq_true_eq]
    exact ⟨(s, co), hmem, rfl⟩
  simp only [lowerScore, hs, hany, if_true]
  exact ⟨_, rfl, CoroutinePool.lookup_setScore _ co s _ hs⟩

end FloatPool

/-- C24, as amended. A call `loopWork(f, pri)` that selects member `co`, whose
score is `s`, adds 1 to the score in `float` arithmetic and posts two closures
on the Loop of `co`: `f` at `pri`, and behind it, at the default priority, a
closure that subtracts 1 from the score of `co`, again in `float` arithmetic.
That closure runs: after both have run, the score of `co` is the `float`
`(s + 1) - 1`, each operation rounded. -/
theorem loopWork_posts_its_own_decrement (f : Nat) (pri : Priority) (p p1 : FloatPool)
    (co : Nat) (posted : List (PoolWork × Priority))
    (h : FloatPool.loopWork f pri p = some (co, posted, p1)) :
    posted = [(PoolWork.user f, pri), (PoolWork.decrement co, 0)] ∧
    ∃ p0 s, FloatPool.initPool p = some p0 ∧ p0.score co = some s ∧
      p1.score co = some (Binary.add s Binary.one) ∧
      ∃ p2, FloatPool.runPoolWorks (posted.map Prod.fst) p1 = some p2 ∧
        p2.score co = some (Binary.sub (Binary.add s Binary.one) Binary.one) := by
  unfold FloatPool.loopWork at h
  cases hi : FloatPool.initPool p with
  | none => simp [hi] at h
  | some p0 =>
    simp only [hi] at h
    cases hm : p0.g_poolMap with
    | nil => simp [hm] at h
    | cons e rest =>
      obtain ⟨k, c⟩ := e
      simp only [hm] at h
      cases hr : FloatPool.raiseScore c p0 with
      | none => simp [hr] at h
      | some q =>
        simp only [hr, Option.map_some', Option.some.injEq, Prod.mk.injEq] at h
        obtain ⟨rfl, rfl, rfl⟩ := h
        obtain ⟨s, h1, h2, h3⟩ := FloatPool.score_raiseScore c p0 q hr
        obtain ⟨p2, h4, h5⟩ := FloatPool.score_lowerScore c q _ h2 h3
        refine ⟨rfl, p0, s, rfl, h1, h2, p2, ?_, h5⟩
        simp [FloatPool.runPoolWorks, FloatPool.runPoolWork, h4]

set_option maxRecDepth 100000 in
theorem loopWork_posts_its_own_decrement_witness :
    ∃ p1, FloatPool.loopWork 8 3 busyPool =
        some (1, [(PoolWork.user 8, 3), (PoolWork.decrement 1, 0)], p1) ∧
      ∃ p0 s, FloatPool.initPool busyPool = some p0 ∧
        p0.score 1 = some s ∧ p1.score 1 = some (Binary.add s Binary.one) ∧
        ∃ p2, FloatPool.runPoolWorks [PoolWork.user 8, PoolWork.decrement 1] p1 = some p2 ∧
          p2.score 1 = some (Binary.sub (Binary.add s Binary.one) Binary.one) :=
  ⟨_, rfl, (loopWork_posts_its_own_decrement 8 3 busyPool _ 1 _ rfl).2⟩

set_option maxRecDepth 100000 in
/-- C24, the claim as stated fails.  On a machine whose hardware concurrency is
3 the first `loopWork(f)` makes the members 0 and 1, selects member 0, whose
score is 0, raises it to 1 and posts, behind `f`, the closure that lowers it;
once the closures posted by the call have run, the score of member 0 is 0
again, not 1.  A second call made before those closures have run selects
member 1, whose score is the `float` of `0.000002`, which is
`9444732941893632 * 2 ^ (-72)`; the call raises it to `1 + 17 * 2 ^ (-23)` and
posts the closure that lowers it; once the closures posted by the call have
run, the score of member 1 is `17 * 2 ^ (-23)`: not one higher than before the
call, and not what it was before the call either. -/
theorem loopWork_raise_is_not_permanent :
    ((FloatPool.initPool (FloatPool.start 3)).map fun p => (p.score 0, p.score 1)) =
      some (some 0, some 9444732941893632) ∧
    ((FloatPool.loopWork 7 3 (FloatPool.start 3)).map
      fun r => (r.1, r.2.1, r.2.2.score 0)) =
        some (0, [(PoolWork.user 7, 3), (PoolWork.decrement 0, 0)], some (2 ^ 72)) ∧
    ((FloatPool.loopWork 7 3 (FloatPool.start 3)).bind
      fun r => (FloatPool.runPoolWorks (r.2.1.map Prod.fst) r.2.2).map
        fun p => p.score 0) = some (some 0) ∧
    ((FloatPool.loopWork 7 3 (FloatPool.start 3)).map fun r => r.2.2) = some busyPool ∧
    busyPool.score 1 = some 9444732941893632 ∧
    ((FloatPool.loopWork 8 3 busyPool).map
      fun r => (r.1, r.2.1, r.2.2.score 1)) =
        some (1, [(PoolWork.user 8, 3), (PoolWork.decrement 1, 0)],
          some (2 ^ 72 + 17 * 2 ^ 49)) ∧
    ((FloatPool.loopWork 8 3 busyPool).bind
      fun r => (FloatPool.runPoolWorks (r.2.1.map Prod.fst) r.2.2).map
        fun p => p.score 1) = some (some (17 * 2 ^ 49)) ∧
    (17 * 2 ^ 49 : Int) ≠ 9444732941893632 + 2 ^ 72 ∧
    (17 * 2 ^ 49 : Int) ≠ 9444732941893632 := by
  refine ⟨by decide, by decide, by decide, by decide, by decide, by decide, by decide,
    by decide, by decide⟩

/-! ## The timer service: `Timer::stop` -/

namespace TimerService

theorem stopLoop_eq_eraseP (status : Nat → TimerStatus) (this : Nat) (t : Seconds)
    (l : List (Seconds × Nat)) (hs : l.Pairwise (fun a b => a.1 ≤ b.1))
    (hge : ∀ e ∈ l, t ≤ e.1) :
    stopLoop status this t l =
      l.eraseP (fun e => decide (e.1 = t) && decide ((status e.2).timer = this)) := by
  induction l with
  | nil => rfl
  | cons e l ih =>
    obtain ⟨k, sts⟩ := e
    rw [List.pairwise_cons] at hs
    by_cases hk : t = k
    · subst hk
      by_cases ht : (status sts).timer = this
      · simp [stopLoop, ht]
      · have hp : (decide ((t, sts).1 = t) && decide ((status (t, sts).2).timer = this)) = false := by
          simp [ht]
        rw [List.eraseP_cons_of_neg (by simp [ht])]
        simp only [stopLoop, ne_eq, not_true_eq_false, if_false, ht, not_false_eq_true, if_true]
        rw [ih hs.2 (fun e he => hge e (List.mem_cons_of_mem _ he))]
    · have hlt : t < k := lt_of_le_of_ne (hge (k, sts) (List.mem_cons_self _ _)) hk
      have hnone : ∀ e ∈ (k, sts) :: l,
          ¬ (decide (e.1 = t) && decide ((status e.2).timer = this)) = true := by
        intro e he
        have hke : k ≤ e.1 := by
          rcases List.mem_cons.mp he with rfl | he
          · exact le_refl _
          · exact hs.1 e he
        have : e.1 ≠ t := (lt_of_lt_of_le hlt hke).ne'
        simp [this]
      rw [List.eraseP_of_forall_not hnone]
      simp [stopLoop, hk]

theorem stopErase_eq_eraseP (status : Nat → TimerStatus) (this : Nat) (t : Seconds)
    (m : List (Seconds × Nat)) (hs : m.Pairwise (fun a b => a.1 ≤ b.1)) :
    stopErase status this t m =
      m.eraseP (fun e => decide (e.1 = t) && decide ((status e.2).timer = this)) := by
  have hsplit := List.takeWhile_append_dropWhile (fun e : Seconds × Nat => decide (e.1 < t)) m
  have hbefore : ∀ e ∈ m.takeWhile (fun e => decide (e.1 < t)),
      ¬ (decide (e.1 = t) && decide ((status e.2).timer = this)) = true := by
    intro e he
    have := List.mem_takeWhile_imp he
    simp only [decide_eq_true_eq] at this
    have hne : e.1 ≠ t := this.ne
    simp [hne]
  have herase : m.eraseP (fun e => decide (e.1 = t) && decide ((status e.2).timer = this)) =
      m.takeWhile (fun e => decide (e.1 < t)) ++
        (m.dropWhile (fun e => decide (e.1 < t))).eraseP
          (fun e => decide (e.1 = t) && decide ((status e.2).timer = this)) := by
    conv_lhs => rw [← hsplit]
    exact List.eraseP_append_right _ hbefore
  have hsd : (m.dropWhile (fun e => decide (e.1 < t))).Pairwise (fun a b => a.1 ≤ b.1) :=
    hs.sublist (List.dropWhile_sublist _)
  unfold stopErase
  cases hd : m.dropWhile (fun e => decide (e.1 < t)) with
  | nil =>
    rw [herase, hd]
    simp only [List.eraseP_nil, List.append_nil]
    rw [hd, List.append_nil] at hsplit
    exact hsplit.symm
  | cons e rest =>
    obtain ⟨k, sts⟩ := e
    have hhead : ¬ k < t := by
      have := List.head_dropWhile_not (fun e : Seconds × Nat => decide (e.1 < t)) m
        (by rw [hd]; simp)
      simp only [hd, List.head_cons, decide_eq_true_eq] at this
      simpa using this
    rw [hd] at hsd
    have hge : ∀ e ∈ (k, sts) :: rest, t ≤ e.1 := by
      intro e he
      rcases List.mem_cons.mp he with rfl | he
      · exact not_lt.mp hhead
      · exact le_trans (not_lt.mp hhead) ((List.pairwise_cons.mp hsd).1 e he)
    simp only
    split
    · rename_i hlt
      rw [herase, hd]
      have hnone : ∀ e ∈ (k, sts) :: rest,
          ¬ (decide (e.1 = t) && decide ((status e.2).timer = this)) = true := by
        intro e he
        have hke : k ≤ e.1 := by
          rcases List.mem_cons.mp he with rfl | he
          · exact le_refl _
          · exact (List.pairwise_cons.mp hsd).1 e he
        have : e.1 ≠ t := (lt_of_lt_of_le hlt hke).ne'
        simp [this]
      rw [List.eraseP_of_forall_not hnone, ← hd, hsplit]
    · rw [herase, hd, stopLoop_eq_eraseP status this t _ hsd hge]

end TimerService

theorem filter_not_eraseP {α : Type} (p : α → Bool) (l : List α) :
    (l.eraseP p).filter (fun e => !p e) = l.filter (fun e => !p e) := by
  induction l with
  | nil => rfl
  | cons a l ih =>
    by_cases h : p a = true
    · rw [List.eraseP_cons_of_pos h]
      simp [List.filter_cons, h]
    · rw [List.eraseP_cons_of_neg h]
      simp [List.filter_cons, h, ih]

/-- C29. `Timer::stop` on Timer `t`, with the timer map sorted by key as a
`std::multimap` is: `running` of the status becomes false and nothing else of
any status changes; the map loses the first entry under the key
`lastEmitTime + timeout` whose status has `t` as its Timer, and nothing else:
the entries that are under another key or belong to another Timer are all
still there, in their order; with no such entry the map is unchanged, with one
the map is one entry shorter; the map stays sorted, and the ready array and
the emissions are untouched. -/
theorem timer_stop_removes_its_own_entry_only (t : Timer) (s : TimerService)
    (hsorted : s.g_timerMap.Pairwise (fun a b => a.1 ≤ b.1)) :
    (t.stop s).status t.m_sharedTimerStatus =
      { s.status t.m_sharedTimerStatus with running := false } ∧
    (∀ h, h ≠ t.m_sharedTimerStatus → (t.stop s).status h = s.status h) ∧
    (t.stop s).g_timerMap = s.g_timerMap.eraseP (fun e =>
      decide (e.1 = (s.status t.m_sharedTimerStatus).lastEmitTime +
        (s.status t.m_sharedTimerStatus).timeout) &&
      decide ((s.status e.2).timer = t.this)) ∧
    (t.stop s).g_timerMap.filter (fun e =>
        !(decide (e.1 = (s.status t.m_sharedTimerStatus).lastEmitTime +
          (s.status t.m_sharedTimerStatus).timeout) &&
        decide ((s.status e.2).timer = t.this))) =
      s.g_timerMap.filter (fun e =>
        !(decide (e.1 = (s.status t.m_sharedTimerStatus).lastEmitTime +
          (s.status t.m_sharedTimerStatus).timeout) &&
        decide ((s.status e.2).timer = t.this))) ∧
    ((∀ e ∈ s.g_timerMap,
        ¬ (e.1 = (s.status t.m_sharedTimerStatus).lastEmitTime +
            (s.status t.m_sharedTimerStatus).timeout ∧
          (s.status e.2).timer = t.this)) →
      (t.stop s).g_timerMap = s.g_timerMap) ∧
    ((∃ e ∈ s.g_timerMap,
        e.1 = (s.status t.m_sharedTimerStatus).lastEmitTime +
            (s.status t.m_sharedTimerStatus).timeout ∧
          (s.status e.2).timer = t.this) →
      (t.stop s).g_timerMap.length + 1 = s.g_timerMap.length) ∧
    (t.stop s).g_timerMap.Pairwise (fun a b => a.1 ≤ b.1) ∧
    (t.stop s).readyTimerArray = s.readyTimerArray ∧ (t.stop s).emitted = s.emitted := by
  have hmap : (t.stop s).g_timerMap = s.g_timerMap.eraseP (fun e =>
      decide (e.1 = (s.status t.m_sharedTimerStatus).lastEmitTime +
        (s.status t.m_sharedTimerStatus).timeout) &&
      decide ((s.status e.2).timer = t.this)) :=
    TimerService.stopErase_eq_eraseP s.status t.this _ s.g_timerMap hsorted
  refine ⟨by simp [Timer.stop], ?_, hmap, ?_, ?_, ?_, ?_, rfl, rfl⟩
  · intro h hh
    simp [Timer.stop, Function.update, hh]
  · rw [hmap]
    exact filter_not_eraseP _ _
  · intro hnone
    rw [hmap]
    apply List.eraseP_of_forall_not
    intro e he
    have := hnone e he
    simpa using this
  · rintro ⟨e, he, h1, h2⟩
    rw [hmap, List.length_eraseP_of_mem he (by simp [h1, h2])]
    have : 0 < s.g_timerMap.length := List.length_pos_of_mem he
    omega
  · rw [hmap]
    exact hsorted.sublist (List.eraseP_sublist _)


theorem timer_stop_removes_its_own_entry_only_witness :
    fourTimers.g_timerMap = [(5, 1), (7, 2), (7, 3), (9, 4)] ∧
    ((timerAt 3).stop fourTimers).g_timerMap = [(5, 1), (7, 2), (9, 4)] ∧
    ((timerAt 3).stop fourTimers).g_timerMap.length + 1 = fourTimers.g_timerMap.length ∧
    ((timerAt 3).stop fourTimers).status 3 = { fourTimers.status 3 with running := false } :=
  ⟨by decide, by decide,
    (timer_stop_removes_its_own_entry_only (timerAt 3) fourTimers (by decide)).2.2.2.2.2.1
      ⟨(7, 3), by decide, by decide, by decide⟩,
    (timer_stop_removes_its_own_entry_only (timerAt 3) fourTimers (by decide)).1⟩
/-! ## The timer service: a Timer started again between the scan and the emission -/

/-- C25, the claim as stated fails.  The scan of a pass that reads the time `n`
moves to the ready array the entries at the head of the map whose key is not
above `n`, and no other, and the body of the emission loop leaves the map as it
is for a single-shot status.  But the body tests only the `running` flag of a
collected status, and that flag is true again when the Timer has been started
anew since the scan.  Timer 1 is started at time 0 with the delay 5 and its
status is collected by the scan at time 6; before the emission loop runs,
Timer 1 is started again, at time 6 with the delay 10, so its deadline is 16
and the map holds its new entry.  The emission loop, at time 7, emits Timer 1,
nine ticks before the deadline, and the pass at time 16 emits it again: two
emissions for one start, the first before `t0 + d`.  When the second start
comes after the emission loop instead, the emission at time 7 belongs to the
first start and the scan at time 16 collects nothing. -/
theorem restarted_timer_emits_before_deadline_and_again :
    (∀ (q : TimerService) (n : Seconds), ∃ popped,
      q.g_timerMap = popped ++ (q.helperCollect n).g_timerMap ∧
      (q.helperCollect n).readyTimerArray = q.readyTimerArray ++ popped.map Prod.snd ∧
      ∀ e ∈ popped, e.1 ≤ n) ∧
    (∀ (q : TimerService) (n : Seconds) (x : Nat), (q.status x).singleShot = true →
      (q.helperFire n x).g_timerMap = q.g_timerMap) ∧
    (idleTimers.steps [TimerOp.start (timerAt 1) 5 0, TimerOp.scan 6]).readyTimerArray = [1] ∧
    (idleTimers.steps [TimerOp.start (timerAt 1) 5 0, TimerOp.scan 6]).emitted = [] ∧
    restartedAfterScan.readyTimerArray = [1] ∧
    restartedAfterScan.g_timerMap = [(16, 1)] ∧
    restartedAfterScan.status 1 =
      { running := true, singleShot := true, timeout := 10, lastEmitTime := 6, timer := 1 } ∧
    (restartedAfterScan.steps [TimerOp.fire 7]).emitted = [(1, 7)] ∧
    (restartedAfterScan.steps [TimerOp.fire 7]).g_timerMap = [(16, 1)] ∧
    (restartedAfterScan.steps [TimerOp.fire 7, TimerOp.scan 16, TimerOp.fire 16]).emitted =
      [(1, 7), (1, 16)] ∧
    (idleTimers.steps [TimerOp.start (timerAt 1) 5 0, TimerOp.scan 6, TimerOp.fire 7,
      TimerOp.start (timerAt 1) 10 7, TimerOp.scan 16, TimerOp.fire 16]).emitted =
      [(1, 7)] := by
  refine ⟨?_, ?_, by decide, by decide, by decide, by decide, by decide, by decide, by decide,
    by decide, by decide⟩
  · intro q n
    refine ⟨q.g_timerMap.takeWhile (fun e => !decide (n < e.1)), ?_, rfl, ?_⟩
    · exact (List.takeWhile_append_dropWhile _ _).symm
    · intro e he
      have := List.mem_takeWhile_imp he
      simpa using this
  · intro q n x hx
    by_cases hr : (q.status x).running = true
    · simp [TimerService.helperFire, hr, hx]
    · simp [TimerService.helperFire, hr]

end SpaE
